import Mathlib

/-!
# TFS: a shallow embedding of `tfs.c` / `tfs.h`

The image is memory-mapped in the C code.  Here the mapped regions are explicit
fields of a state record: the superblock words, the inode table (a function from
inode number to inode record) and the data region (a function from block number
and byte offset to a byte).  Pointers to inodes are passed as values in and out.
Timestamps (`atim`, `mtim`) are wall-clock values and are left out.
The path cache is the table of glibc's `hcreate`/`hsearch`: a finite map with the
number of entries the table was created for and the number entered so far.
-/

namespace TFS

/-! ## Constants of `tfs.h` -/

abbrev BLOCK_SIZE : Nat := 4096
abbrev BLOCKS_PER_NODE : Nat := 4
abbrev DIRECT_BLOCKS : Int := 12
abbrev ILEVELS : Int := 3
abbrev NAME_LIMIT : Nat := 64
/-- Number of inode numbers per block: `BLOCK_SIZE / sizeof(nodoff_t)`, `nodoff_t` being 8 bytes. -/
abbrev BLOCK_MAX_CHILDREN : Nat := 512
/-- Number of block numbers per block: `BLOCK_SIZE / sizeof(blkoff_t)`, `blkoff_t` being 8 bytes. -/
abbrev BLOCK_MAX_POINTERS : Nat := 512
abbrev END_BLOCKS : Int := -1
abbrev END_NODES : Int := -1
/-- Directory type bit of `mode_t` (octal 040000). -/
abbrev S_IFDIR : Nat := 16384
abbrev EEXIST : Int := 17
abbrev ENOSPC : Int := 28
abbrev ENAMETOOLONG : Int := 36
abbrev ENOTSUP : Int := 95

/-- Conversion of a signed 64-bit value to `unsigned long`. -/
def u64 (x : Int) : Int := x % 18446744073709551616

/-- Conversion of a 64-bit pattern to a signed `off_t`. -/
def s64 (x : Int) : Int :=
  if (x % 18446744073709551616).toNat < 9223372036854775808 then x % 18446744073709551616
  else x % 18446744073709551616 - 18446744073709551616

/-- Conversion of a byte count to the `int` that `tfs_node_read` and
`tfs_node_write` return (gcc on x86-64: reduction modulo 2^32 into the signed
range). -/
def s32 (x : Int) : Int := (x + 2147483648) % 4294967296 - 2147483648

/-! ## Data model -/

/-- Array store `a[i] = v` on an array modelled as a function of its index. -/
def aset (a : Int → Int) (i v : Int) : Int → Int := fun j => if j = i then v else a j

/-- The inode record `struct tfs_node`.  `size` is the word shared by `size` and
`nlink`; `next` is the free-list link, which in C overlays the first word of the
record and is only read while the inode is free. -/
structure tfs_node where
  mode : Nat
  name : List Char
  blocks : Int → Int
  iblocks : Int → Int
  nblocks : Nat
  size : Nat
  next : Int

/-- The directory view of the shared `size`/`nlink` word. -/
def tfs_node.nlink (n : tfs_node) : Nat := n.size

/-- The test `node->mode & S_IFDIR`. -/
def tfs_node.isDir (n : tfs_node) : Bool := Nat.land n.mode S_IFDIR != 0

/-- The global `tfs_info` together with the superblock it points into, the static
`free_block_buffer` and the `hsearch` table.  A table entry is absent (`none`),
present with a NULL datum (`some none`) or present with an inode (`some (some n)`).
The table was created by `hcreate` for `hsize` entries, of which `hfilled` have
been entered; entries are never deleted. -/
structure tfs_info where
  nblocks : Int
  nnodes : Int
  free_block_head : Int
  free_node_head : Int
  nodes : Int → tfs_node
  data : Int → Nat → Nat
  free_block_buffer : Int → Int
  htable : List Char → Option (Option Int)
  hsize : Nat
  hfilled : Nat

/-- The iterator `struct block_cursor` (its `node` pointer is passed alongside). -/
structure block_cursor where
  i : Int
  level : Int
  pos : Int → Int
  block : Int → Int

/-- `DEFINE_BLOCK_CURSOR`: `level = -1`, everything else zero-initialised. -/
def DEFINE_BLOCK_CURSOR : block_cursor :=
  { i := 0, level := -1, pos := fun _ => 0, block := fun _ => 0 }

/-! ## Words inside blocks (little-endian 8-byte integers) -/

/-- Byte `j` of the 64-bit two's-complement encoding of `v`. -/
def byteOf (v : Int) (j : Nat) : Nat := (v % 18446744073709551616).toNat / 256 ^ j % 256

/-- The unsigned value of the 8 bytes at byte offset `o` of a block. -/
def leValue (blk : Nat → Nat) (o : Nat) : Nat :=
  blk o + 256 * (blk (o + 1) + 256 * (blk (o + 2) + 256 * (blk (o + 3) +
    256 * (blk (o + 4) + 256 * (blk (o + 5) + 256 * (blk (o + 6) + 256 * blk (o + 7)))))))

/-- The read `BLOCK_POINTERS(b)[k]` (equally `BLOCK_NODES(b)[k]`). -/
def rd64 (d : Int → Nat → Nat) (b : Int) (k : Int) : Int :=
  s64 (leValue (d b) (8 * k.toNat))

/-- The store `BLOCK_POINTERS(b)[k] = v`. -/
def wr64 (d : Int → Nat → Nat) (b : Int) (k : Int) (v : Int) : Int → Nat → Nat :=
  fun b' o =>
    if b' = b ∧ 8 * k.toNat ≤ o ∧ o < 8 * k.toNat + 8 then byteOf v (o - 8 * k.toNat) else d b' o

/-- The macro `NEXT_FREE_BLOCK(block)`. -/
def NEXT_FREE_BLOCK (d : Int → Nat → Nat) (b : Int) : Int := rd64 d b 0

/-- The macro `CURRENT_BLOCK(cursor)`. -/
def CURRENT_BLOCK (st : tfs_info) (node : tfs_node) (c : block_cursor) : Int :=
  if c.i < DIRECT_BLOCKS then node.blocks c.i
  else rd64 st.data (c.block c.level) (c.pos c.level)

/-! ## Bit twiddling -/

/-- The loop of `msb`: `while (n >>= 1) r++`. -/
def msb_loop : Nat → Nat → Nat → Nat
  | 0, _, r => r
  | fuel + 1, n, r => if n / 2 ≠ 0 then msb_loop fuel (n / 2) (r + 1) else r

/-- The function `msb` on an `unsigned int` argument (at most 32 shifts). -/
def msb (n : Nat) : Nat := msb_loop 32 (n % 4294967296) 0

abbrev MAX_POINTERS_NBITS : Nat := 9
abbrev BLOCK_SIZE_NBITS : Nat := 12

/-- The macro `FLOG(x)`; the argument is converted to `unsigned int` by `msb`. -/
def FLOG (x : Int) : Int := (msb (u64 x).toNat / MAX_POINTERS_NBITS : Nat)

/-- The macro `MAX_POINTERS_POW(e)`. -/
def MAX_POINTERS_POW (e : Int) : Int :=
  if e = 0 then 1 else (BLOCK_MAX_POINTERS : Int) * 2 ^ (MAX_POINTERS_NBITS * (e - 1).toNat)

/-! ## The block cursor -/

/-- Result of the first loop of `block_seek`: the cursor and the remaining offset. -/
structure seek_state where
  cursor : block_cursor
  offset : Int

/-- The first `for` loop of `block_seek`: split `offset` into slots and follow the
index blocks.  `i` counts up to `cursor->level`. -/
def seek_loop (st : tfs_info) : Nat → block_cursor → Int → Int → seek_state
  | 0, c, _, offset => ⟨c, offset⟩
  | fuel + 1, c, i, offset =>
    if i < c.level then
      let N := MAX_POINTERS_POW (c.level - i)
      let c1 := { c with pos := aset c.pos i (offset / N) }
      let c2 := { c1 with block := aset c1.block (i + 1) (rd64 st.data (c1.block i) (c1.pos i)) }
      seek_loop st fuel c2 (i + 1) (offset % N)
    else ⟨c, offset⟩

/-- The second `for` loop of `block_seek`: clear the slots below the level. -/
def seek_clear : Nat → block_cursor → Int → block_cursor
  | 0, c, _ => c
  | fuel + 1, c, i =>
    if i < ILEVELS then seek_clear fuel { c with pos := aset c.pos i 0 } (i + 1) else c

/-- Result of `block_seek`: the block returned and the cursor. -/
structure seek_result where
  ret : Int
  cursor : block_cursor

/-- The function `block_seek`. -/
def block_seek (st : tfs_info) (node : tfs_node) (cursor : block_cursor) (pos : Int) :
    seek_result :=
  let c0 := { cursor with i := pos, level := -1 }
  if pos > (node.nblocks : Int) then ⟨-1, c0⟩
  else if pos < DIRECT_BLOCKS then ⟨node.blocks pos, c0⟩
  else
    let p := pos - DIRECT_BLOCKS
    let c1 := { c0 with level := FLOG (p + 1 - (p + 1) / BLOCK_MAX_POINTERS) }
    let accum : Int :=
      BLOCK_MAX_POINTERS * (MAX_POINTERS_POW c1.level - 1) / (BLOCK_MAX_POINTERS - 1)
    let c2 := { c1 with block := aset c1.block 0 (node.iblocks c1.level) }
    let s3 := seek_loop st c2.level.toNat c2 0 (p - accum)
    let c4 := { s3.cursor with pos := aset s3.cursor.pos s3.cursor.level s3.offset }
    let c5 := seek_clear (ILEVELS - (c4.level + 1)).toNat c4 (c4.level + 1)
    ⟨CURRENT_BLOCK st node c5, c5⟩

/-- Result of the carry loop: the cursor and the local `level`. -/
structure carry_state where
  cursor : block_cursor
  level : Int

/-- The carry loop of `iter_through`:
`while (level >= 0 && ++cursor->pos[level] >= BLOCK_MAX_POINTERS) cursor->pos[level--] = 0`.
The comparison with `BLOCK_MAX_POINTERS` is an unsigned one. -/
def carry_loop : Nat → block_cursor → Int → carry_state
  | 0, c, level => ⟨c, level⟩
  | fuel + 1, c, level =>
    if level ≥ 0 then
      let c1 := { c with pos := aset c.pos level (c.pos level + 1) }
      if u64 (c1.pos level) ≥ BLOCK_MAX_POINTERS then
        carry_loop fuel { c1 with pos := aset c1.pos level 0 } (level - 1)
      else ⟨c1, level⟩
    else ⟨c, level⟩

/-- What a callback of `iter_through` returns and leaves behind. -/
structure cb_result where
  ret : Int
  node : tfs_node
  st : tfs_info

/-- Type of the callbacks handed to `iter_through`. -/
abbrev callback_t := tfs_info → tfs_node → block_cursor → Int → cb_result

/-- State threaded through the loops over a cursor. -/
structure iter_state where
  st : tfs_info
  node : tfs_node
  cursor : block_cursor

/-- The reload loop of `iter_through`:
`for (; level < cursor->level; level++) cursor->block[level + 1] = callback(cursor, level)`. -/
def reload_loop (callback : callback_t) :
    Nat → tfs_info → tfs_node → block_cursor → Int → iter_state
  | 0, st, node, c, _ => ⟨st, node, c⟩
  | fuel + 1, st, node, c, level =>
    if level < c.level then
      let r := callback st node c level
      reload_loop callback fuel r.st r.node { c with block := aset c.block (level + 1) r.ret }
        (level + 1)
    else ⟨st, node, c⟩

/-- Result of `iter_through`. -/
structure iter_result where
  ret : Int
  st : tfs_info
  node : tfs_node
  cursor : block_cursor

/-- The function `iter_through`. -/
def iter_through (callback : callback_t) (st : tfs_info) (node : tfs_node) (cursor : block_cursor) :
    iter_result :=
  let c0 := { cursor with i := cursor.i + 1 }
  if c0.i < DIRECT_BLOCKS then
    let r := callback st node c0 (-1)
    ⟨r.ret, r.st, r.node, c0⟩
  else
    let cl := carry_loop (c0.level + 1).toNat c0 c0.level
    let c2 := if cl.level = -1 then { cl.cursor with level := cl.cursor.level + 1 } else cl.cursor
    let s3 := reload_loop callback (c2.level - cl.level).toNat st node c2 cl.level
    let r := callback s3.st s3.node s3.cursor s3.cursor.level
    ⟨r.ret, r.st, r.node, s3.cursor⟩

/-- The callback `_next_block_callback`.  The comparison of `cursor->i` with the
unsigned `nblocks` is an unsigned one. -/
def _next_block_callback (st : tfs_info) (node : tfs_node) (c : block_cursor) (level : Int) :
    cb_result :=
  if u64 c.i ≥ (node.nblocks : Int) then ⟨END_BLOCKS, node, st⟩
  else if c.i < DIRECT_BLOCKS then ⟨node.blocks c.i, node, st⟩
  else if level = -1 then ⟨node.iblocks c.level, node, st⟩
  else ⟨rd64 st.data (c.block level) (c.pos level), node, st⟩

/-- The macro `next_block`. -/
def next_block (st : tfs_info) (node : tfs_node) (c : block_cursor) : seek_result :=
  ⟨(iter_through _next_block_callback st node c).ret,
   (iter_through _next_block_callback st node c).cursor⟩

/-- The callback `_free_callback`. -/
def _free_callback (st : tfs_info) (node : tfs_node) (c : block_cursor) (level : Int) :
    cb_result :=
  ⟨(_next_block_callback st node c level).ret, node,
   { st with
     free_block_buffer :=
       aset st.free_block_buffer (level + 1) (_next_block_callback st node c level).ret }⟩

/-- The callback `_alloc_callback`. -/
def _alloc_callback (st : tfs_info) (node : tfs_node) (c : block_cursor) (level : Int) :
    cb_result :=
  if st.free_block_head = END_BLOCKS then ⟨-1, node, st⟩
  else if c.i < DIRECT_BLOCKS then
    ⟨st.free_block_head, { node with blocks := aset node.blocks c.i st.free_block_head },
     { st with free_block_head := NEXT_FREE_BLOCK st.data st.free_block_head }⟩
  else if level = -1 then
    ⟨st.free_block_head, { node with iblocks := aset node.iblocks c.level st.free_block_head },
     { st with free_block_head := NEXT_FREE_BLOCK st.data st.free_block_head }⟩
  else
    ⟨st.free_block_head, node,
     { st with
        free_block_head := NEXT_FREE_BLOCK st.data st.free_block_head,
        data := wr64 st.data (c.block level) (c.pos level) st.free_block_head }⟩

/-! ## Node I/O -/

/-- The macro `NODE_SIZE`, of type `unsigned long`.  For a directory the product
`nlink * sizeof(nodoff_t)` wraps modulo 2^64.  For a regular file `size` is a
non-negative `off_t`, which the conversion leaves as it is. -/
def NODE_SIZE (node : tfs_node) : Nat :=
  if node.isDir then (node.nlink * 8) % 18446744073709551616 else node.size

/-- The macro `NODE_NRBLOCKS`.  The sum `BLOCK_SIZE + NODE_SIZE(node) - 1` is an
`unsigned long`: for a directory, where `NODE_SIZE` ranges over all 64-bit values,
it wraps modulo 2^64 (`nlink = 2^64 - 1` requires 0 blocks).  For a regular file
`size` is at most `2^63 - 1` and the sum does not wrap. -/
def NODE_NRBLOCKS (node : tfs_node) : Nat :=
  if node.isDir then (BLOCK_SIZE + NODE_SIZE node - 1) % 18446744073709551616 / BLOCK_SIZE
  else (BLOCK_SIZE + NODE_SIZE node - 1) / BLOCK_SIZE

/-- One pass of the loop body that moves `free_block_buffer[i]` onto the free list. -/
def push_free (st : tfs_info) (i : Int) : tfs_info :=
  { st with
    data := wr64 st.data (st.free_block_buffer i) 0 st.free_block_head,
    free_block_head := st.free_block_buffer i,
    free_block_buffer := aset st.free_block_buffer i (-1) }

/-- The loop of `tfs_node_trim` that empties `free_block_buffer` onto the free list:
`for (int i = 0; i <= cursor.level + 1; i++)`. -/
def clear_buffer (level : Int) : Nat → tfs_info → Int → tfs_info
  | 0, st, _ => st
  | fuel + 1, st, i =>
    if i ≤ level + 1 then
      if st.free_block_buffer i < 0 then clear_buffer level fuel st (i + 1)
      else clear_buffer level fuel (push_free st i) (i + 1)
    else st

/-- State of the loops of `tfs_node_trim`. -/
structure trim_state where
  st : tfs_info
  node : tfs_node
  cursor : block_cursor
  dblocks : Int

/-- The shrinking loop of `tfs_node_trim`. -/
def shrink_loop : Nat → tfs_info → tfs_node → block_cursor → Int → trim_state
  | 0, st, node, c, dblocks => ⟨st, node, c, dblocks⟩
  | fuel + 1, st, node, c, dblocks =>
    if dblocks ≠ 0 then
      let r := iter_through _free_callback st node c
      if r.ret ≠ END_BLOCKS then
        shrink_loop fuel (clear_buffer r.cursor.level (r.cursor.level + 2).toNat r.st 0) r.node
          r.cursor (dblocks + 1)
      else ⟨r.st, r.node, r.cursor, dblocks⟩
    else ⟨st, node, c, dblocks⟩

/-- The growing loop of `tfs_node_trim`. -/
def grow_loop : Nat → tfs_info → tfs_node → block_cursor → Int → trim_state
  | 0, st, node, c, dblocks => ⟨st, node, c, dblocks⟩
  | fuel + 1, st, node, c, dblocks =>
    if dblocks ≠ 0 then
      let r := iter_through _alloc_callback st node c
      if r.ret ≠ END_BLOCKS then grow_loop fuel r.st r.node r.cursor (dblocks - 1)
      else ⟨r.st, r.node, r.cursor, dblocks⟩
    else ⟨st, node, c, dblocks⟩

/-- The size clamp at the end of `tfs_node_trim`. -/
def clamp_size (node : tfs_node) : tfs_node :=
  if node.isDir then { node with size := min node.nlink (node.nblocks * BLOCK_MAX_CHILDREN) }
  else { node with size := min node.size (node.nblocks * BLOCK_SIZE) }

/-- Result of `tfs_node_trim` and of `tfs_node_write`. -/
structure node_result where
  ret : Int
  node : tfs_node
  st : tfs_info

/-- The function `tfs_node_trim`.  Each loop runs at most `|dblocks|` times. -/
def tfs_node_trim (st : tfs_info) (node : tfs_node) : node_result :=
  let nrblocks : Int := NODE_NRBLOCKS node
  let dblocks : Int := nrblocks - node.nblocks
  if dblocks < 0 then
    let c1 := (block_seek st node DEFINE_BLOCK_CURSOR (nrblocks - 1)).cursor
    let s := shrink_loop dblocks.natAbs st node c1 dblocks
    ⟨if s.dblocks > 0 then -ENOSPC else 0,
     clamp_size { s.node with nblocks := nrblocks.toNat }, s.st⟩
  else
    let c1 := (block_seek st node DEFINE_BLOCK_CURSOR ((node.nblocks : Int) - 1)).cursor
    let s := grow_loop dblocks.natAbs st node c1 dblocks
    ⟨if s.dblocks > 0 then -ENOSPC else 0,
     clamp_size { s.node with nblocks := (nrblocks - s.dblocks).toNat }, s.st⟩

/-- The call `memcpy(buf + bufpos, &data[block][off], len)`. -/
def memcpy_out (buf : Nat → Nat) (bufpos : Nat) (d : Int → Nat → Nat) (block : Int) (off len : Nat) :
    Nat → Nat :=
  fun k => if bufpos ≤ k ∧ k < bufpos + len then d block (off + (k - bufpos)) else buf k

/-- The call `memcpy(&data[block][off], buf + bufpos, len)`. -/
def memcpy_in (d : Int → Nat → Nat) (block : Int) (off : Nat) (buf : Nat → Nat) (bufpos len : Nat) :
    Int → Nat → Nat :=
  fun b o => if b = block ∧ off ≤ o ∧ o < off + len then buf (bufpos + (o - off)) else d b o

/-- State of the loop of `tfs_node_read`. -/
structure read_state where
  buf : Nat → Nat
  to_read : Nat

/-- The loop of `tfs_node_read`; `bufpos` is the distance `buf` has advanced. -/
def read_loop (st : tfs_info) (node : tfs_node) :
    Nat → block_cursor → Int → (Nat → Nat) → Nat → Nat → Nat → read_state
  | 0, _, _, buf, _, to_read, _ => ⟨buf, to_read⟩
  | fuel + 1, c, block, buf, bufpos, to_read, offset =>
    if offset < NODE_SIZE node ∧ min to_read (BLOCK_SIZE - offset % BLOCK_SIZE) ≠ 0 then
      let chunk := min to_read (BLOCK_SIZE - offset % BLOCK_SIZE)
      let buf1 := memcpy_out buf bufpos st.data block (offset % BLOCK_SIZE)
        (min chunk (NODE_SIZE node - offset))
      let nb := next_block st node c
      read_loop st node fuel nb.cursor nb.ret buf1 (bufpos + chunk) (to_read - chunk)
        (offset + chunk)
    else ⟨buf, to_read⟩

/-- Result of `tfs_node_read`: the count returned and the caller's buffer. -/
structure read_result where
  ret : Int
  buf : Nat → Nat

/-- The function `tfs_node_read`.  Every iteration consumes at least one byte of
`to_read`, so `size` iterations suffice.  The count `size - to_read` is returned
as an `int`. -/
def tfs_node_read (st : tfs_info) (node : tfs_node) (buf : Nat → Nat) (size offset : Nat) :
    read_result :=
  let s := block_seek st node DEFINE_BLOCK_CURSOR ((offset / BLOCK_SIZE : Nat) : Int)
  let r := read_loop st node size s.cursor s.ret buf 0 size offset
  ⟨s32 ((size : Int) - r.to_read), r.buf⟩

/-- State of the loop of `tfs_node_write`. -/
structure write_state where
  st : tfs_info
  to_write : Nat

/-- The loop of `tfs_node_write`; `bufpos` is the distance `buf` has advanced. -/
def write_loop (node : tfs_node) (buf : Nat → Nat) :
    Nat → tfs_info → block_cursor → Int → Nat → Nat → Nat → write_state
  | 0, st, _, _, _, to_write, _ => ⟨st, to_write⟩
  | fuel + 1, st, c, block, bufpos, to_write, offset =>
    if offset < NODE_SIZE node ∧ min to_write (BLOCK_SIZE - offset % BLOCK_SIZE) ≠ 0 then
      let chunk := min to_write (BLOCK_SIZE - offset % BLOCK_SIZE)
      let st1 := { st with data := memcpy_in st.data block (offset % BLOCK_SIZE) buf bufpos chunk }
      let nb := next_block st1 node c
      write_loop node buf fuel st1 nb.cursor nb.ret (bufpos + chunk) (to_write - chunk)
        (offset + chunk)
    else ⟨st, to_write⟩

/-- The function `tfs_node_write`.  The value of `ret < 0 ? ret : size - to_write`
is returned as an `int`. -/
def tfs_node_write (st : tfs_info) (node : tfs_node) (buf : Nat → Nat) (size offset : Nat) :
    node_result :=
  let t := tfs_node_trim st { node with size := max node.size (offset + size) }
  let s := block_seek t.st t.node DEFINE_BLOCK_CURSOR ((offset / BLOCK_SIZE : Nat) : Int)
  let w := write_loop t.node buf size t.st s.cursor s.ret 0 size offset
  ⟨s32 (if t.ret < 0 then t.ret else (size : Int) - w.to_write), t.node, w.st⟩

/-! ## Path cache and directory operations -/

/-- The function `get_node`: the datum of the entry found, NULL when there is none. -/
def get_node (st : tfs_info) (path : List Char) : Option Int :=
  match st.htable path with
  | none => none
  | some d => d

/-- Removal of trailing `'/'` characters. -/
def dropTrailingSlashes (p : List Char) : List Char :=
  (p.reverse.dropWhile (fun ch => ch == '/')).reverse

/-- The libc function `dirname(3)`: the path up to, not including, the last
component; `"/"` for the root and for a child of the root, `"."` when the path
has no slash. -/
def dirname (p : List Char) : List Char :=
  let s := dropTrailingSlashes p
  if s = [] then (if p = [] then ['.'] else ['/'])
  else
    let d := dropTrailingSlashes (s.reverse.dropWhile (fun ch => ch != '/')).reverse
    if d = [] then (if '/' ∈ s then ['/'] else ['.']) else d

/-- The function `get_directory`. -/
def get_directory (st : tfs_info) (path : List Char) : Option Int :=
  get_node st (dirname path)

/-- The call `hsearch(entry, ENTER)` of glibc: a key that is present keeps the
entry it has; a new key is entered unless the table is full (`filled == size`), in
which case the call fails and the table stays as it is. -/
def hsearch_enter (st : tfs_info) (key : List Char) (data : Option Int) : tfs_info :=
  match st.htable key with
  | some _ => st
  | none =>
    if st.hfilled = st.hsize then st
    else
      { st with
        htable := fun k => if k = key then some data else st.htable k
        hfilled := st.hfilled + 1 }

/-- The function `set_node`: update the datum of the entry found, enter one if
absent.  The result of `hsearch(entry, ENTER)` is not looked at. -/
def set_node (st : tfs_info) (path : List Char) (node : Option Int) : tfs_info :=
  match st.htable path with
  | none => hsearch_enter st path node
  | some _ => { st with htable := fun k => if k = path then some node else st.htable k }

/-- The expression `strrchr(path, '/') + 1`: the text after the last slash.
(A path without a slash is undefined behaviour in C; here it yields the path.) -/
def basename (path : List Char) : List Char :=
  (path.reverse.takeWhile (fun ch => ch != '/')).reverse

/-- Entry `i` of a byte buffer read as an array of inode numbers. -/
def bufWord (buf : Nat → Nat) (i : Nat) : Int := s64 (leValue buf (8 * i))

/-- The function `tfs_node_children`: the inode numbers of the children, in slot order. -/
def tfs_node_children (st : tfs_info) (node : tfs_node) : List Int :=
  (List.range node.nlink).map
    (fun i => bufWord (tfs_node_read st node (fun _ => 0) (NODE_SIZE node) 0).buf i)

/-- Store of a record into the inode table. -/
def set_inode (nodes : Int → tfs_node) (i : Int) (n : tfs_node) : Int → tfs_node :=
  fun k => if k = i then n else nodes k

/-- Result of `tfs_add_node` and `tfs_remove_node`. -/
structure op_result where
  ret : Int
  st : tfs_info

/-- The initialisation of a fresh inode in `tfs_add_node`. -/
def init_node (node : tfs_node) (name : List Char) (mode : Nat) : tfs_node :=
  let node1 := { node with name := name, mode := mode }
  let node2 := if node1.isDir then { node1 with size := 0 } else { node1 with size := 0 }
  { node2 with nblocks := 0 }

/-- The function `tfs_add_node`.  `none` stands for the crash on a NULL parent. -/
def tfs_add_node (st : tfs_info) (path : List Char) (mode : Nat) : Option op_result :=
  if (get_node st path).isSome then some ⟨-EEXIST, st⟩
  else if st.free_node_head = END_NODES then some ⟨-ENOSPC, st⟩
  else if (basename path).length + 1 > NAME_LIMIT then some ⟨-ENAMETOOLONG, st⟩
  else
    -- Allocate node, initialize node.
    let nodei := st.free_node_head
    let st2 := { st with
      free_node_head := (st.nodes nodei).next,
      nodes := set_inode st.nodes nodei (init_node (st.nodes nodei) (basename path) mode) }
    -- Add child to parent.
    match get_directory st2 path with
    | none => none
    | some p =>
      let parent := st2.nodes p
      let t := tfs_node_trim st2
        { parent with size := (parent.nlink + 1) % 18446744073709551616 }
      let blk := (block_seek t.st t.node DEFINE_BLOCK_CURSOR ((t.node.nblocks : Int) - 1)).ret
      let slot : Int := ((t.node.nlink : Int) - 1) % BLOCK_MAX_CHILDREN
      let st4 := { t.st with
        nodes := set_inode t.st.nodes p t.node,
        data := wr64 t.st.data blk slot nodei }
      -- Update hash table.
      some ⟨0, set_node st4 path (some nodei)⟩

/-- The inner loop of the scan in `tfs_remove_node`: the first slot of the block
holding `target`, if any. -/
def find_slot (d : Int → Nat → Nat) (block target : Int) : Nat → Int → Option Int
  | 0, _ => none
  | fuel + 1, i =>
    if i < BLOCK_MAX_CHILDREN then
      if rd64 d block i = target then some i else find_slot d block target fuel (i + 1)
    else none

/-- The outer loop of the scan in `tfs_remove_node`. -/
def scan_loop (node : tfs_node) (target last_child : Int) :
    Nat → tfs_info → block_cursor → Int → tfs_info
  | 0, st, _, _ => st
  | fuel + 1, st, c, block =>
    if block ≠ END_BLOCKS then
      match find_slot st.data block target BLOCK_MAX_CHILDREN 0 with
      | some i => { st with data := wr64 st.data block i last_child }
      | none =>
        scan_loop node target last_child fuel st (next_block st node c).cursor
          (next_block st node c).ret
    else st

/-- The function `tfs_remove_node`.  `none` stands for the crash on a NULL node.
The scan visits at most `nblocks + 1` blocks before `next_block` yields `END_BLOCKS`. -/
def tfs_remove_node (st : tfs_info) (path : List Char) : Option op_result :=
  match get_directory st path with
  | none => some ⟨-ENOTSUP, st⟩
  | some p =>
    match get_node st path with
    | none => none
    | some n =>
      -- Remove from parent.
      let parent := st.nodes p
      let s := block_seek st parent DEFINE_BLOCK_CURSOR ((parent.nblocks : Int) - 1)
      let last_child := rd64 st.data s.ret (((parent.nlink : Int) - 1) % BLOCK_MAX_CHILDREN)
      let s0 := block_seek st parent s.cursor 0
      let st1 := scan_loop parent n last_child (parent.nblocks + 1) st s0.cursor s0.ret
      let t := tfs_node_trim st1 { parent with size := (u64 ((parent.nlink : Int) - 1)).toNat }
      let st3 := { t.st with nodes := set_inode t.st.nodes p t.node }
      -- Deallocate blocks.
      let t2 := tfs_node_trim st3 { st3.nodes n with size := 0 }
      -- Deallocate node.
      let st5 := { t2.st with
        nodes := set_inode t2.st.nodes n { t2.node with next := t2.st.free_node_head },
        free_node_head := n }
      -- Remove from hash table.
      some ⟨0, set_node st5 path none⟩

/-! ## Formatting -/

/-- The value `sizeof(struct tfs_header)`: four 8-byte fields. -/
abbrev SIZEOF_HEADER : Nat := 32

/-- The value `sizeof(struct tfs_node)` on x86-64 Linux: `mode` (4, padded by the
64-byte name to 72), 12 + 3 block numbers, `nblocks`, `size`, two `timespec`. -/
abbrev SIZEOF_NODE : Nat := 240

/-- The largest value of the `int` loop counters of `tfs_format`. -/
abbrev INT_MAX : Int := 2147483647

/-- The number of blocks `tfs_format` stores in the header for an image of
`filesize` bytes. -/
def format_nblocks (filesize : Nat) : Nat :=
  filesize / (BLOCK_SIZE + SIZEOF_NODE / BLOCKS_PER_NODE)

/-- The number of inodes `tfs_format` stores in the header. -/
def format_nnodes (filesize : Nat) : Nat := format_nblocks filesize / BLOCKS_PER_NODE

/-- Bytes from the start of the image to the end of the last data block, with the
regions laid out by `tfs_init`: header, inode table, data blocks. -/
def layout_end (filesize : Nat) : Nat :=
  SIZEOF_HEADER + SIZEOF_NODE * format_nnodes filesize + BLOCK_SIZE * format_nblocks filesize

/-- The loop `for (int i = ...; i < nblocks - 1; i++) NEXT_FREE_BLOCK(i) = i + 1`. -/
def thread_blocks (hi : Int) : Nat → Int → (Int → Nat → Nat) → (Int → Nat → Nat)
  | 0, _, d => d
  | fuel + 1, i, d => if i < hi then thread_blocks hi fuel (i + 1) (wr64 d i 0 (i + 1)) else d

/-- The loop `for (int i = ...; i < nnodes - 1; i++) nodes[i].next = i + 1`. -/
def thread_nodes (hi : Int) : Nat → Int → (Int → tfs_node) → (Int → tfs_node)
  | 0, _, nodes => nodes
  | fuel + 1, i, nodes =>
    if i < hi then
      thread_nodes hi fuel (i + 1) (set_inode nodes i { nodes i with next := i + 1 })
    else nodes

/-- The stores of `tfs_format` on a mapped image of `filesize` bytes whose previous
contents are `st`: header, root inode, free blocks, free inodes, in this order. -/
def format_image (filesize : Nat) (st : tfs_info) : tfs_info :=
  let nblocks : Int := format_nblocks filesize
  let nnodes : Int := format_nnodes filesize
  -- Initialize root node:
  let root := st.nodes 0
  let root1 : tfs_node :=
    { root with mode := Nat.lor S_IFDIR 644, name := [], nblocks := 0, size := 0 }
  let nodes1 := set_inode st.nodes 0 root1
  -- Initialize free blocks:
  let d1 := thread_blocks (nblocks - 1) (nblocks - 1).toNat 0 st.data
  let d2 := wr64 d1 (nblocks - 1) 0 END_BLOCKS
  -- Initialize free nodes:
  let nodes2 := thread_nodes (nnodes - 1) (nnodes - 1).toNat 1 nodes1
  let nodes3 := set_inode nodes2 (nnodes - 1) { nodes2 (nnodes - 1) with next := END_NODES }
  { st with
    nblocks := nblocks, nnodes := nnodes, free_node_head := 1, free_block_head := 0,
    nodes := nodes3, data := d2 }

/-- The function `tfs_format`.  The loop counters are `int`: `none` stands for the
signed overflow of `i++` when `nblocks - 1` exceeds `INT_MAX`.  The field `next`
shares its storage with `mode`; the model keeps the two apart, which agrees with
the source as long as `next` is stored into free inodes only (`nnodes ≥ 2` here). -/
def tfs_format (filesize : Nat) (st : tfs_info) : Option tfs_info :=
  if (format_nblocks filesize : Int) - 1 > INT_MAX then none
  else some (format_image filesize st)

/-! ## The FUSE operations of `fuse_tfs.c` -/

abbrev ENOENT : Int := 2
abbrev EISDIR : Int := 21
/-- Regular-file type bit of `mode_t` (octal 0100000). -/
abbrev S_IFREG : Nat := 32768

/-- The function `fuse_tfs_mknod`. -/
def fuse_tfs_mknod (st : tfs_info) (path : List Char) (mode : Nat) : Option op_result :=
  tfs_add_node st path mode

/-- The function `fuse_tfs_truncate`; the node is updated in place in the inode table. -/
def fuse_tfs_truncate (st : tfs_info) (path : List Char) (size : Nat) : op_result :=
  match get_node st path with
  | none => ⟨-ENOENT, st⟩
  | some n =>
    if (st.nodes n).isDir then ⟨-EISDIR, st⟩
    else
      let t := tfs_node_trim st { st.nodes n with size := size }
      ⟨t.ret, { t.st with nodes := set_inode t.st.nodes n t.node }⟩

/-- The function `fuse_tfs_write`; the node is updated in place in the inode table. -/
def fuse_tfs_write (st : tfs_info) (path : List Char) (buf : Nat → Nat) (size offset : Nat) :
    op_result :=
  match get_node st path with
  | none => ⟨-ENOENT, st⟩
  | some n =>
    if (st.nodes n).isDir then ⟨-EISDIR, st⟩
    else
      let w := tfs_node_write st (st.nodes n) buf size offset
      ⟨w.ret, { w.st with nodes := set_inode w.st.nodes n w.node }⟩

/-- The function `fuse_tfs_read`. -/
def fuse_tfs_read (st : tfs_info) (path : List Char) (buf : Nat → Nat) (size offset : Nat) :
    read_result :=
  match get_node st path with
  | none => ⟨-ENOENT, buf⟩
  | some n =>
    if (st.nodes n).isDir then ⟨-EISDIR, buf⟩
    else tfs_node_read st (st.nodes n) buf size offset

/-- The function `fuse_tfs_unlink`. -/
def fuse_tfs_unlink (st : tfs_info) (path : List Char) : Option op_result :=
  match get_node st path with
  | none => some ⟨-ENOENT, st⟩
  | some n =>
    if (st.nodes n).isDir then some ⟨-EISDIR, st⟩
    else tfs_remove_node st path

/-! ## The blocks of the data region that a read touches

Each definition below follows the function of the same name without the suffix
and lists, in order, the block numbers `b` whose contents `tfs_info.data[b]` that
function loads: the index blocks under `BLOCK_POINTERS(...)[...]` and the data
blocks under `memcpy`. -/

/-- The loads of `CURRENT_BLOCK(cursor)`: the index block `cursor->block[level]`
outside the direct range. -/
def CURRENT_BLOCK_reads (c : block_cursor) : List Int :=
  if c.i < DIRECT_BLOCKS then [] else [c.block c.level]

/-- The loads of the first `for` loop of `block_seek`:
`BLOCK_POINTERS((cursor)->block[i])[(cursor)->pos[i]]` for each `i`. -/
def seek_loop_reads (st : tfs_info) : Nat → block_cursor → Int → Int → List Int
  | 0, _, _, _ => []
  | fuel + 1, c, i, offset =>
    if i < c.level then
      let N := MAX_POINTERS_POW (c.level - i)
      let c1 := { c with pos := aset c.pos i (offset / N) }
      let c2 := { c1 with block := aset c1.block (i + 1) (rd64 st.data (c1.block i) (c1.pos i)) }
      c1.block i :: seek_loop_reads st fuel c2 (i + 1) (offset % N)
    else []

/-- The loads of `block_seek`. -/
def block_seek_reads (st : tfs_info) (node : tfs_node) (cursor : block_cursor) (pos : Int) :
    List Int :=
  let c0 := { cursor with i := pos, level := -1 }
  if pos > (node.nblocks : Int) then []
  else if pos < DIRECT_BLOCKS then []
  else
    let p := pos - DIRECT_BLOCKS
    let c1 := { c0 with level := FLOG (p + 1 - (p + 1) / BLOCK_MAX_POINTERS) }
    let accum : Int :=
      BLOCK_MAX_POINTERS * (MAX_POINTERS_POW c1.level - 1) / (BLOCK_MAX_POINTERS - 1)
    let c2 := { c1 with block := aset c1.block 0 (node.iblocks c1.level) }
    let s3 := seek_loop st c2.level.toNat c2 0 (p - accum)
    let c4 := { s3.cursor with pos := aset s3.cursor.pos s3.cursor.level s3.offset }
    let c5 := seek_clear (ILEVELS - (c4.level + 1)).toNat c4 (c4.level + 1)
    seek_loop_reads st c2.level.toNat c2 0 (p - accum) ++ CURRENT_BLOCK_reads c5

/-- The loads of `_next_block_callback`: the index block `cursor->block[level]` in
its last branch. -/
def _next_block_callback_reads (node : tfs_node) (c : block_cursor) (level : Int) : List Int :=
  if u64 c.i ≥ (node.nblocks : Int) then []
  else if c.i < DIRECT_BLOCKS then []
  else if level = -1 then []
  else [c.block level]

/-- The loads of the reload loop of `iter_through` under `_next_block_callback`. -/
def reload_loop_reads (st : tfs_info) (node : tfs_node) : Nat → block_cursor → Int → List Int
  | 0, _, _ => []
  | fuel + 1, c, level =>
    if level < c.level then
      let r := _next_block_callback st node c level
      _next_block_callback_reads node c level ++
        reload_loop_reads st node fuel { c with block := aset c.block (level + 1) r.ret }
          (level + 1)
    else []

/-- The loads of `next_block`. -/
def next_block_reads (st : tfs_info) (node : tfs_node) (cursor : block_cursor) : List Int :=
  let c0 := { cursor with i := cursor.i + 1 }
  if c0.i < DIRECT_BLOCKS then _next_block_callback_reads node c0 (-1)
  else
    let cl := carry_loop (c0.level + 1).toNat c0 c0.level
    let c2 := if cl.level = -1 then { cl.cursor with level := cl.cursor.level + 1 } else cl.cursor
    let s3 := reload_loop _next_block_callback (c2.level - cl.level).toNat st node c2 cl.level
    reload_loop_reads st node (c2.level - cl.level).toNat c2 cl.level ++
      _next_block_callback_reads node s3.cursor s3.cursor.level

/-- The loads of the loop of `tfs_node_read`: the block under `memcpy` when it
copies at least one byte, then those of `next_block`. -/
def read_loop_reads (st : tfs_info) (node : tfs_node) :
    Nat → block_cursor → Int → Nat → Nat → List Int
  | 0, _, _, _, _ => []
  | fuel + 1, c, block, to_read, offset =>
    if offset < NODE_SIZE node ∧ min to_read (BLOCK_SIZE - offset % BLOCK_SIZE) ≠ 0 then
      let chunk := min to_read (BLOCK_SIZE - offset % BLOCK_SIZE)
      let nb := next_block st node c
      (if min chunk (NODE_SIZE node - offset) ≠ 0 then [block] else []) ++
        next_block_reads st node c ++
        read_loop_reads st node fuel nb.cursor nb.ret (to_read - chunk) (offset + chunk)
    else []

/-- The loads of `tfs_node_read`. -/
def tfs_node_read_reads (st : tfs_info) (node : tfs_node) (size offset : Nat) : List Int :=
  let s := block_seek st node DEFINE_BLOCK_CURSOR ((offset / BLOCK_SIZE : Nat) : Int)
  block_seek_reads st node DEFINE_BLOCK_CURSOR ((offset / BLOCK_SIZE : Nat) : Int) ++
    read_loop_reads st node size s.cursor s.ret size offset

/-! ## Mounting: the path cache rebuilt from the image -/

/-- The loop of `isprime` in glibc's `hsearch_r.c`, called on odd numbers:
`for (div = 3; div <= number / div; div += 2) if (number % div == 0) return 0`. -/
def isprime_loop (number : Nat) : Nat → Nat → Bool
  | 0, _ => true
  | fuel + 1, div =>
    if div ≤ number / div then
      if number % div = 0 then false else isprime_loop number fuel (div + 2)
    else true

/-- The function `isprime` of glibc's `hsearch_r.c`. -/
def isprime (number : Nat) : Bool := isprime_loop number number 3

/-- The loop of `hcreate` that moves `nel` up to a prime: `for (nel |= 1; ; nel += 2)`. -/
def hcreate_loop : Nat → Nat → Nat
  | 0, nel => nel
  | fuel + 1, nel => if isprime nel then nel else hcreate_loop fuel (nel + 2)

/-- The number of entries of the table that glibc's `hcreate(nel)` makes: the first
prime from `max nel 3 | 1` on.  (A prime lies below twice that number, which bounds
the loop.) -/
def hcreate_size (nel : Nat) : Nat :=
  hcreate_loop (max nel 3) (if max nel 3 % 2 = 0 then max nel 3 + 1 else max nel 3)

/-- The call `hcreate(nel)`: an empty table for `hcreate_size nel` entries.  (Its
failure on a table too large to allocate is left out.) -/
def hcreate (st : tfs_info) (nel : Nat) : tfs_info :=
  { st with htable := fun _ => none, hsize := hcreate_size nel, hfilled := 0 }

/-- The function `init_htable`, called on inode `n`; `path` is `none` for the NULL
of the call on the root.  The recursion follows the directory tree; `fuel` bounds
its depth, and a call without fuel enters nothing. -/
def init_htable : Nat → tfs_info → Option (List Char) → Int → tfs_info
  | 0, st, _, _ => st
  | fuel + 1, st, path, n =>
    let node := st.nodes n
    let key : List Char :=
      match path with
      | some p => p ++ ['/'] ++ node.name
      | none => ['/']
    let st1 := hsearch_enter st key (some n)
    if ¬ node.isDir then st1
    else
      -- Recurse through directory:
      (tfs_node_children st1 node).foldl
        (fun s c => init_htable fuel s (some (if path.isSome then key else [])) c) st1

/-- The cache part of `tfs_load`: `hcreate(tfs_info.nnodes)`, then
`init_htable(NULL, &nodes[0])`. -/
def tfs_load (fuel : Nat) (st : tfs_info) : tfs_info :=
  init_htable fuel (hcreate st (u64 st.nnodes).toNat) none 0

/-! ## Example images -/

/-- Data region of a freshly threaded image of `n` blocks: block `b` links to
`b + 1`, the last one to `END_BLOCKS`; all other bytes are zero. -/
def exData (n : Int) : Int → Nat → Nat := fun b o =>
  if o < 8 then byteOf (if b = n - 1 then -1 else b + 1) o else 0

/-- An empty regular file. -/
def exFile : tfs_node where
  mode := 0
  name := []
  blocks := fun _ => 0
  iblocks := fun _ => 0
  nblocks := 0
  size := 0
  next := 0

/-- An empty directory (the root of a fresh image). -/
def exRoot : tfs_node where
  mode := S_IFDIR
  name := []
  blocks := fun _ => 0
  iblocks := fun _ => 0
  nblocks := 0
  size := 0
  next := 0

/-- A free inode linking to `nx`. -/
def exFree (nx : Int) : tfs_node where
  mode := 0
  name := []
  blocks := fun _ => 0
  iblocks := fun _ => 0
  nblocks := 0
  size := 0
  next := nx

/-- A fresh image with `n` free blocks (`free_block_head = 0`), four inodes of
which inode 0 is the root, and a cache holding the root only: the table of 5
entries that `hcreate(4)` makes, with the entry of `"/"`. -/
def exImage (n : Int) : tfs_info where
  nblocks := n
  nnodes := 4
  free_block_head := if n ≤ 0 then END_BLOCKS else 0
  free_node_head := 1
  nodes := fun k => if k = 0 then exRoot else exFree (if k = 3 then END_NODES else k + 1)
  data := exData n
  free_block_buffer := fun _ => -1
  htable := fun k => if k = ['/'] then some (some 0) else none
  hsize := 5
  hfilled := 1

/-- The bytes of `"hello"` followed by zeros. -/
def exHello : Nat → Nat := fun i =>
  if i = 0 then 104 else if i = 1 then 101 else if i = 2 then 108 else if i = 3 then 108
  else if i = 4 then 111 else 0

/-- A path whose basename has 63 characters. -/
def exName63 : List Char := '/' :: List.replicate 63 'n'

/-- A path whose basename has 64 characters. -/
def exName64 : List Char := '/' :: List.replicate 64 'n'

/-- Number of iterations of the growing loop of `tfs_node_trim` whose
`iter_through` did not return `END_BLOCKS`: the data blocks successfully added. -/
def grow_count : Nat → tfs_info → tfs_node → block_cursor → Int → Nat
  | 0, _, _, _, _ => 0
  | fuel + 1, st, node, c, dblocks =>
    if dblocks ≠ 0 then
      let r := iter_through _alloc_callback st node c
      if r.ret ≠ END_BLOCKS then 1 + grow_count fuel r.st r.node r.cursor (dblocks - 1) else 0
    else 0

/-- The data blocks successfully added by the growing branch of `tfs_node_trim`. -/
def trim_added (st : tfs_info) (node : tfs_node) : Nat :=
  grow_count ((NODE_NRBLOCKS node : Int) - node.nblocks).natAbs st node
    (block_seek st node DEFINE_BLOCK_CURSOR ((node.nblocks : Int) - 1)).cursor
    ((NODE_NRBLOCKS node : Int) - node.nblocks)

/-- Data region of `exBig`: block 12 is an index block whose entries 0 and 1 are
13 and 14; blocks 15 to 19 form the free list; all other bytes are zero. -/
def exBigData : Int → Nat → Nat := fun b o =>
  if b = 12 then (if o < 8 then byteOf 13 o else if o < 16 then byteOf 14 (o - 8) else 0)
  else if 15 ≤ b ∧ b ≤ 19 ∧ o < 8 then byteOf (if b = 19 then -1 else b + 1) o
  else 0

/-- A regular file of 14 blocks: logical blocks 0 to 11 are the direct blocks
0 to 11, logical blocks 12 and 13 are blocks 13 and 14 through index block 12. -/
def exBigFile : tfs_node where
  mode := 0
  name := ['f']
  blocks := fun i => i
  iblocks := fun l => if l = 0 then 12 else 0
  nblocks := 14
  size := 57344
  next := 0

/-- An image of 20 blocks holding `exBigFile` as inode 1, with free blocks 15 to
19 and `free_block_buffer` at its initial value (a static array, all zero). -/
def exBig : tfs_info where
  nblocks := 20
  nnodes := 4
  free_block_head := 15
  free_node_head := 2
  nodes := fun k => if k = 0 then exRoot else if k = 1 then exBigFile
    else exFree (if k = 3 then END_NODES else k + 1)
  data := exBigData
  free_block_buffer := fun _ => 0
  htable := fun k => if k = ['/'] then some (some 0) else none
  hsize := 5
  hfilled := 1

/-- Data region of `exDir`: the directory blocks hold the inode numbers
`1, 2, ..., 6657` in slot order (logical block `j / 512`, slot `j % 512` holds
`j + 1`); logical blocks 0 to 11 are blocks 0 to 11, block 12 is the index block
with entries 13 and 14; blocks 15 to 19 form the free list. -/
def exDirData : Int → Nat → Nat := fun b o =>
  if 0 ≤ b ∧ b ≤ 11 then byteOf (b * 512 + (o / 8 : Nat) + 1) (o % 8)
  else if b = 12 then (if o < 8 then byteOf 13 o else if o < 16 then byteOf 14 (o - 8) else 0)
  else if b = 13 then byteOf (12 * 512 + (o / 8 : Nat) + 1) (o % 8)
  else if b = 14 then (if o < 8 then byteOf 6657 o else 0)
  else if 15 ≤ b ∧ b ≤ 19 ∧ o < 8 then byteOf (if b = 19 then -1 else b + 1) o
  else 0

/-- A directory of 6657 children on 14 blocks. -/
def exDirRoot : tfs_node where
  mode := S_IFDIR
  name := []
  blocks := fun i => i
  iblocks := fun l => if l = 0 then 12 else 0
  nblocks := 14
  size := 6657
  next := 0

/-- An image of 20 blocks whose root directory has the 6657 children
`1, ..., 6657` (empty regular files), with `"/c"` cached as inode 1, free blocks
15 to 19 and `free_block_buffer` at its initial value (a static array, all zero).
The table is that of `hcreate(6660)`, 6661 entries, with the two entries the
examples look up. -/
def exDir : tfs_info where
  nblocks := 20
  nnodes := 6660
  free_block_head := 15
  free_node_head := 6658
  nodes := fun k => if k = 0 then exDirRoot else if 1 ≤ k ∧ k ≤ 6657 then exFile
    else exFree (if k = 6659 then END_NODES else k + 1)
  data := exDirData
  free_block_buffer := fun _ => 0
  htable := fun k => if k = ['/'] then some (some 0) else if k = ['/', 'c'] then some (some 1)
    else none
  hsize := 6661
  hfilled := 2

/-- The image `exDir` with `free_block_buffer` emptied and `"/c"` cached as inode
6145, the child in slot 0 of logical block 12 of the root directory. -/
def exDirMid : tfs_info :=
  { exDir with
    free_block_buffer := fun _ => -1
    htable := fun k => if k = ['/'] then some (some 0)
      else if k = ['/', 'c'] then some (some 6145) else none }

/-- One create/delete pair on a regular file: `tfs_add_node(path, S_IFREG | 0644)`
followed by `tfs_remove_node(path)`, when both calls return 0. -/
def exAddRemove (st : tfs_info) (path : List Char) : Option tfs_info :=
  (tfs_add_node st path 33188).bind (fun a =>
    if a.ret = 0 then
      (tfs_remove_node a.st path).bind (fun r => if r.ret = 0 then some r.st else none)
    else none)

/-- The fresh image `exImage 4` after the files `"/a"`, `"/b"`, `"/c"` and `"/d"`
were created and deleted one after the other.  The tree is empty again, but each
path has left its key in the table of the cache (`set_node(path, NULL)` clears the
datum, not the key). -/
def exFull : Option tfs_info :=
  (((exAddRemove (exImage 4) ['/', 'a']).bind (fun s => exAddRemove s ['/', 'b'])).bind
    (fun s => exAddRemove s ['/', 'c'])).bind (fun s => exAddRemove s ['/', 'd'])

/-! ## Predicates used in the proofs -/

/-- A callback that leaves `mode` and `size` of the node alone. -/
def KeepsMeta (cb : callback_t) : Prop :=
  ∀ st node c l, (cb st node c l).node.mode = node.mode ∧ (cb st node c l).node.size = node.size

/-- A callback that leaves the whole node alone. -/
def KeepsNode (cb : callback_t) : Prop := ∀ st node c l, (cb st node c l).node = node

/-- A value that fits a signed 64-bit word. -/
def InI64 (v : Int) : Prop := -9223372036854775808 ≤ v ∧ v < 9223372036854775808

/-! ## The logical block tree of a node

Logical index `i` of a node lives in the direct region (`i < 12`) or in the
indirect tree of level `lvl i`, at the slots `dig i 0`, `dig i 1`, `dig i 2`. -/

/-- Number of data blocks a node can address: `12 + P + P^2 + P^3`. -/
abbrev CAPACITY : Int := 134480396

/-- Indirect level of logical index `i` (`-1` in the direct region). -/
def lvl (i : Int) : Int :=
  if i < 12 then -1 else if i < 524 then 0 else if i < 262668 then 1 else 2

/-- Slot number at depth `k` on the way to logical index `i`. -/
def dig (i k : Int) : Int :=
  if i < 12 then 0
  else if i < 524 then (if k = 0 then i - 12 else 0)
  else if i < 262668 then
    (if k = 0 then (i - 524) / 512 else if k = 1 then (i - 524) % 512 else 0)
  else
    (if k = 0 then (i - 262668) / 262144 else if k = 1 then (i - 262668) % 262144 / 512
     else if k = 2 then (i - 262668) % 512 else 0)

/-- A place where a block number of a node is stored: a direct entry, the root of
an indirect level, or a slot one, two or three index blocks below a root. -/
inductive TNode where
  | D (i : Int)
  | R (L : Int)
  | N1 (L a : Int)
  | N2 (L a b : Int)
  | N3 (a b c : Int)
  deriving DecidableEq

/-- The block number stored at a place. -/
def phys (d : Int → Nat → Nat) (node : tfs_node) : TNode → Int
  | .D i => node.blocks i
  | .R L => node.iblocks L
  | .N1 L a => rd64 d (node.iblocks L) a
  | .N2 L a b => rd64 d (rd64 d (node.iblocks L) a) b
  | .N3 a b c => rd64 d (rd64 d (rd64 d (node.iblocks 2) a) b) c

/-- The first logical index reached through a place. -/
def first : TNode → Int
  | .D i => i
  | .R L => if L = 0 then 12 else if L = 1 then 524 else 262668
  | .N1 L a => if L = 0 then 12 + a else if L = 1 then 524 + a * 512 else 262668 + a * 262144
  | .N2 L a b => if L = 1 then 524 + a * 512 + b else 262668 + a * 262144 + b * 512
  | .N3 a b c => 262668 + a * 262144 + b * 512 + c

/-- Number of index blocks above a place. -/
def depth : TNode → Int
  | .D _ => 0
  | .R _ => 0
  | .N1 _ _ => 1
  | .N2 _ _ _ => 2
  | .N3 _ _ _ => 3

/-- The places that exist in the tree. -/
def Valid : TNode → Prop
  | .D i => 0 ≤ i ∧ i < 12
  | .R L => 0 ≤ L ∧ L ≤ 2
  | .N1 L a => 0 ≤ L ∧ L ≤ 2 ∧ 0 ≤ a ∧ a < 512
  | .N2 L a b => 1 ≤ L ∧ L ≤ 2 ∧ 0 ≤ a ∧ a < 512 ∧ 0 ≤ b ∧ b < 512
  | .N3 a b c => 0 ≤ a ∧ a < 512 ∧ 0 ≤ b ∧ b < 512 ∧ 0 ≤ c ∧ c < 512

/-- The place at depth `k` on the way to logical index `n`. -/
def pathnode (n k : Int) : TNode :=
  if n < 12 then .D n
  else if k ≤ 0 then .R (lvl n)
  else if k = 1 then .N1 (lvl n) (dig n 0)
  else if k = 2 then .N2 (lvl n) (dig n 0) (dig n 1)
  else .N3 (dig n 0) (dig n 1) (dig n 2)

/-- The places in use when logical blocks `0..n-1` are allocated and, on the way
to block `n`, the places of depth below `m`. -/
def Live (n m : Int) (x : TNode) : Prop :=
  Valid x ∧ (first x < n ∨ (first x = n ∧ depth x < m))

/-- The deepest level whose slot does not wrap when the cursor steps onto `n`
(`-1` when `n` is the first index of its level). -/
def cl (n : Int) : Int :=
  if n < 12 then -1
  else if n < 524 then (if n = 12 then -1 else 0)
  else if n < 262668 then (if (n - 524) % 512 ≠ 0 then 1 else if n = 524 then -1 else 0)
  else (if (n - 262668) % 512 ≠ 0 then 2 else if (n - 262668) % 262144 ≠ 0 then 1
        else if n = 262668 then -1 else 0)

/-- The position part of a cursor agrees with logical index `n`. -/
def CohPos (c : block_cursor) (n : Int) : Prop :=
  c.i = n ∧ c.level = lvl n ∧ c.pos 0 = dig n 0 ∧ c.pos 1 = dig n 1 ∧ c.pos 2 = dig n 2

/-- The cached index blocks of a cursor agree with the tree down to depth `m`. -/
def CohBlk (d : Int → Nat → Nat) (node : tfs_node) (c : block_cursor) (n m : Int) : Prop :=
  ∀ k, 0 ≤ k → k ≤ m → k ≤ lvl n → c.block k = phys d node (pathnode n k)

/-- The cursor sits on logical index `n`. -/
def Coh (d : Int → Nat → Nat) (node : tfs_node) (c : block_cursor) (n : Int) : Prop :=
  CohPos c n ∧ CohBlk d node c n (lvl n)

/-- What the carry loop of `iter_through` leaves when the cursor steps onto `n`. -/
def CarryPost (cs : carry_state) (c : block_cursor) (n : Int) : Prop :=
  cs.level = cl n ∧ cs.cursor.i = n ∧ cs.cursor.block = c.block ∧
  (if cs.level = -1 then cs.cursor.level + 1 else cs.cursor.level) = lvl n ∧
  cs.cursor.pos 0 = dig n 0 ∧ cs.cursor.pos 1 = dig n 1 ∧ cs.cursor.pos 2 = dig n 2

/-- The data block of logical index `n`. -/
def lblk (d : Int → Nat → Nat) (node : tfs_node) (n : Int) : Int :=
  phys d node (pathnode n (lvl n + 1))

/-- Distinct places in use hold distinct block numbers. -/
def Inj (d : Int → Nat → Nat) (node : tfs_node) (n m : Int) : Prop :=
  ∀ x y, Live n m x → Live n m y → phys d node x = phys d node y → x = y

/-- The places that hold data blocks (the others hold index blocks). -/
def isLeaf : TNode → Prop
  | .D _ => True
  | .R _ => False
  | .N1 L _ => L = 0
  | .N2 L _ _ => L = 1
  | .N3 _ _ _ => True

/-- The data region `d` is `d0` with the bytes `buf[0 ..]` stored at the file
positions `offset0 .. e - 1` of the node, and nothing else changed. -/
def BytesInv (d0 d : Int → Nat → Nat) (node : tfs_node) (buf : Nat → Nat) (offset0 e : Nat) :
    Prop :=
  (∀ j o : Nat, j < node.nblocks →
    d (lblk d0 node j) o =
      if o < BLOCK_SIZE ∧ offset0 ≤ j * BLOCK_SIZE + o ∧ j * BLOCK_SIZE + o < e
      then buf (j * BLOCK_SIZE + o - offset0) else d0 (lblk d0 node j) o) ∧
  (∀ b, (∀ j : Nat, j < node.nblocks → b ≠ lblk d0 node j) → ∀ o, d b o = d0 b o)

/-- Two images that differ at most in the data region. -/
def SameButData (a b : tfs_info) : Prop := b = { a with data := b.data }

/-- Byte `p` of the contents of a node: offset `p % BLOCK_SIZE` of the data block
of logical index `p / BLOCK_SIZE`. -/
def file_byte (d : Int → Nat → Nat) (node : tfs_node) (p : Nat) : Nat :=
  d (lblk d node ((p / BLOCK_SIZE : Nat) : Int)) (p % BLOCK_SIZE)

/-- The free-block list starting at `h` is exactly `fl`: each block links to the
next through its first word and the last one links to `END_BLOCKS`. -/
def IsFreeList (d : Int → Nat → Nat) : Int → List Int → Prop
  | h, [] => h = END_BLOCKS
  | h, b :: rest => h = b ∧ b ≠ END_BLOCKS ∧ InI64 b ∧ IsFreeList d (NEXT_FREE_BLOCK d b) rest

/-- Well-formedness of a node against the free-block list `fl`: the list is a
proper chain without repetition, the places in use hold pairwise distinct blocks,
and none of these blocks is on the list. -/
def WF (d : Int → Nat → Nat) (node : tfs_node) (head : Int) (fl : List Int) (n m : Int) : Prop :=
  IsFreeList d head fl ∧ fl.Nodup ∧ Inj d node n m ∧ ∀ x, Live n m x → phys d node x ∉ fl

/-- What one call of `_alloc_callback` at level `l` achieves while the cursor sits
on logical index `n`: it pops `b`, stores it at the place of depth `l + 1` on the
way to `n`, and changes no other place in use. -/
def AllocPost (st : tfs_info) (node : tfs_node) (r : cb_result) (b : Int) (fl : List Int)
    (n l : Int) : Prop :=
  r.ret = b ∧ WF r.st.data r.node r.st.free_block_head fl n (l + 2) ∧
  phys r.st.data r.node (pathnode n (l + 1)) = b ∧
  (∀ x, Live n (l + 1) x → phys r.st.data r.node x = phys st.data node x) ∧
  (∀ b' o, (0 ≤ l → b' ≠ phys st.data node (pathnode n l)) → r.st.data b' o = st.data b' o) ∧
  r.st = { st with data := r.st.data, free_block_head := r.st.free_block_head } ∧
  r.node = { node with blocks := r.node.blocks, iblocks := r.node.iblocks }

/-- The effect of allocation steps on what was in use before them: the places in
use keep their block numbers, the data blocks among them keep their bytes, and
outside the data region only the free-block head moves; of the node only
`blocks` and `iblocks` change. -/
def Step (st : tfs_info) (node : tfs_node) (st' : tfs_info) (node' : tfs_node) (n m : Int) :
    Prop :=
  (∀ x, Live n m x → phys st'.data node' x = phys st.data node x) ∧
  (∀ x, Live n m x → isLeaf x → ∀ o, st'.data (phys st.data node x) o =
    st.data (phys st.data node x) o) ∧
  st' = { st with data := st'.data, free_block_head := st'.free_block_head } ∧
  node' = { node with blocks := node'.blocks, iblocks := node'.iblocks }

/-- What a successful `iter_through` in allocation mode achieves when it steps
onto logical index `n`: it pops the blocks `bs` (one per new place on the way to
`n`), lands on `n`, and leaves a well-formed node of `n + 1` logical blocks whose
new places hold blocks of `bs`. -/
def IterPost (st : tfs_info) (node : tfs_node) (r : iter_result) (fl : List Int) (n : Int) :
    Prop :=
  r.ret ≠ END_BLOCKS ∧ ∃ bs fl', fl = bs ++ fl' ∧ (bs.length : Int) = lvl n + 1 - cl n ∧
    Coh r.st.data r.node r.cursor n ∧
    WF r.st.data r.node r.st.free_block_head fl' (n + 1) 0 ∧ Step st node r.st r.node n 0 ∧
    (∀ x, Live (n + 1) 0 x → Live n 0 x ∨ phys r.st.data r.node x ∈ bs)

/-- Number of blocks taken from the free list when the logical blocks
`n .. n + k - 1` are allocated in order: one data block each, plus the index
blocks that are new on the way to it. -/
def need (n : Int) : Nat → Int
  | 0 => 0
  | k + 1 => (lvl n + 1 - cl n) + need (n + 1) k

/-- What the growing loop of `tfs_node_trim` leaves, started on a node of `n`
logical blocks with `dblocks` to add.  The second part holds when the loop ran to
the end, stopped inside the direct blocks, or stopped after the whole free list
was used for the blocks it added. -/
def GrowPost (st : tfs_info) (node : tfs_node) (s : trim_state) (fl : List Int) (n dblocks : Int) :
    Prop :=
  0 ≤ s.dblocks ∧ s.dblocks ≤ dblocks ∧
  (s.dblocks ≠ 0 → (fl.length : Int) < need n dblocks.toNat) ∧
  ((s.dblocks = 0 ∨ n + (dblocks - s.dblocks) < 12 ∨
      (fl.length : Int) ≤ need n (dblocks - s.dblocks).toNat) →
    ∃ bs fl', fl = bs ++ fl' ∧ (bs.length : Int) = need n (dblocks - s.dblocks).toNat ∧
      WF s.st.data s.node s.st.free_block_head fl' (n + (dblocks - s.dblocks)) 0 ∧
      Step st node s.st s.node n 0 ∧ (s.dblocks ≠ 0 → s.st.free_block_head = END_BLOCKS) ∧
      (∀ x, Live (n + (dblocks - s.dblocks)) 0 x → Live n 0 x ∨ phys s.st.data s.node x ∈ bs))

/-- The effect of a growing `tfs_node_trim` on what the node held before: the
places in use keep their block numbers, the data blocks among them keep their
bytes, outside the data region only the free-block head moves, and of the node
only `blocks`, `iblocks`, `nblocks` and `size` change. -/
def Grown (st : tfs_info) (node : tfs_node) (st' : tfs_info) (node' : tfs_node) (n : Int) :
    Prop :=
  (∀ x, Live n 0 x → phys st'.data node' x = phys st.data node x) ∧
  (∀ x, Live n 0 x → isLeaf x → ∀ o, st'.data (phys st.data node x) o =
    st.data (phys st.data node x) o) ∧
  st' = { st with data := st'.data, free_block_head := st'.free_block_head } ∧
  node' = { node with blocks := node'.blocks, iblocks := node'.iblocks,
                      nblocks := node'.nblocks, size := node'.size }

/-- The blocks a node references: for each logical index below `nblocks`, the
index blocks on the way to it and its data block. -/
def node_blocks (d : Int → Nat → Nat) (node : tfs_node) : List Int :=
  (List.range node.nblocks).flatMap (fun j =>
    (List.range (lvl (j : Int) + 2).toNat).map (fun k => phys d node (pathnode (j : Int) (k : Int))))

/-- The image after `mknod("/f")` and `truncate("/f", 12 * BLOCK_SIZE + 1)` on a
fresh image of 14 blocks: the root directory takes one block, the file needs 13
data blocks and one index block, and 13 blocks are free. -/
def exLeak : Option op_result :=
  (fuse_tfs_mknod (exImage 14) ['/', 'f'] 33188).map
    (fun r => fuse_tfs_truncate r.st ['/', 'f'] 49153)

/-- Two images with the same inode table, path cache, free-inode head and geometry. -/
def SameTables (a b : tfs_info) : Prop :=
  b.nodes = a.nodes ∧ b.htable = a.htable ∧ b.free_node_head = a.free_node_head ∧
  b.nblocks = a.nblocks ∧ b.nnodes = a.nnodes ∧ b.hsize = a.hsize ∧ b.hfilled = a.hfilled

/-- A callback that leaves the inode table, the path cache, the free-inode head
and the geometry alone. -/
def KeepsTables (cb : callback_t) : Prop := ∀ st node c l, SameTables st (cb st node c l).st

/-- The blocks returned by `k` successive calls of `next_block` on a cursor. -/
def next_blocks (st : tfs_info) (node : tfs_node) : Nat → block_cursor → List Int
  | 0, _ => []
  | k + 1, c => (next_block st node c).ret :: next_blocks st node k (next_block st node c).cursor

/-- The cache can take `path`: the key is present (with or without an inode) or
the table is not full. -/
def HasRoom (st : tfs_info) (path : List Char) : Prop :=
  st.htable path ≠ none ∨ st.hfilled ≠ st.hsize

/-- The arithmetic of `NODE_NRBLOCKS` does not wrap for the node.  This is always
so for a regular file; for a directory it says `BLOCK_SIZE + nlink * 8 - 1 < 2^64`. -/
def NoWrap (n : tfs_node) : Prop :=
  n.isDir = true → BLOCK_SIZE + n.nlink * 8 - 1 < 18446744073709551616

/-! ## Theorems -/

/-- C2 (evaluation at the failing input): after `hello` is written to an empty
file of a fresh image (the write returns 5 and leaves `size = 5`), reading 10
bytes at offset 0 returns 10, not the 5 bytes that were copied. -/
theorem tfs_node_read_reports_chunk_not_copied :
    (tfs_node_write (exImage 4) exFile exHello 5 0).ret = 5 ∧
    (tfs_node_write (exImage 4) exFile exHello 5 0).node.size = 5 ∧
    (tfs_node_read (tfs_node_write (exImage 4) exFile exHello 5 0).st
      (tfs_node_write (exImage 4) exFile exHello 5 0).node (fun _ => 0) 10 0).ret = 10 := by
  decide

theorem dirname_root : dirname ['/'] = ['/'] := by decide

/-- C7: the early failures of `tfs_add_node` are checked in the order cached
path (`EEXIST`), empty free-inode list (`ENOSPC`), basename of 64 or more
characters (`ENAMETOOLONG`), each returning the image and the cache unchanged;
a basename of at most 63 characters is never rejected as too long. -/
theorem tfs_add_node_early_failures (st : tfs_info) (path : List Char) (mode : Nat) :
    ((get_node st path).isSome → tfs_add_node st path mode = some ⟨-EEXIST, st⟩) ∧
    (get_node st path = none → st.free_node_head = END_NODES →
      tfs_add_node st path mode = some ⟨-ENOSPC, st⟩) ∧
    (get_node st path = none → st.free_node_head ≠ END_NODES →
      NAME_LIMIT ≤ (basename path).length →
      tfs_add_node st path mode = some ⟨-ENAMETOOLONG, st⟩) ∧
    (get_node st path = none → st.free_node_head ≠ END_NODES →
      (basename path).length < NAME_LIMIT →
      ∀ r, tfs_add_node st path mode = some r → r.ret = 0) := by
  refine ⟨?_, ?_, ?_, ?_⟩
  · intro h
    simp [tfs_add_node, h]
  · intro h1 h2
    simp [tfs_add_node, h1, h2]
  · intro h1 h2 h3
    have h4 : NAME_LIMIT < (basename path).length + 1 := by omega
    simp [tfs_add_node, h1, h2]
    intro h5
    simp only [NAME_LIMIT] at h3
    omega
  · intro h1 h2 h3 r hr
    have h4 : ¬ ((basename path).length + 1 > NAME_LIMIT) := by omega
    unfold tfs_add_node at hr
    simp only [h1, Option.isSome_none, Bool.false_eq_true, if_false, h2, h4] at hr
    split at hr
    · exact absurd hr (by simp)
    · simp only [Option.some.injEq] at hr
      rw [← hr]

theorem tfs_add_node_early_failures_witness :
    (basename exName63).length = 63 ∧ (basename exName64).length = 64 ∧
    tfs_add_node (exImage 4) ['/'] 0 = some ⟨-EEXIST, exImage 4⟩ ∧
    tfs_add_node { exImage 4 with free_node_head := END_NODES } exName63 0 =
      some ⟨-ENOSPC, { exImage 4 with free_node_head := END_NODES }⟩ ∧
    tfs_add_node (exImage 4) exName64 0 = some ⟨-ENAMETOOLONG, exImage 4⟩ ∧
    (∀ r, tfs_add_node (exImage 4) exName63 0 = some r → r.ret = 0) :=
  ⟨by decide, by decide,
   (tfs_add_node_early_failures (exImage 4) ['/'] 0).1 (by decide),
   (tfs_add_node_early_failures { exImage 4 with free_node_head := END_NODES } exName63 0).2.1
     (by decide) (by decide),
   (tfs_add_node_early_failures (exImage 4) exName64 0).2.2.1 (by decide) (by decide) (by decide),
   (tfs_add_node_early_failures (exImage 4) exName63 0).2.2.2 (by decide) (by decide) (by decide)⟩

/-- C8 (evaluation at the failing input): on an image with no free block the
first child of the empty root is added with result 0; the parent still has
`nlink = 0`, the cache maps the path to inode 1, and the inode number 1 has been
stored in slot 511 of the block named by `blocks[-1]`. -/
theorem tfs_add_node_ignores_trim_failure :
    (exImage 0).free_block_head = END_BLOCKS ∧
    (tfs_add_node (exImage 0) ['/', 'a'] 0).map (fun r => r.ret) = some 0 ∧
    (tfs_add_node (exImage 0) ['/', 'a'] 0).map (fun r => (r.st.nodes 0).nlink) = some 0 ∧
    (tfs_add_node (exImage 0) ['/', 'a'] 0).map (fun r => get_node r.st ['/', 'a']) = some (some 1) ∧
    rd64 (exImage 0).data 0 511 = 0 ∧
    (tfs_add_node (exImage 0) ['/', 'a'] 0).map (fun r => rd64 r.st.data 0 511) = some 1 := by
  decide

/-! ### Metadata of a node under the callbacks -/

theorem next_block_callback_keepsNode : KeepsNode _next_block_callback := by
  intro st node c l
  unfold _next_block_callback
  split_ifs <;> rfl

theorem free_callback_keepsNode : KeepsNode _free_callback := by
  intro st node c l
  rfl

theorem alloc_callback_keepsMeta : KeepsMeta _alloc_callback := by
  intro st node c l
  unfold _alloc_callback
  split_ifs <;> exact ⟨rfl, rfl⟩

theorem reload_loop_keepsMeta (cb : callback_t) (h : KeepsMeta cb) :
    ∀ fuel st node c level,
      (reload_loop cb fuel st node c level).node.mode = node.mode ∧
      (reload_loop cb fuel st node c level).node.size = node.size := by
  intro fuel
  induction fuel with
  | zero => intro st node c level; exact ⟨rfl, rfl⟩
  | succ n ih =>
    intro st node c level
    unfold reload_loop
    split_ifs with hl
    · have h1 := h st node c level
      have h2 := ih (cb st node c level).st (cb st node c level).node
        { c with block := aset c.block (level + 1) (cb st node c level).ret } (level + 1)
      exact ⟨h2.1.trans h1.1, h2.2.trans h1.2⟩
    · exact ⟨rfl, rfl⟩

theorem reload_loop_keepsNode (cb : callback_t) (h : KeepsNode cb) :
    ∀ fuel st node c level, (reload_loop cb fuel st node c level).node = node := by
  intro fuel
  induction fuel with
  | zero => intro st node c level; rfl
  | succ n ih =>
    intro st node c level
    unfold reload_loop
    split_ifs with hl
    · have h1 := h st node c level
      have h2 := ih (cb st node c level).st (cb st node c level).node
        { c with block := aset c.block (level + 1) (cb st node c level).ret } (level + 1)
      exact h2.trans h1
    · rfl

theorem iter_through_keepsMeta (cb : callback_t) (h : KeepsMeta cb) (st : tfs_info)
    (node : tfs_node) (c : block_cursor) :
    (iter_through cb st node c).node.mode = node.mode ∧
    (iter_through cb st node c).node.size = node.size := by
  unfold iter_through
  by_cases h1 : c.i + 1 < DIRECT_BLOCKS
  · simp only [h1, if_true]
    exact h _ _ _ _
  · simp only [h1, if_false]
    have h2 := reload_loop_keepsMeta cb h
    exact ⟨((h _ _ _ _).1).trans (h2 _ _ _ _ _).1, ((h _ _ _ _).2).trans (h2 _ _ _ _ _).2⟩

theorem iter_through_keepsNode (cb : callback_t) (h : KeepsNode cb) (st : tfs_info)
    (node : tfs_node) (c : block_cursor) :
    (iter_through cb st node c).node = node := by
  unfold iter_through
  by_cases h1 : c.i + 1 < DIRECT_BLOCKS
  · simp only [h1, if_true]
    exact h _ _ _ _
  · simp only [h1, if_false]
    exact (h _ _ _ _).trans (reload_loop_keepsNode cb h _ _ _ _ _)

/-! ### The loops of `tfs_node_trim` -/

theorem alloc_callback_end (st : tfs_info) (node : tfs_node) (c : block_cursor) (l : Int)
    (h : (_alloc_callback st node c l).ret = END_BLOCKS) :
    (_alloc_callback st node c l).st.free_block_head = END_BLOCKS := by
  unfold _alloc_callback at h ⊢
  split_ifs at h ⊢ with h1 h2 h3
  · exact h1
  · exact absurd h h1
  · exact absurd h h1
  · exact absurd h h1

theorem iter_through_alloc_end (st : tfs_info) (node : tfs_node) (c : block_cursor)
    (h : (iter_through _alloc_callback st node c).ret = END_BLOCKS) :
    (iter_through _alloc_callback st node c).st.free_block_head = END_BLOCKS := by
  unfold iter_through at h ⊢
  by_cases h1 : c.i + 1 < DIRECT_BLOCKS
  · simp only [h1, if_true] at h ⊢
    exact alloc_callback_end _ _ _ _ h
  · simp only [h1, if_false] at h ⊢
    exact alloc_callback_end _ _ _ _ h

theorem grow_loop_spec : ∀ (fuel : Nat) (st : tfs_info) (node : tfs_node) (c : block_cursor)
    (d : Int), 0 ≤ d → d ≤ fuel →
    (grow_loop fuel st node c d).node.mode = node.mode ∧
    (grow_loop fuel st node c d).node.size = node.size ∧
    0 ≤ (grow_loop fuel st node c d).dblocks ∧
    (grow_loop fuel st node c d).dblocks = d - grow_count fuel st node c d ∧
    (0 < (grow_loop fuel st node c d).dblocks →
      (grow_loop fuel st node c d).st.free_block_head = END_BLOCKS) := by
  intro fuel
  induction fuel with
  | zero =>
    intro st node c d h0 h1
    have : d = 0 := by omega
    subst this
    simp [grow_loop, grow_count]
  | succ n ih =>
    intro st node c d h0 h1
    unfold grow_loop grow_count
    by_cases hd : d = 0
    · subst hd
      simp
    · simp only [ne_eq, hd, not_false_eq_true, if_true]
      by_cases hr : (iter_through _alloc_callback st node c).ret = END_BLOCKS
      · simp only [hr, not_true_eq_false, if_false]
        have hm := iter_through_keepsMeta _ alloc_callback_keepsMeta st node c
        refine ⟨hm.1, hm.2, h0, by simp, fun _ => iter_through_alloc_end st node c hr⟩
      · simp only [hr, not_false_eq_true, if_true]
        have hm := iter_through_keepsMeta _ alloc_callback_keepsMeta st node c
        have h2 := ih (iter_through _alloc_callback st node c).st
          (iter_through _alloc_callback st node c).node
          (iter_through _alloc_callback st node c).cursor (d - 1) (by omega) (by push_cast at h1; omega)
        refine ⟨h2.1.trans hm.1, h2.2.1.trans hm.2, h2.2.2.1, ?_, h2.2.2.2.2⟩
        rw [h2.2.2.2.1]
        push_cast
        omega

theorem shrink_loop_spec : ∀ (fuel : Nat) (st : tfs_info) (node : tfs_node) (c : block_cursor)
    (d : Int), d ≤ 0 →
    (shrink_loop fuel st node c d).node = node ∧ (shrink_loop fuel st node c d).dblocks ≤ 0 := by
  intro fuel
  induction fuel with
  | zero =>
    intro st node c d h0
    exact ⟨rfl, h0⟩
  | succ n ih =>
    intro st node c d h0
    unfold shrink_loop
    by_cases hd : d = 0
    · subst hd
      simp
    · simp only [ne_eq, hd, not_false_eq_true, if_true]
      have hm := iter_through_keepsNode _ free_callback_keepsNode st node c
      by_cases hr : (iter_through _free_callback st node c).ret = END_BLOCKS
      · simp only [hr, not_true_eq_false, if_false]
        exact ⟨hm, h0⟩
      · simp only [hr, not_false_eq_true, if_true]
        have h2 := ih (clear_buffer (iter_through _free_callback st node c).cursor.level
          ((iter_through _free_callback st node c).cursor.level + 2).toNat
          (iter_through _free_callback st node c).st 0)
          (iter_through _free_callback st node c).node
          (iter_through _free_callback st node c).cursor (d + 1) (by omega)
        exact ⟨h2.1.trans hm, h2.2⟩

theorem clamp_size_spec (n : tfs_node) (k : Nat) (hk : k ≤ NODE_NRBLOCKS n) :
    (clamp_size { n with nblocks := k }).nblocks = k ∧
    (clamp_size { n with nblocks := k }).mode = n.mode ∧
    NODE_NRBLOCKS (clamp_size { n with nblocks := k }) = k ∧
    (NoWrap n → ((clamp_size { n with nblocks := k }).size = n.size ↔ k = NODE_NRBLOCKS n)) ∧
    (k < NODE_NRBLOCKS n →
      (clamp_size { n with nblocks := k }).size
        = k * (if n.isDir then BLOCK_MAX_CHILDREN else BLOCK_SIZE)) := by
  unfold clamp_size NoWrap
  by_cases hd : n.isDir = true
  · have hd2 : ({ n with nblocks := k } : tfs_node).isDir = true := hd
    simp only [hd2, if_true]
    have hd3 : ∀ s, ({ n with nblocks := k, size := s } : tfs_node).isDir = true := fun _ => hd
    unfold NODE_NRBLOCKS NODE_SIZE at hk ⊢
    simp only [hd, hd3, if_true, tfs_node.nlink, BLOCK_SIZE, BLOCK_MAX_CHILDREN,
      forall_const] at hk ⊢
    refine ⟨trivial, trivial, ?_, ?_, ?_⟩
    · omega
    · intro hw
      omega
    · omega
  · have hd' : n.isDir = false := by simpa using hd
    have hd2 : ({ n with nblocks := k } : tfs_node).isDir = false := hd'
    simp only [hd2, Bool.false_eq_true, if_false]
    have hd3 : ∀ s, ({ n with nblocks := k, size := s } : tfs_node).isDir = false := fun _ => hd'
    unfold NODE_NRBLOCKS NODE_SIZE at hk ⊢
    simp only [hd', hd3, Bool.false_eq_true, if_false, BLOCK_SIZE] at hk ⊢
    refine ⟨trivial, trivial, ?_, ?_, ?_⟩
    · omega
    · intro _
      omega
    · omega

theorem tfs_node_trim_spec (st : tfs_info) (node : tfs_node) :
    (tfs_node_trim st node).node.nblocks = NODE_NRBLOCKS (tfs_node_trim st node).node ∧
    (tfs_node_trim st node).node.mode = node.mode ∧
    ((tfs_node_trim st node).ret = 0 ∨ (tfs_node_trim st node).ret = -ENOSPC) ∧
    (NoWrap node →
      ((tfs_node_trim st node).ret = 0 ↔ (tfs_node_trim st node).node.size = node.size)) ∧
    ((tfs_node_trim st node).ret = -ENOSPC ↔
      (node.nblocks < NODE_NRBLOCKS node ∧
       (tfs_node_trim st node).node.nblocks < NODE_NRBLOCKS node)) ∧
    (node.nblocks ≤ NODE_NRBLOCKS node →
      (tfs_node_trim st node).node.nblocks = node.nblocks + trim_added st node) ∧
    ((tfs_node_trim st node).ret = -ENOSPC →
      (tfs_node_trim st node).st.free_block_head = END_BLOCKS ∧
      (tfs_node_trim st node).node.size = (tfs_node_trim st node).node.nblocks *
        (if node.isDir then BLOCK_MAX_CHILDREN else BLOCK_SIZE)) := by
  unfold tfs_node_trim trim_added
  by_cases hs : (NODE_NRBLOCKS node : Int) - node.nblocks < 0
  · simp only [hs, if_true]
    have h1 := shrink_loop_spec ((NODE_NRBLOCKS node : Int) - node.nblocks).natAbs st node
      (block_seek st node DEFINE_BLOCK_CURSOR ((NODE_NRBLOCKS node : Int) - 1)).cursor
      ((NODE_NRBLOCKS node : Int) - node.nblocks) (le_of_lt hs)
    have h2 : ¬ ((shrink_loop ((NODE_NRBLOCKS node : Int) - node.nblocks).natAbs st node
      (block_seek st node DEFINE_BLOCK_CURSOR ((NODE_NRBLOCKS node : Int) - 1)).cursor
      ((NODE_NRBLOCKS node : Int) - node.nblocks)).dblocks > 0) := by omega
    simp only [h2, if_false, h1.1, Int.toNat_ofNat]
    have h3 := clamp_size_spec node (NODE_NRBLOCKS node) (le_refl _)
    refine ⟨h3.1.trans h3.2.2.1.symm, h3.2.1, by simp, ?_, ?_, ?_, ?_⟩
    · intro hw
      simp only [true_iff]
      exact (h3.2.2.2.1 hw).2 rfl
    · constructor
      · intro h; simp at h
      · intro h; rw [h3.1] at h; omega
    · intro h; omega
    · intro h; simp at h
  · simp only [hs, if_false]
    have h1 := grow_loop_spec ((NODE_NRBLOCKS node : Int) - node.nblocks).natAbs st node
      (block_seek st node DEFINE_BLOCK_CURSOR ((node.nblocks : Int) - 1)).cursor
      ((NODE_NRBLOCKS node : Int) - node.nblocks) (by omega) (by omega)
    obtain ⟨hm, hsz, hd0, hdc, hfree⟩ := h1
    generalize grow_loop ((NODE_NRBLOCKS node : Int) - node.nblocks).natAbs st node
      (block_seek st node DEFINE_BLOCK_CURSOR ((node.nblocks : Int) - 1)).cursor
      ((NODE_NRBLOCKS node : Int) - node.nblocks) = s at *
    generalize grow_count ((NODE_NRBLOCKS node : Int) - node.nblocks).natAbs st node
      (block_seek st node DEFINE_BLOCK_CURSOR ((node.nblocks : Int) - 1)).cursor
      ((NODE_NRBLOCKS node : Int) - node.nblocks) = g at *
    have hnr : NODE_NRBLOCKS s.node = NODE_NRBLOCKS node := by
      unfold NODE_NRBLOCKS NODE_SIZE tfs_node.isDir tfs_node.nlink
      rw [hm, hsz]
    have hdir : s.node.isDir = node.isDir := by
      unfold tfs_node.isDir
      rw [hm]
    have hk : ((NODE_NRBLOCKS node : Int) - s.dblocks).toNat ≤ NODE_NRBLOCKS s.node := by
      rw [hnr]; omega
    obtain ⟨c1, c2', c3, c4', c5'⟩ := clamp_size_spec s.node _ hk
    generalize clamp_size { s.node with nblocks := ((NODE_NRBLOCKS node : Int) - s.dblocks).toNat }
      = m at c1 c2' c3 c4' c5' ⊢
    have c2 := c2'.trans hm
    have hnw : NoWrap node → NoWrap s.node := by
      intro hw hd
      unfold tfs_node.nlink
      rw [hsz]
      exact hw (hdir ▸ hd)
    rw [hsz, hnr] at c4'
    rw [hnr, hdir] at c5'
    have c5 := c5'
    refine ⟨c1.trans c3.symm, c2, ?_, ?_, ?_, ?_, ?_⟩
    · by_cases hp : s.dblocks > 0
      · right; simp [hp]
      · left; simp [hp]
    · intro hw
      have c4 := c4' (hnw hw)
      rw [c4]
      by_cases hp : s.dblocks > 0
      · simp only [hp, if_true]
        constructor
        · intro h; simp at h
        · intro h; omega
      · simp only [hp, if_false, true_iff]
        omega
    · rw [c1]
      by_cases hp : s.dblocks > 0
      · simp only [hp, if_true, true_iff]
        omega
      · simp only [hp, if_false]
        constructor
        · intro h; simp at h
        · intro h; omega
    · intro _
      rw [c1]
      omega
    · intro hret
      have hp : s.dblocks > 0 := by
        by_contra hp
        simp [hp] at hret
      exact ⟨hfree hp, by rw [c1]; exact c5 (by omega)⟩

theorem rd64_congr (d d' : Int → Nat → Nat) (b b' : Int) (k : Int)
    (h : ∀ o, d' b' o = d b o) : rd64 d' b' k = rd64 d b k := by
  unfold rd64 leValue
  simp only [h]

theorem le_digits (u : Nat) (h : u < 18446744073709551616) :
    u % 256 + 256 * (u / 256 % 256 + 256 * (u / 65536 % 256 + 256 * (u / 16777216 % 256 +
      256 * (u / 4294967296 % 256 + 256 * (u / 1099511627776 % 256 +
        256 * (u / 281474976710656 % 256 + 256 * (u / 72057594037927936 % 256))))))) = u := by
  omega

theorem leValue_byteOf (v : Int) (f : Nat → Nat) (o : Nat)
    (hf : ∀ j, j < 8 → f (o + j) = byteOf v j) :
    leValue f o = (v % 18446744073709551616).toNat := by
  unfold leValue
  have h0 := hf 0 (by omega)
  have h1 := hf 1 (by omega)
  have h2 := hf 2 (by omega)
  have h3 := hf 3 (by omega)
  have h4 := hf 4 (by omega)
  have h5 := hf 5 (by omega)
  have h6 := hf 6 (by omega)
  have h7 := hf 7 (by omega)
  simp only [Nat.add_zero] at h0
  rw [h0, h1, h2, h3, h4, h5, h6, h7]
  unfold byteOf
  have hu : (v % 18446744073709551616).toNat < 18446744073709551616 := by omega
  generalize (v % 18446744073709551616).toNat = u at *
  have := le_digits u hu
  norm_num
  exact this

theorem s64_of_range (v : Int) (h1 : -9223372036854775808 ≤ v) (h2 : v < 9223372036854775808) :
    s64 (((v % 18446744073709551616).toNat : Nat) : Int) = v := by
  unfold s64
  have h3 : (((v % 18446744073709551616).toNat : Nat) : Int) = v % 18446744073709551616 := by
    omega
  rw [h3]
  split_ifs <;> omega

theorem rd64_wr64_same (d : Int → Nat → Nat) (b k v : Int) (hv : InI64 v) :
    rd64 (wr64 d b k v) b k = v := by
  unfold rd64
  rw [leValue_byteOf v]
  · exact s64_of_range v hv.1 hv.2
  · intro j hj
    unfold wr64
    have : (8 * k.toNat ≤ 8 * k.toNat + j ∧ 8 * k.toNat + j < 8 * k.toNat + 8) := by omega
    simp only [true_and, this, if_true]
    congr 1
    omega

theorem wr64_other_block (d : Int → Nat → Nat) (b k v b' : Int) (o : Nat) (h : b' ≠ b) :
    wr64 d b k v b' o = d b' o := by
  unfold wr64
  simp [h]

theorem rd64_wr64_other (d : Int → Nat → Nat) (b k v b' k' : Int) (hk : 0 ≤ k) (hk' : 0 ≤ k')
    (h : b' ≠ b ∨ k' ≠ k) : rd64 (wr64 d b k v) b' k' = rd64 d b' k' := by
  unfold rd64 leValue wr64
  have hne : ∀ j, j < 8 →
      ¬ (b' = b ∧ 8 * k.toNat ≤ 8 * k'.toNat + j ∧ 8 * k'.toNat + j < 8 * k.toNat + 8) := by
    intro j hj hc
    rcases h with h | h
    · exact h hc.1
    · omega
  have e0 := hne 0 (by omega)
  simp only [Nat.add_zero] at e0
  simp only [e0, hne 1 (by omega), hne 2 (by omega), hne 3 (by omega), hne 4 (by omega),
    hne 5 (by omega), hne 6 (by omega), hne 7 (by omega), if_false]

theorem memcpy_in_other_block (d : Int → Nat → Nat) (blk : Int) (off : Nat) (buf : Nat → Nat)
    (bp len : Nat) (b' : Int) (o : Nat) (h : b' ≠ blk) :
    memcpy_in d blk off buf bp len b' o = d b' o := by
  unfold memcpy_in
  simp [h]

theorem rd64_in_range (d : Int → Nat → Nat) (b k : Int) : InI64 (rd64 d b k) := by
  unfold rd64 s64 InI64
  split_ifs <;> omega

/-! ### The carry step of the cursor -/

theorem pred2_P1 (q : Int) (h : q % 512 ≠ 0) :
    (q - 1) / 262144 = q / 262144 ∧ (q - 1) % 262144 / 512 = q % 262144 / 512 ∧
    (q - 1) % 512 = q % 512 - 1 := by
  refine ⟨?_, ?_, ?_⟩ <;> omega

theorem pred2_P2 (q : Int) (h : q % 512 = 0) (h' : q % 262144 ≠ 0) :
    (q - 1) / 262144 = q / 262144 ∧ (q - 1) % 262144 / 512 = q % 262144 / 512 - 1 ∧
    (q - 1) % 512 = 511 := by
  refine ⟨?_, ?_, ?_⟩ <;> omega

theorem pred2_P3 (q : Int) (h : q % 262144 = 0) :
    (q - 1) / 262144 = q / 262144 - 1 ∧ (q - 1) % 262144 / 512 = 511 ∧
    (q - 1) % 512 = 511 := by
  refine ⟨?_, ?_, ?_⟩ <;> omega

theorem dig_l2 (n : Int) (h : 262668 ≤ n) :
    dig n 0 = (n - 262668) / 262144 ∧ dig n 1 = (n - 262668) % 262144 / 512 ∧
    dig n 2 = (n - 262668) % 512 := by
  unfold dig
  have h1 : ¬ n < 12 := by omega
  have h2 : ¬ n < 524 := by omega
  have h3 : ¬ n < 262668 := by omega
  simp [h1, h2, h3]

theorem dig_l1 (n : Int) (h : 524 ≤ n) (h' : n < 262668) :
    dig n 0 = (n - 524) / 512 ∧ dig n 1 = (n - 524) % 512 ∧ dig n 2 = 0 := by
  unfold dig
  have h1 : ¬ n < 12 := by omega
  have h2 : ¬ n < 524 := by omega
  simp [h1, h2, h']

theorem dig_l0 (n : Int) (h : 12 ≤ n) (h' : n < 524) :
    dig n 0 = n - 12 ∧ dig n 1 = 0 ∧ dig n 2 = 0 := by
  unfold dig
  have h1 : ¬ n < 12 := by omega
  simp [h1, h']

theorem dig_direct (n k : Int) (h : n < 12) : dig n k = 0 := by
  unfold dig
  simp [h]

theorem lvl_direct (n : Int) (h : n < 12) : lvl n = -1 := by
  unfold lvl; simp [h]

theorem lvl_l0 (n : Int) (h : 12 ≤ n) (h' : n < 524) : lvl n = 0 := by
  unfold lvl; split_ifs <;> omega

theorem lvl_l1 (n : Int) (h : 524 ≤ n) (h' : n < 262668) : lvl n = 1 := by
  unfold lvl; split_ifs <;> omega

theorem lvl_l2 (n : Int) (h : 262668 ≤ n) : lvl n = 2 := by
  unfold lvl; split_ifs <;> omega
theorem u64_of_nonneg (x : Int) (h0 : 0 ≤ x) (h1 : x < 18446744073709551616) : u64 x = x := by
  unfold u64
  omega

theorem carry_neg (f : Nat) (c : block_cursor) (L : Int) (hL : L < 0) :
    carry_loop f c L = ⟨c, L⟩ := by
  cases f with
  | zero => rfl
  | succ f =>
    unfold carry_loop
    have : ¬ (L ≥ 0) := by omega
    simp only [this, if_false]

theorem carry_no (f : Nat) (c : block_cursor) (L : Int) (hL : 0 ≤ L) (h0 : 0 ≤ c.pos L + 1)
    (h1 : c.pos L + 1 < 512) :
    carry_loop (f + 1) c L = ⟨{ c with pos := aset c.pos L (c.pos L + 1) }, L⟩ := by
  unfold carry_loop
  have hu : ¬ (u64 (aset c.pos L (c.pos L + 1) L) ≥ (BLOCK_MAX_POINTERS : Int)) := by
    simp only [aset, if_true]
    rw [u64_of_nonneg _ h0 (by omega)]
    simp only [BLOCK_MAX_POINTERS]
    omega
  simp only [ge_iff_le, hL, if_true]
  simp only [ge_iff_le] at hu
  simp only [hu, if_false]

theorem carry_yes (f : Nat) (c : block_cursor) (L : Int) (hL : 0 ≤ L) (h : c.pos L + 1 = 512) :
    carry_loop (f + 1) c L =
      carry_loop f { c with pos := aset (aset c.pos L (c.pos L + 1)) L 0 } (L - 1) := by
  conv => lhs; unfold carry_loop
  have hu : u64 (aset c.pos L (c.pos L + 1) L) ≥ (BLOCK_MAX_POINTERS : Int) := by
    simp only [aset, if_true]
    rw [h]
    decide
  simp only [ge_iff_le, hL, if_true]
  simp only [ge_iff_le] at hu
  simp only [hu, if_true]

theorem pred1_P1 (q : Int) (h : q % 512 ≠ 0) :
    (q - 1) / 512 = q / 512 ∧ (q - 1) % 512 = q % 512 - 1 := by
  refine ⟨?_, ?_⟩ <;> omega

theorem pred1_P2 (q : Int) (h : q % 512 = 0) :
    (q - 1) / 512 = q / 512 - 1 ∧ (q - 1) % 512 = 511 := by
  refine ⟨?_, ?_⟩ <;> omega

theorem carry_A (c : block_cursor) (n : Int) (h : CohPos c (n - 1)) (hn : n = 12) :
    CarryPost (carry_loop (c.level + 1).toNat { c with i := c.i + 1 } c.level) c n := by
  subst hn
  obtain ⟨hi, hl, h0, h1, h2⟩ := h
  have e1 : lvl (12 - 1) = -1 := by decide
  rw [show dig (12 - 1) 0 = 0 by decide] at h0
  rw [show dig (12 - 1) 1 = 0 by decide] at h1
  rw [show dig (12 - 1) 2 = 0 by decide] at h2
  unfold CarryPost
  rw [show lvl 12 = 0 by decide, show cl 12 = -1 by decide, show dig 12 0 = 0 by decide,
    show dig 12 1 = 0 by decide, show dig 12 2 = 0 by decide]
  rw [hl, e1, carry_neg _ _ _ (by omega)]
  simp [h0, h1, h2, hi, hl, e1]

theorem carry_B (c : block_cursor) (n : Int) (h : CohPos c (n - 1)) (h12 : 12 < n)
    (hcap : n < 524) :
    CarryPost (carry_loop (c.level + 1).toNat { c with i := c.i + 1 } c.level) c n := by
  obtain ⟨hi, hl, h0, h1, h2⟩ := h
  obtain ⟨d0, d1, d2⟩ := dig_l0 (n - 1) (by omega) (by omega)
  obtain ⟨f0, f1, f2⟩ := dig_l0 n (by omega) (by omega)
  have e1 := lvl_l0 (n - 1) (by omega) (by omega)
  have e2 := lvl_l0 n (by omega) (by omega)
  have e3 : cl n = 0 := by unfold cl; split_ifs <;> omega
  rw [d0] at h0; rw [d1] at h1; rw [d2] at h2
  unfold CarryPost
  rw [e2, e3, f0, f1, f2]
  have ht : (c.level + 1).toNat = 0 + 1 := by rw [hl, e1]; rfl
  rw [ht, hl, e1]
  rw [carry_no _ _ 0 (by omega) (by show 0 ≤ c.pos 0 + 1; omega) (by show c.pos 0 + 1 < 512; omega)]
  simp [aset, h0, h1, h2, hi]
  omega

theorem carry_C (c : block_cursor) (n : Int) (h : CohPos c (n - 1)) (hn : n = 524) :
    CarryPost (carry_loop (c.level + 1).toNat { c with i := c.i + 1 } c.level) c n := by
  subst hn
  obtain ⟨hi, hl, h0, h1, h2⟩ := h
  have e1 : lvl (524 - 1) = 0 := by decide
  rw [show dig (524 - 1) 0 = 511 by decide] at h0
  rw [show dig (524 - 1) 1 = 0 by decide] at h1
  rw [show dig (524 - 1) 2 = 0 by decide] at h2
  unfold CarryPost
  rw [show lvl 524 = 1 by decide, show cl 524 = -1 by decide, show dig 524 0 = 0 by decide,
    show dig 524 1 = 0 by decide, show dig 524 2 = 0 by decide]
  have ht : (c.level + 1).toNat = 0 + 1 := by rw [hl, e1]; rfl
  rw [ht, hl, e1]
  rw [carry_yes _ _ 0 (by omega) (by show c.pos 0 + 1 = 512; rw [h0]; norm_num)]
  rw [carry_neg _ _ _ (by omega)]
  simp [aset, h0, h1, h2, hi, hl, e1]

theorem carry_D1 (c : block_cursor) (n : Int) (h : CohPos c (n - 1)) (h12 : 524 < n)
    (hcap : n < 262668) (k1 : (n - 524) % 512 ≠ 0) :
    CarryPost (carry_loop (c.level + 1).toNat { c with i := c.i + 1 } c.level) c n := by
  obtain ⟨hi, hl, h0, h1, h2⟩ := h
  obtain ⟨d0, d1, d2⟩ := dig_l1 (n - 1) (by omega) (by omega)
  have hq : n - 1 - 524 = n - 524 - 1 := by ring
  rw [hq] at d0 d1
  obtain ⟨p0, p1⟩ := pred1_P1 (n - 524) k1
  rw [p0] at d0; rw [p1] at d1
  obtain ⟨f0, f1, f2⟩ := dig_l1 n (by omega) (by omega)
  have e1 := lvl_l1 (n - 1) (by omega) (by omega)
  have e2 := lvl_l1 n (by omega) (by omega)
  have e3 : cl n = 1 := by unfold cl; split_ifs <;> omega
  have hb : 0 < (n - 524) % 512 ∧ (n - 524) % 512 < 512 := by omega
  rw [d0] at h0; rw [d1] at h1; rw [d2] at h2
  unfold CarryPost
  rw [e2, e3, f0, f1, f2]
  clear d0 d1 d2 p0 p1 f0 f1 f2 hq k1 e2 e3
  generalize (n - 524) % 512 = b at *
  generalize (n - 524) / 512 = a at *
  have ht : (c.level + 1).toNat = 1 + 1 := by rw [hl, e1]; rfl
  rw [ht, hl, e1]
  rw [carry_no _ _ 1 (by omega) (by show 0 ≤ c.pos 1 + 1; omega) (by show c.pos 1 + 1 < 512; omega)]
  simp [aset, h0, h1, h2, hi]

theorem carry_D2 (c : block_cursor) (n : Int) (h : CohPos c (n - 1)) (h12 : 524 < n)
    (hcap : n < 262668) (k1 : (n - 524) % 512 = 0) :
    CarryPost (carry_loop (c.level + 1).toNat { c with i := c.i + 1 } c.level) c n := by
  obtain ⟨hi, hl, h0, h1, h2⟩ := h
  obtain ⟨d0, d1, d2⟩ := dig_l1 (n - 1) (by omega) (by omega)
  have hq : n - 1 - 524 = n - 524 - 1 := by ring
  rw [hq] at d0 d1
  obtain ⟨p0, p1⟩ := pred1_P2 (n - 524) k1
  rw [p0] at d0; rw [p1] at d1
  obtain ⟨f0, f1, f2⟩ := dig_l1 n (by omega) (by omega)
  have e1 := lvl_l1 (n - 1) (by omega) (by omega)
  have e2 := lvl_l1 n (by omega) (by omega)
  have e3 : cl n = 0 := by unfold cl; split_ifs <;> omega
  have ha : 0 < (n - 524) / 512 ∧ (n - 524) / 512 < 512 := by omega
  rw [d0] at h0; rw [d1] at h1; rw [d2] at h2
  rw [k1] at f1
  unfold CarryPost
  rw [e2, e3, f0, f1, f2]
  clear d0 d1 d2 p0 p1 f0 f1 f2 hq k1 e2 e3
  generalize (n - 524) / 512 = a at *
  have ht : (c.level + 1).toNat = 1 + 1 := by rw [hl, e1]; rfl
  rw [ht, hl, e1]
  rw [carry_yes _ _ 1 (by omega) (by show c.pos 1 + 1 = 512; rw [h1]; norm_num)]
  rw [show (1 : Int) - 1 = 0 by norm_num]
  rw [carry_no _ _ 0 (by omega) (by simp [aset, h0]; omega) (by simp [aset, h0]; omega)]
  simp [aset, h0, h1, h2, hi]

theorem carry_E (c : block_cursor) (n : Int) (h : CohPos c (n - 1)) (hn : n = 262668) :
    CarryPost (carry_loop (c.level + 1).toNat { c with i := c.i + 1 } c.level) c n := by
  subst hn
  obtain ⟨hi, hl, h0, h1, h2⟩ := h
  have e1 : lvl (262668 - 1) = 1 := by decide
  rw [show dig (262668 - 1) 0 = 511 by decide] at h0
  rw [show dig (262668 - 1) 1 = 511 by decide] at h1
  rw [show dig (262668 - 1) 2 = 0 by decide] at h2
  unfold CarryPost
  rw [show lvl 262668 = 2 by decide, show cl 262668 = -1 by decide,
    show dig 262668 0 = 0 by decide, show dig 262668 1 = 0 by decide,
    show dig 262668 2 = 0 by decide]
  have ht : (c.level + 1).toNat = 1 + 1 := by rw [hl, e1]; rfl
  rw [ht, hl, e1]
  rw [carry_yes _ _ 1 (by omega) (by show c.pos 1 + 1 = 512; rw [h1]; norm_num)]
  rw [show (1 : Int) - 1 = 0 by norm_num]
  rw [carry_yes _ _ 0 (by omega) (by simp [aset, h0])]
  rw [carry_neg _ _ _ (by omega)]
  simp [aset, h0, h1, h2, hi, hl, e1]

theorem carry_F1 (c : block_cursor) (n : Int) (h : CohPos c (n - 1)) (h12 : 262668 < n)
    (hcap : n < CAPACITY) (k1 : (n - 262668) % 512 ≠ 0) :
    CarryPost (carry_loop (c.level + 1).toNat { c with i := c.i + 1 } c.level) c n := by
  obtain ⟨hi, hl, h0, h1, h2⟩ := h
  simp only [CAPACITY] at hcap
  obtain ⟨d0, d1, d2⟩ := dig_l2 (n - 1) (by omega)
  have hq : n - 1 - 262668 = n - 262668 - 1 := by ring
  rw [hq] at d0 d1 d2
  obtain ⟨p0, p1, p2⟩ := pred2_P1 (n - 262668) k1
  rw [p0] at d0; rw [p1] at d1; rw [p2] at d2
  obtain ⟨f0, f1, f2⟩ := dig_l2 n (by omega)
  have e1 := lvl_l2 (n - 1) (by omega)
  have e2 := lvl_l2 n (by omega)
  have e3 : cl n = 2 := by unfold cl; split_ifs <;> omega
  have hb : 0 < (n - 262668) % 512 ∧ (n - 262668) % 512 < 512 := by omega
  rw [d0] at h0; rw [d1] at h1; rw [d2] at h2
  unfold CarryPost
  rw [e2, e3, f0, f1, f2]
  clear d0 d1 d2 p0 p1 p2 f0 f1 f2 hq k1 e2 e3
  generalize (n - 262668) % 512 = e at *
  generalize (n - 262668) % 262144 / 512 = b at *
  generalize (n - 262668) / 262144 = a at *
  have ht : (c.level + 1).toNat = 2 + 1 := by rw [hl, e1]; rfl
  rw [ht, hl, e1]
  rw [carry_no _ _ 2 (by omega) (by show 0 ≤ c.pos 2 + 1; omega) (by show c.pos 2 + 1 < 512; omega)]
  simp [aset, h0, h1, h2, hi]

theorem carry_F3 (c : block_cursor) (n : Int) (h : CohPos c (n - 1)) (h12 : 262668 < n)
    (hcap : n < CAPACITY) (k2 : (n - 262668) % 262144 = 0) :
    CarryPost (carry_loop (c.level + 1).toNat { c with i := c.i + 1 } c.level) c n := by
  obtain ⟨hi, hl, h0, h1, h2⟩ := h
  simp only [CAPACITY] at hcap
  obtain ⟨d0, d1, d2⟩ := dig_l2 (n - 1) (by omega)
  have hq : n - 1 - 262668 = n - 262668 - 1 := by ring
  rw [hq] at d0 d1 d2
  obtain ⟨p0, p1, p2⟩ := pred2_P3 (n - 262668) k2
  rw [p0] at d0; rw [p1] at d1; rw [p2] at d2
  obtain ⟨f0, f1, f2⟩ := dig_l2 n (by omega)
  have e1 := lvl_l2 (n - 1) (by omega)
  have e2 := lvl_l2 n (by omega)
  have e3 : cl n = 0 := by unfold cl; split_ifs <;> omega
  have ha : 0 < (n - 262668) / 262144 ∧ (n - 262668) / 262144 < 512 := by omega
  have g1 : (n - 262668) % 262144 / 512 = 0 := by omega
  have g2 : (n - 262668) % 512 = 0 := by omega
  rw [d0] at h0; rw [d1] at h1; rw [d2] at h2
  rw [g1] at f1
  rw [g2] at f2
  unfold CarryPost
  rw [e2, e3, f0, f1, f2]
  clear d0 d1 d2 p0 p1 p2 f0 f1 f2 hq k2 e2 e3 g1 g2
  generalize (n - 262668) / 262144 = a at *
  have ht : (c.level + 1).toNat = 2 + 1 := by rw [hl, e1]; rfl
  rw [ht, hl, e1]
  rw [carry_yes _ _ 2 (by omega) (by show c.pos 2 + 1 = 512; rw [h2]; norm_num)]
  rw [show (2 : Int) - 1 = 1 by norm_num]
  rw [carry_yes _ _ 1 (by omega) (by simp [aset, h1])]
  rw [show (1 : Int) - 1 = 0 by norm_num]
  rw [carry_no _ _ 0 (by omega) (by simp [aset, h0]; omega) (by simp [aset, h0]; omega)]
  simp [aset, h0, h1, h2, hi]

theorem carry_F2 (c : block_cursor) (n : Int) (h : CohPos c (n - 1)) (h12 : 262668 < n)
    (hcap : n < CAPACITY) (k1 : (n - 262668) % 512 = 0) (k2 : (n - 262668) % 262144 ≠ 0) :
    CarryPost (carry_loop (c.level + 1).toNat { c with i := c.i + 1 } c.level) c n := by
  obtain ⟨hi, hl, h0, h1, h2⟩ := h
  simp only [CAPACITY] at hcap
  obtain ⟨d0, d1, d2⟩ := dig_l2 (n - 1) (by omega)
  have hq : n - 1 - 262668 = n - 262668 - 1 := by ring
  rw [hq] at d0 d1 d2
  obtain ⟨p0, p1, p2⟩ := pred2_P2 (n - 262668) k1 k2
  rw [p0] at d0; rw [p1] at d1; rw [p2] at d2
  obtain ⟨f0, f1, f2⟩ := dig_l2 n (by omega)
  have e1 := lvl_l2 (n - 1) (by omega)
  have e2 := lvl_l2 n (by omega)
  have e3 : cl n = 1 := by unfold cl; split_ifs <;> omega
  have hb : 0 < (n - 262668) % 262144 / 512 ∧ (n - 262668) % 262144 / 512 < 512 := by omega
  rw [d0] at h0; rw [d1] at h1; rw [d2] at h2
  rw [k1] at f2
  unfold CarryPost
  rw [e2, e3, f0, f1, f2]
  clear d0 d1 d2 p0 p1 p2 f0 f1 f2 hq k1 k2 e2 e3
  generalize (n - 262668) % 262144 / 512 = b at *
  generalize (n - 262668) / 262144 = a at *
  have ht : (c.level + 1).toNat = 2 + 1 := by rw [hl, e1]; rfl
  rw [ht, hl, e1]
  rw [carry_yes _ _ 2 (by omega) (by show c.pos 2 + 1 = 512; rw [h2]; norm_num)]
  rw [show (2 : Int) - 1 = 1 by norm_num]
  rw [carry_no _ _ 1 (by omega) (by simp [aset, h1]; omega) (by simp [aset, h1]; omega)]
  simp [aset, h0, h1, h2, hi]

theorem carry_spec (c : block_cursor) (n : Int) (h : CohPos c (n - 1)) (h12 : 12 ≤ n)
    (hcap : n < CAPACITY) :
    CarryPost (carry_loop (c.level + 1).toNat { c with i := c.i + 1 } c.level) c n := by
  by_cases c1 : n = 12
  · exact carry_A c n h c1
  by_cases c2 : n < 524
  · exact carry_B c n h (by omega) c2
  by_cases c3 : n = 524
  · exact carry_C c n h c3
  by_cases c4 : n < 262668
  · by_cases k1 : (n - 524) % 512 = 0
    · exact carry_D2 c n h (by omega) c4 k1
    · exact carry_D1 c n h (by omega) c4 k1
  by_cases c5 : n = 262668
  · exact carry_E c n h c5
  by_cases k2 : (n - 262668) % 262144 = 0
  · exact carry_F3 c n h (by omega) hcap k2
  by_cases k1 : (n - 262668) % 512 = 0
  · exact carry_F2 c n h (by omega) hcap k1 k2
  · exact carry_F1 c n h (by omega) hcap k1

/-! ### Places on the way to a logical index -/

theorem path_uniq (x : TNode) (n : Int) (hv : Valid x) (hf : first x = n) :
    x = pathnode n (depth x) ∧ cl n < depth x := by
  rcases x with i | L | ⟨L, a⟩ | ⟨L, a, b⟩ | ⟨a, b, e⟩
  · simp only [Valid, first, depth] at *
    subst hf
    simp [pathnode, cl, hv.2]
  · simp only [Valid, first, depth] at *
    have hL : L = 0 ∨ L = 1 ∨ L = 2 := by omega
    rcases hL with rfl | rfl | rfl
    · simp at hf; subst hf; decide
    · simp at hf; subst hf; decide
    · simp at hf; subst hf; decide
  · simp only [Valid, first, depth] at *
    have hL : L = 0 ∨ L = 1 ∨ L = 2 := by omega
    rcases hL with rfl | rfl | rfl
    · simp at hf
      obtain ⟨d0, _, _⟩ := dig_l0 n (by omega) (by omega)
      have e2 := lvl_l0 n (by omega) (by omega)
      have e3 : cl n < 1 := by unfold cl; split_ifs <;> omega
      refine ⟨?_, e3⟩
      unfold pathnode
      have : ¬ n < 12 := by omega
      simp [this, e2, d0]
      omega
    · simp at hf
      obtain ⟨d0, _, _⟩ := dig_l1 n (by omega) (by omega)
      have e2 := lvl_l1 n (by omega) (by omega)
      have e3 : cl n < 1 := by unfold cl; split_ifs <;> omega
      refine ⟨?_, e3⟩
      unfold pathnode
      have : ¬ n < 12 := by omega
      simp [this, e2, d0]
      omega
    · simp at hf
      obtain ⟨d0, _, _⟩ := dig_l2 n (by omega)
      have e2 := lvl_l2 n (by omega)
      have e3 : cl n < 1 := by unfold cl; split_ifs <;> omega
      refine ⟨?_, e3⟩
      unfold pathnode
      have : ¬ n < 12 := by omega
      simp [this, e2, d0]
      omega
  · simp only [Valid, first, depth] at *
    have hL : L = 1 ∨ L = 2 := by omega
    rcases hL with rfl | rfl
    · simp at hf
      obtain ⟨d0, d1, _⟩ := dig_l1 n (by omega) (by omega)
      have e2 := lvl_l1 n (by omega) (by omega)
      have e3 : cl n < 2 := by unfold cl; split_ifs <;> omega
      refine ⟨?_, e3⟩
      unfold pathnode
      have : ¬ n < 12 := by omega
      simp [this, e2, d0, d1]
      omega
    · simp at hf
      obtain ⟨d0, d1, _⟩ := dig_l2 n (by omega)
      have e2 := lvl_l2 n (by omega)
      have e3 : cl n < 2 := by unfold cl; split_ifs <;> omega
      refine ⟨?_, e3⟩
      unfold pathnode
      have : ¬ n < 12 := by omega
      simp [this, e2, d0, d1]
      omega
  · simp only [Valid, first, depth] at *
    obtain ⟨d0, d1, d2⟩ := dig_l2 n (by omega)
    have e2 := lvl_l2 n (by omega)
    have e3 : cl n < 3 := by unfold cl; split_ifs <;> omega
    refine ⟨?_, e3⟩
    unfold pathnode
    have : ¬ n < 12 := by omega
    simp [this, e2, d0, d1, d2]
    omega

theorem path_direct (n k : Int) (h : n < 12) : pathnode n k = TNode.D n := by
  unfold pathnode
  simp [h]

theorem phys_path_zero (d : Int → Nat → Nat) (node : tfs_node) (n : Int) (h : 12 ≤ n) :
    phys d node (pathnode n 0) = node.iblocks (lvl n) := by
  unfold pathnode
  have : ¬ n < 12 := by omega
  simp [this, phys]

theorem phys_path_succ (d : Int → Nat → Nat) (node : tfs_node) (n l : Int) (h : 12 ≤ n)
    (h0 : 0 ≤ l) (h1 : l ≤ lvl n) :
    phys d node (pathnode n (l + 1)) = rd64 d (phys d node (pathnode n l)) (dig n l) := by
  have hl : lvl n ≤ 2 := by unfold lvl; split_ifs <;> omega
  have hn : ¬ n < 12 := by omega
  have hc : l = 0 ∨ l = 1 ∨ l = 2 := by omega
  rcases hc with rfl | rfl | rfl
  · simp [pathnode, hn, phys]
  · simp [pathnode, hn, phys]
  · have : lvl n = 2 := by omega
    simp [pathnode, hn, phys, this]

theorem path_facts (n k : Int) (h0 : 0 ≤ n) (hcap : n < CAPACITY) (hk0 : 0 ≤ k)
    (hk : k ≤ lvl n + 1) :
    Valid (pathnode n k) ∧ first (pathnode n k) ≤ n ∧
    (cl n < k → first (pathnode n k) = n) ∧ (k ≤ cl n → first (pathnode n k) < n) ∧
    depth (pathnode n k) = k := by
  simp only [CAPACITY] at hcap
  by_cases c1 : n < 12
  · have e := lvl_direct n c1
    have hk' : k = 0 := by omega
    subst hk'
    have e3 : cl n = -1 := by unfold cl; simp [c1]
    rw [path_direct n 0 c1, e3]
    simp [Valid, first, depth, h0, c1]
  by_cases c2 : n < 524
  · have e := lvl_l0 n (by omega) c2
    obtain ⟨d0, d1, d2⟩ := dig_l0 n (by omega) c2
    have e3 : cl n = if n = 12 then -1 else 0 := by unfold cl; simp [c1, c2]
    have hc : k = 0 ∨ k = 1 := by omega
    rcases hc with rfl | rfl
    · simp [pathnode, c1, e, Valid, first, depth, e3]
      split_ifs <;> omega
    · simp [pathnode, c1, e, Valid, first, depth, e3, d0]
      split_ifs <;> omega
  by_cases c3 : n < 262668
  · have e := lvl_l1 n (by omega) c3
    obtain ⟨d0, d1, d2⟩ := dig_l1 n (by omega) c3
    have e3 : cl n = if (n - 524) % 512 ≠ 0 then 1 else if n = 524 then -1 else 0 := by
      unfold cl; simp [c1, c2, c3]
    have hc : k = 0 ∨ k = 1 ∨ k = 2 := by omega
    rcases hc with rfl | rfl | rfl
    · simp [pathnode, c1, e, Valid, first, depth, e3]
      split_ifs <;> omega
    · simp [pathnode, c1, e, Valid, first, depth, e3, d0]
      split_ifs <;> omega
    · simp [pathnode, c1, e, Valid, first, depth, e3, d0, d1]
      split_ifs <;> omega
  · have e := lvl_l2 n (by omega)
    obtain ⟨d0, d1, d2⟩ := dig_l2 n (by omega)
    have e3 : cl n = if (n - 262668) % 512 ≠ 0 then 2 else if (n - 262668) % 262144 ≠ 0 then 1
        else if n = 262668 then -1 else 0 := by
      unfold cl; simp [c1, c2, c3]
    have hc : k = 0 ∨ k = 1 ∨ k = 2 ∨ k = 3 := by omega
    rcases hc with rfl | rfl | rfl | rfl
    · simp [pathnode, c1, e, Valid, first, depth, e3]
      split_ifs <;> omega
    · simp [pathnode, c1, e, Valid, first, depth, e3, d0]
      split_ifs <;> omega
    · simp [pathnode, c1, e, Valid, first, depth, e3, d0, d1]
      split_ifs <;> omega
    · simp [pathnode, c1, e, Valid, first, depth, e3, d0, d1, d2]
      split_ifs <;> omega

theorem path_same (n k : Int) (h12 : 12 ≤ n) (hcap : n < CAPACITY) (hk0 : 0 ≤ k)
    (hk : k ≤ cl n) :
    pathnode (n - 1) k = pathnode n k ∧ lvl (n - 1) = lvl n ∧ 12 ≤ n - 1 := by
  simp only [CAPACITY] at hcap
  have c1 : ¬ n < 12 := by omega
  by_cases c2 : n < 524
  · have e3 : cl n = if n = 12 then -1 else 0 := by unfold cl; simp [c1, c2]
    have hn : n ≠ 12 := by
      intro hn
      have : cl n = -1 := by rw [e3]; simp [hn]
      omega
    rw [if_neg hn] at e3
    have hk' : k = 0 := by omega
    subst hk'
    have e := lvl_l0 n (by omega) c2
    have e' := lvl_l0 (n - 1) (by omega) (by omega)
    have c1' : ¬ n - 1 < 12 := by omega
    simp [pathnode, c1, c1', e, e']
    omega
  by_cases c3 : n < 262668
  · have e3 : cl n = if (n - 524) % 512 ≠ 0 then 1 else if n = 524 then -1 else 0 := by
      unfold cl; simp [c1, c2, c3]
    have hn : n ≠ 524 := by
      intro hn
      have : cl n = -1 := by rw [e3]; simp [hn]
      omega
    have e := lvl_l1 n (by omega) c3
    have e' := lvl_l1 (n - 1) (by omega) (by omega)
    have c1' : ¬ n - 1 < 12 := by omega
    obtain ⟨d0, d1, d2⟩ := dig_l1 n (by omega) c3
    obtain ⟨d0', d1', d2'⟩ := dig_l1 (n - 1) (by omega) (by omega)
    have hc : k = 0 ∨ k = 1 := by split_ifs at e3 <;> omega
    rcases hc with rfl | rfl
    · simp [pathnode, c1, c1', e, e']
      omega
    · have hm : (n - 524) % 512 ≠ 0 := by
        intro hm; simp [hm, hn] at e3; omega
      simp [pathnode, c1, c1', e, e', d0, d0']
      omega
  · have e3 : cl n = if (n - 262668) % 512 ≠ 0 then 2 else if (n - 262668) % 262144 ≠ 0 then 1
        else if n = 262668 then -1 else 0 := by
      unfold cl; simp [c1, c2, c3]
    have hn : n ≠ 262668 := by
      intro hn
      have : cl n = -1 := by rw [e3]; simp [hn]
      omega
    have e := lvl_l2 n (by omega)
    have e' := lvl_l2 (n - 1) (by omega)
    have c1' : ¬ n - 1 < 12 := by omega
    obtain ⟨d0, d1, d2⟩ := dig_l2 n (by omega)
    obtain ⟨d0', d1', d2'⟩ := dig_l2 (n - 1) (by omega)
    have hc : k = 0 ∨ k = 1 ∨ k = 2 := by split_ifs at e3 <;> omega
    rcases hc with rfl | rfl | rfl
    · simp [pathnode, c1, c1', e, e']
      omega
    · have hm : (n - 262668) % 262144 ≠ 0 := by
        intro hm
        have : (n - 262668) % 512 = 0 := by omega
        simp [hm, hn, this] at e3; omega
      simp [pathnode, c1, c1', e, e', d0, d0']
      omega
    · have hm : (n - 262668) % 512 ≠ 0 := by
        intro hm
        rw [if_neg (by simpa using hm)] at e3
        split_ifs at e3 <;> omega
      simp [pathnode, c1, c1', e, e', d0, d0', d1, d1']
      omega

theorem cohpos_pos (c : block_cursor) (n l : Int) (h : CohPos c n) (h0 : 0 ≤ l) (h2 : l ≤ 2) :
    c.pos l = dig n l := by
  have hc : l = 0 ∨ l = 1 ∨ l = 2 := by omega
  rcases hc with rfl | rfl | rfl
  · exact h.2.2.1
  · exact h.2.2.2.1
  · exact h.2.2.2.2

theorem lvl_le_two (n : Int) : lvl n ≤ 2 ∧ -1 ≤ lvl n := by
  unfold lvl; split_ifs <;> omega

theorem lvl_nonneg (n : Int) (h : 12 ≤ n) : 0 ≤ lvl n := by
  unfold lvl; split_ifs <;> omega

theorem next_cb_spec (st : tfs_info) (node : tfs_node) (c : block_cursor) (n l : Int)
    (hpos : CohPos c n) (hblk : CohBlk st.data node c n l) (h12 : 12 ≤ n)
    (hcap : n < CAPACITY) (hn : n < node.nblocks) (hl0 : -1 ≤ l) (hl : l ≤ lvl n) :
    _next_block_callback st node c l = ⟨phys st.data node (pathnode n (l + 1)), node, st⟩ := by
  unfold _next_block_callback
  have hi := hpos.1
  have hu : ¬ (u64 c.i ≥ (node.nblocks : Int)) := by
    simp only [CAPACITY] at hcap
    rw [hi, u64_of_nonneg _ (by omega) (by omega)]
    omega
  have hd : ¬ (c.i < DIRECT_BLOCKS) := by rw [hi]; simp only [DIRECT_BLOCKS]; omega
  simp only [hu, hd, if_false]
  by_cases hm : l = -1
  · subst hm
    simp only [if_true]
    rw [show (-1 : Int) + 1 = 0 by norm_num, phys_path_zero _ _ _ h12, hpos.2.1]
  · simp only [hm, if_false]
    rw [phys_path_succ _ _ _ _ h12 (by omega) hl, hblk l (by omega) (le_refl _) hl,
      cohpos_pos c n l hpos (by omega) (by have := lvl_le_two n; omega)]

theorem reload_obs (st : tfs_info) (node : tfs_node) (n : Int) (h12 : 12 ≤ n)
    (hcap : n < CAPACITY) (hn : n < node.nblocks) :
    ∀ (fuel : Nat) (c : block_cursor) (l : Int), CohPos c n → CohBlk st.data node c n l →
      -1 ≤ l → l ≤ lvl n → fuel = (lvl n - l).toNat →
      (reload_loop _next_block_callback fuel st node c l).st = st ∧
      (reload_loop _next_block_callback fuel st node c l).node = node ∧
      CohPos (reload_loop _next_block_callback fuel st node c l).cursor n ∧
      CohBlk st.data node (reload_loop _next_block_callback fuel st node c l).cursor n (lvl n) := by
  intro fuel
  induction fuel with
  | zero =>
    intro c l hpos hblk hl0 hl hf
    have : l = lvl n := by omega
    subst this
    exact ⟨rfl, rfl, hpos, hblk⟩
  | succ f ih =>
    intro c l hpos hblk hl0 hl hf
    unfold reload_loop
    have hlt : l < c.level := by rw [hpos.2.1]; omega
    simp only [hlt, if_true]
    rw [next_cb_spec st node c n l hpos hblk h12 hcap hn hl0 (by omega)]
    simp only
    apply ih
    · exact hpos
    · intro k hk0 hk1 hk2
      by_cases hk : k = l + 1
      · subst hk
        simp [aset]
      · simp only [aset, hk, if_false]
        exact hblk k hk0 (by omega) hk2
    · omega
    · omega
    · omega
theorem next_block_spec (st : tfs_info) (node : tfs_node) (c : block_cursor) (n : Int)
    (h : Coh st.data node c (n - 1)) (h0 : 0 ≤ n) (hcap : n < CAPACITY)
    (hn : n < node.nblocks) :
    (next_block st node c).ret = lblk st.data node n ∧
    Coh st.data node (next_block st node c).cursor n := by
  obtain ⟨hpos, hblk⟩ := h
  unfold next_block iter_through
  by_cases hd : n < 12
  · have hi : c.i + 1 = n := by rw [hpos.1]; ring
    have hd' : c.i + 1 < DIRECT_BLOCKS := by rw [hi]; exact hd
    simp only [hd', if_true]
    unfold _next_block_callback
    have hu : ¬ (u64 (c.i + 1) ≥ (node.nblocks : Int)) := by
      rw [hi, u64_of_nonneg _ h0 (by omega)]
      omega
    simp only [hu, hd', if_false, if_true]
    have e1 := lvl_direct (n - 1) (by omega)
    have e2 := lvl_direct n hd
    refine ⟨?_, ⟨hi, ?_, ?_, ?_, ?_⟩, ?_⟩
    · unfold lblk
      rw [path_direct n _ hd, hi]
      rfl
    · show c.level = lvl n
      rw [hpos.2.1, e1, e2]
    · show c.pos 0 = dig n 0
      rw [hpos.2.2.1, dig_direct _ _ (by omega), dig_direct _ _ hd]
    · show c.pos 1 = dig n 1
      rw [hpos.2.2.2.1, dig_direct _ _ (by omega), dig_direct _ _ hd]
    · show c.pos 2 = dig n 2
      rw [hpos.2.2.2.2, dig_direct _ _ (by omega), dig_direct _ _ hd]
    · intro k hk0 _ hk2
      omega
  · have hi : c.i + 1 = n := by rw [hpos.1]; ring
    have hd' : ¬ (c.i + 1 < DIRECT_BLOCKS) := by rw [hi]; exact hd
    simp only [hd', if_false]
    have hc := carry_spec c n hpos (by omega) hcap
    generalize carry_loop (c.level + 1).toNat { c with i := c.i + 1 } c.level = cs at hc ⊢
    obtain ⟨q1, q2, q3, q4, q5, q6, q7⟩ := hc
    have hpos2 : CohPos (if cs.level = -1 then { cs.cursor with level := cs.cursor.level + 1 }
        else cs.cursor) n := by
      by_cases hm : cs.level = -1
      · simp only [hm, if_true] at q4 ⊢
        exact ⟨q2, q4, q5, q6, q7⟩
      · simp only [hm, if_false] at q4 ⊢
        exact ⟨q2, q4, q5, q6, q7⟩
    have hblk2 : CohBlk st.data node (if cs.level = -1 then
        { cs.cursor with level := cs.cursor.level + 1 } else cs.cursor) n cs.level := by
      intro k hk0 hk1 hk2
      have hb : (if cs.level = -1 then { cs.cursor with level := cs.cursor.level + 1 }
        else cs.cursor).block = c.block := by
        split_ifs <;> exact q3
      rw [hb]
      obtain ⟨p1, p2, p3⟩ := path_same n k (by omega) hcap hk0 (by omega)
      rw [← p1]
      exact hblk k hk0 (by omega) (by omega)
    generalize (if cs.level = -1 then { cs.cursor with level := cs.cursor.level + 1 }
        else cs.cursor) = c2 at hpos2 hblk2 ⊢
    have hcl : -1 ≤ cs.level ∧ cs.level ≤ lvl n := by
      rw [q1]
      have := lvl_nonneg n (by omega)
      unfold cl lvl
      split_ifs <;> omega
    have hr := reload_obs st node n (by omega) hcap hn (c2.level - cs.level).toNat c2 cs.level
      hpos2 hblk2 hcl.1 hcl.2 (by rw [hpos2.2.1])
    generalize reload_loop _next_block_callback (c2.level - cs.level).toNat st node c2 cs.level
      = s3 at hr ⊢
    obtain ⟨r1, r2, r3, r4⟩ := hr
    rw [r1, r2, r3.2.1]
    rw [next_cb_spec st node s3.cursor n (lvl n) r3 r4 (by omega) hcap hn
      (by have := lvl_le_two n; omega) (le_refl _)]
    exact ⟨rfl, r3, r4⟩

theorem msb_loop_bounds : ∀ (fuel n r k : Nat), 2 ^ k ≤ n → n < 2 ^ (k + 1) → k < fuel →
    msb_loop fuel n r = r + k := by
  intro fuel
  induction fuel with
  | zero => intro n r k _ _ h; omega
  | succ f ih =>
    intro n r k h1 h2 h3
    unfold msb_loop
    cases k with
    | zero =>
      have : n = 1 := by
        simp at h1 h2
        omega
      subst this
      simp
    | succ k =>
      have h4 : 2 ^ k ≤ n / 2 := by
        rw [Nat.le_div_iff_mul_le (by norm_num)]
        rw [pow_succ] at h1
        exact h1
      have h5 : n / 2 < 2 ^ (k + 1) := by
        rw [Nat.div_lt_iff_lt_mul (by norm_num)]
        rw [pow_succ] at h2
        exact h2
      have h6 : n / 2 ≠ 0 := by
        have : 0 < 2 ^ k := by positivity
        omega
      simp only [ne_eq, h6, not_false_eq_true, if_true]
      rw [ih (n / 2) (r + 1) k h4 h5 (by omega)]
      omega

theorem FLOG_range (x : Int) (L : Nat) (hL : L ≤ 2) (h1 : (2 : Int) ^ (9 * L) ≤ x)
    (h2 : x < (2 : Int) ^ (9 * (L + 1))) : FLOG x = (L : Int) := by
  have hx0 : 0 < x := lt_of_lt_of_le (by positivity) h1
  have hx27 : x < 134217728 := by
    have : (2 : Int) ^ (9 * (L + 1)) ≤ 2 ^ 27 := by
      apply pow_le_pow_right₀ (by norm_num)
      omega
    have h27 : (2 : Int) ^ 27 = 134217728 := by norm_num
    omega
  unfold FLOG msb
  rw [u64_of_nonneg x (by omega) (by omega)]
  have hm : x.toNat % 4294967296 = x.toNat := by omega
  rw [hm]
  have hne : x.toNat ≠ 0 := by omega
  have k1 : 2 ^ (x.toNat.log2) ≤ x.toNat := Nat.log2_self_le hne
  have k2 : x.toNat < 2 ^ (x.toNat.log2 + 1) := Nat.lt_log2_self
  have k3 : x.toNat.log2 < 9 * (L + 1) := by
    rw [Nat.log2_lt hne]
    zify
    rw [Int.toNat_of_nonneg (by omega)]
    exact h2
  have k4 : 9 * L ≤ x.toNat.log2 := by
    rw [Nat.le_log2 hne]
    zify
    rw [Int.toNat_of_nonneg (by omega)]
    exact h1
  rw [msb_loop_bounds 32 x.toNat 0 x.toNat.log2 k1 k2 (by omega)]
  simp only [MAX_POINTERS_NBITS, Nat.zero_add]
  congr 1
  omega

/-! ### `block_seek` lands on the logical index -/

theorem FLOG_seek (p : Int) (h12 : 12 ≤ p) (hcap : p < CAPACITY) :
    FLOG (p - DIRECT_BLOCKS + 1 - (p - DIRECT_BLOCKS + 1) / BLOCK_MAX_POINTERS) = lvl p := by
  simp only [CAPACITY] at hcap
  simp only [DIRECT_BLOCKS, BLOCK_MAX_POINTERS, Nat.cast_ofNat]
  by_cases c2 : p < 524
  · rw [lvl_l0 p h12 c2]
    exact FLOG_range _ 0 (by omega) (by norm_num; omega) (by norm_num; omega)
  by_cases c3 : p < 262668
  · rw [lvl_l1 p (by omega) c3]
    exact FLOG_range _ 1 (by omega) (by norm_num; omega) (by norm_num; omega)
  · rw [lvl_l2 p (by omega)]
    exact FLOG_range _ 2 (by omega) (by norm_num; omega) (by norm_num; omega)

theorem block_seek_direct (st : tfs_info) (node : tfs_node) (c : block_cursor) (p : Int)
    (hpn : p ≤ node.nblocks) (hd : p < 12)
    (hfresh : c.pos 0 = 0 ∧ c.pos 1 = 0 ∧ c.pos 2 = 0) :
    (block_seek st node c p).ret = lblk st.data node p ∧
    Coh st.data node (block_seek st node c p).cursor p := by
  unfold block_seek
  have h1 : ¬ (p > (node.nblocks : Int)) := by omega
  have h2 : p < DIRECT_BLOCKS := hd
  simp only [h1, h2, if_false, if_true]
  refine ⟨?_, ⟨rfl, ?_, ?_, ?_, ?_⟩, ?_⟩
  · unfold lblk
    rw [path_direct p _ hd]
    rfl
  · show (-1 : Int) = lvl p
    rw [lvl_direct p hd]
  · show c.pos 0 = dig p 0
    rw [dig_direct _ _ hd, hfresh.1]
  · show c.pos 1 = dig p 1
    rw [dig_direct _ _ hd, hfresh.2.1]
  · show c.pos 2 = dig p 2
    rw [dig_direct _ _ hd, hfresh.2.2]
  · intro k hk0 _ hk2
    rw [lvl_direct p hd] at hk2
    omega

theorem block_seek_l0 (st : tfs_info) (node : tfs_node) (c : block_cursor) (p : Int)
    (hpn : p ≤ node.nblocks) (h12 : 12 ≤ p) (h524 : p < 524) :
    (block_seek st node c p).ret = lblk st.data node p ∧
    Coh st.data node (block_seek st node c p).cursor p := by
  unfold block_seek
  have h1 : ¬ (p > (node.nblocks : Int)) := by omega
  have h2 : ¬ (p < DIRECT_BLOCKS) := by simp only [DIRECT_BLOCKS]; omega
  simp only [h1, h2, if_false]
  rw [FLOG_seek p h12 (by simp only [CAPACITY]; omega)]
  have e := lvl_l0 p h12 h524
  obtain ⟨d0, d1, d2⟩ := dig_l0 p h12 h524
  unfold lblk Coh CohPos CohBlk
  rw [e, d0, d1, d2]
  have hp : ¬ p < 12 := by omega
  simp [seek_loop, seek_clear, MAX_POINTERS_POW, aset, CURRENT_BLOCK, pathnode, phys, e, d0,
    ILEVELS, DIRECT_BLOCKS, hp]
  intro k hk0 hk1
  have : k = 0 := by omega
  subst this
  simp

theorem block_seek_l1 (st : tfs_info) (node : tfs_node) (c : block_cursor) (p : Int)
    (hpn : p ≤ node.nblocks) (h12 : 524 ≤ p) (h524 : p < 262668) :
    (block_seek st node c p).ret = lblk st.data node p ∧
    Coh st.data node (block_seek st node c p).cursor p := by
  unfold block_seek
  have h1 : ¬ (p > (node.nblocks : Int)) := by omega
  have h2 : ¬ (p < DIRECT_BLOCKS) := by simp only [DIRECT_BLOCKS]; omega
  simp only [h1, h2, if_false]
  rw [FLOG_seek p (by omega) (by simp only [CAPACITY]; omega)]
  have e := lvl_l1 p h12 h524
  obtain ⟨d0, d1, d2⟩ := dig_l1 p h12 h524
  unfold lblk Coh CohPos CohBlk
  rw [e, d0, d1, d2]
  have hp : ¬ p < 12 := by omega
  have ha : p - 12 - 512 = p - 524 := by ring
  simp [seek_loop, seek_clear, MAX_POINTERS_POW, aset, CURRENT_BLOCK, pathnode, phys, e, d0, d1,
    ILEVELS, DIRECT_BLOCKS, hp, ha]
  intro k hk0 hk1
  have : k = 0 ∨ k = 1 := by omega
  rcases this with rfl | rfl
  · simp
  · simp

theorem block_seek_l2 (st : tfs_info) (node : tfs_node) (c : block_cursor) (p : Int)
    (hpn : p ≤ node.nblocks) (h12 : 262668 ≤ p) (hcap : p < CAPACITY) :
    (block_seek st node c p).ret = lblk st.data node p ∧
    Coh st.data node (block_seek st node c p).cursor p := by
  unfold block_seek
  have h1 : ¬ (p > (node.nblocks : Int)) := by omega
  have h2 : ¬ (p < DIRECT_BLOCKS) := by simp only [DIRECT_BLOCKS]; omega
  simp only [h1, h2, if_false]
  rw [FLOG_seek p (by omega) hcap]
  have e := lvl_l2 p h12
  obtain ⟨d0, d1, d2⟩ := dig_l2 p h12
  unfold lblk Coh CohPos CohBlk
  rw [e, d0, d1, d2]
  have hp : ¬ p < 12 := by omega
  have ha : p - 12 - 262656 = p - 262668 := by ring
  have hb : (p - 262668) % 262144 % 512 = (p - 262668) % 512 := by omega
  have w0 : MAX_POINTERS_POW 0 = 1 := by decide
  have w1 : MAX_POINTERS_POW 1 = 512 := by decide
  have w2 : MAX_POINTERS_POW 2 = 262144 := by decide
  simp [seek_loop, seek_clear, w0, w1, w2, aset, CURRENT_BLOCK, pathnode, phys, e, d0, d1,
    d2, ILEVELS, DIRECT_BLOCKS, hp, ha, hb]
  intro k hk0 hk1
  have : k = 0 ∨ k = 1 ∨ k = 2 := by omega
  rcases this with rfl | rfl | rfl
  · simp
  · simp
  · simp

theorem block_seek_spec (st : tfs_info) (node : tfs_node) (c : block_cursor) (p : Int)
    (hpn : p ≤ node.nblocks) (hcap : p < CAPACITY)
    (hfresh : p < 12 → c.pos 0 = 0 ∧ c.pos 1 = 0 ∧ c.pos 2 = 0) :
    (block_seek st node c p).ret = lblk st.data node p ∧
    Coh st.data node (block_seek st node c p).cursor p := by
  by_cases c1 : p < 12
  · exact block_seek_direct st node c p hpn c1 (hfresh c1)
  by_cases c2 : p < 524
  · exact block_seek_l0 st node c p hpn (by omega) c2
  by_cases c3 : p < 262668
  · exact block_seek_l1 st node c p hpn (by omega) c3
  · exact block_seek_l2 st node c p hpn (by omega) hcap

/-! ### Frames of the block tree -/

theorem live_prefix1 (n m L a : Int) (h : Live n m (TNode.N1 L a)) : Live n m (TNode.R L) := by
  obtain ⟨hv, hf⟩ := h
  simp only [Valid] at hv
  refine ⟨⟨hv.1, hv.2.1⟩, ?_⟩
  have hL : L = 0 ∨ L = 1 ∨ L = 2 := by omega
  rcases hL with rfl | rfl | rfl <;> simp [first, depth] at hf ⊢ <;> omega

theorem live_prefix2 (n m L a b : Int) (h : Live n m (TNode.N2 L a b)) :
    Live n m (TNode.N1 L a) := by
  obtain ⟨hv, hf⟩ := h
  simp only [Valid] at hv
  refine ⟨⟨by omega, hv.2.1, hv.2.2.1, hv.2.2.2.1⟩, ?_⟩
  have hL : L = 1 ∨ L = 2 := by omega
  rcases hL with rfl | rfl <;> simp [first, depth] at hf ⊢ <;> omega

theorem live_prefix3 (n m a b c : Int) (h : Live n m (TNode.N3 a b c)) :
    Live n m (TNode.N2 2 a b) := by
  obtain ⟨hv, hf⟩ := h
  simp only [Valid] at hv
  refine ⟨⟨by omega, by omega, hv.1, hv.2.1, hv.2.2.1, hv.2.2.2.1⟩, ?_⟩
  simp [first, depth] at hf ⊢
  omega

theorem phys_frame (d d' : Int → Nat → Nat) (node node' : tfs_node) (n m : Int)
    (hB : ∀ i, Live n m (TNode.D i) → node'.blocks i = node.blocks i)
    (hI : ∀ L, Live n m (TNode.R L) → node'.iblocks L = node.iblocks L)
    (hW1 : ∀ L a, Live n m (TNode.N1 L a) →
      rd64 d' (node.iblocks L) a = rd64 d (node.iblocks L) a)
    (hW2 : ∀ L a b, Live n m (TNode.N2 L a b) →
      rd64 d' (phys d node (TNode.N1 L a)) b = rd64 d (phys d node (TNode.N1 L a)) b)
    (hW3 : ∀ a b c, Live n m (TNode.N3 a b c) →
      rd64 d' (phys d node (TNode.N2 2 a b)) c = rd64 d (phys d node (TNode.N2 2 a b)) c) :
    ∀ x, Live n m x → phys d' node' x = phys d node x := by
  have f1 : ∀ L a, Live n m (TNode.N1 L a) →
      phys d' node' (TNode.N1 L a) = phys d node (TNode.N1 L a) := by
    intro L a h
    simp only [phys]
    rw [hI L (live_prefix1 n m L a h), hW1 L a h]
  have f2 : ∀ L a b, Live n m (TNode.N2 L a b) →
      phys d' node' (TNode.N2 L a b) = phys d node (TNode.N2 L a b) := by
    intro L a b h
    have h1 := f1 L a (live_prefix2 n m L a b h)
    have h2 := hW2 L a b h
    simp only [phys] at h1 h2 ⊢
    rw [h1, h2]
  intro x hx
  rcases x with i | L | ⟨L, a⟩ | ⟨L, a, b⟩ | ⟨a, b, c⟩
  · exact hB i hx
  · exact hI L hx
  · exact f1 L a hx
  · exact f2 L a b hx
  · have h1 := f2 2 a b (live_prefix3 n m a b c hx)
    have h2 := hW3 a b c hx
    simp only [phys] at h1 h2 ⊢
    rw [h1, h2]

theorem leaf_facts (j n m : Int) (h0 : 0 ≤ j) (hn : j < n) (hcap : j < CAPACITY) :
    Live n m (pathnode j (lvl j + 1)) ∧ isLeaf (pathnode j (lvl j + 1)) ∧
    first (pathnode j (lvl j + 1)) = j := by
  have hl := lvl_le_two j
  by_cases hd : j < 12
  · rw [path_direct j _ hd]
    exact ⟨⟨⟨h0, hd⟩, Or.inl hn⟩, trivial, rfl⟩
  have pf := path_facts j (lvl j + 1) h0 hcap (by omega) (le_refl _)
  have hc : cl j < lvl j + 1 := by
    unfold cl lvl; split_ifs <;> omega
  have hf := pf.2.2.1 hc
  refine ⟨⟨pf.1, Or.inl (by omega)⟩, ?_, hf⟩
  unfold pathnode lvl
  split_ifs <;> simp [isLeaf] <;> omega

/-! ### Writing into a data block -/

theorem write_block_frame (d d' : Int → Nat → Nat) (node : tfs_node) (n j : Int)
    (hinj : Inj d node n 0) (h0 : 0 ≤ j) (hn : j < n) (hcap : j < CAPACITY)
    (hd : ∀ b o, b ≠ lblk d node j → d' b o = d b o) :
    ∀ x, Live n 0 x → phys d' node x = phys d node x := by
  obtain ⟨lf1, lf2, lf3⟩ := leaf_facts j n 0 h0 hn hcap
  apply phys_frame d d' node node n 0 (fun _ _ => rfl) (fun _ _ => rfl)
  · intro L a h
    apply rd64_congr
    intro o
    apply hd
    intro he
    have h1 := live_prefix1 n 0 L a h
    have := hinj (TNode.R L) _ h1 lf1 (by simpa [phys, lblk] using he)
    rw [← this] at lf2
    exact lf2
  · intro L a b h
    apply rd64_congr
    intro o
    apply hd
    intro he
    have h1 := live_prefix2 n 0 L a b h
    have := hinj (TNode.N1 L a) _ h1 lf1 (by simpa [lblk] using he)
    rw [← this] at lf2
    simp only [isLeaf] at lf2
    have hv := h.1
    simp only [Valid] at hv
    omega
  · intro a b c h
    apply rd64_congr
    intro o
    apply hd
    intro he
    have h1 := live_prefix3 n 0 a b c h
    have := hinj (TNode.N2 2 a b) _ h1 lf1 (by simpa [lblk] using he)
    rw [← this] at lf2
    simp only [isLeaf] at lf2
    omega

theorem lblk_inj (d : Int → Nat → Nat) (node : tfs_node) (n j j' : Int)
    (hinj : Inj d node n 0) (h0 : 0 ≤ j) (hn : j < n) (hcap : j < CAPACITY)
    (h0' : 0 ≤ j') (hn' : j' < n) (hcap' : j' < CAPACITY)
    (h : lblk d node j = lblk d node j') : j = j' := by
  obtain ⟨lf1, _, lf3⟩ := leaf_facts j n 0 h0 hn hcap
  obtain ⟨lf1', _, lf3'⟩ := leaf_facts j' n 0 h0' hn' hcap'
  have := hinj _ _ lf1 lf1' h
  rw [this] at lf3
  omega

theorem lblk_frame (d d' : Int → Nat → Nat) (node : tfs_node) (n j : Int)
    (hf : ∀ x, Live n 0 x → phys d' node x = phys d node x)
    (h0 : 0 ≤ j) (hn : j < n) (hcap : j < CAPACITY) : lblk d' node j = lblk d node j :=
  hf _ (leaf_facts j n 0 h0 hn hcap).1

theorem coh_frame (d d' : Int → Nat → Nat) (node : tfs_node) (c : block_cursor) (n j : Int)
    (hf : ∀ x, Live n 0 x → phys d' node x = phys d node x)
    (h0 : 0 ≤ j) (hn : j < n) (hcap : j < CAPACITY) (h : Coh d node c j) : Coh d' node c j := by
  refine ⟨h.1, ?_⟩
  intro k hk0 hk1 hk2
  rw [h.2 k hk0 hk1 hk2]
  symm
  apply hf
  have pf := path_facts j k h0 hcap hk0 (by omega)
  exact ⟨pf.1, Or.inl (by omega)⟩

theorem bytes_step (d0 d : Int → Nat → Nat) (node : tfs_node) (buf : Nat → Nat)
    (offset0 offset bufpos chunk : Nat) (hj : offset / BLOCK_SIZE < node.nblocks)
    (huniq : ∀ j2 : Nat, j2 < node.nblocks →
      lblk d0 node j2 = lblk d0 node ((offset / BLOCK_SIZE : Nat) : Int) →
      j2 = offset / BLOCK_SIZE)
    (hoff : offset = offset0 + bufpos) (hchunk : chunk ≤ BLOCK_SIZE - offset % BLOCK_SIZE)
    (h : BytesInv d0 d node buf offset0 offset) :
    BytesInv d0 (memcpy_in d (lblk d0 node ((offset / BLOCK_SIZE : Nat) : Int))
      (offset % BLOCK_SIZE) buf bufpos chunk) node buf offset0 (offset + chunk) := by
  unfold BytesInv at h ⊢
  obtain ⟨h1, h2⟩ := h
  simp only [BLOCK_SIZE] at *
  constructor
  · intro j2 o hj2
    unfold memcpy_in
    by_cases hc : lblk d0 node (j2 : Int) = lblk d0 node ((offset / 4096 : Nat) : Int) ∧
        offset % 4096 ≤ o ∧ o < offset % 4096 + chunk
    · have hjj := huniq j2 hj2 hc.1
      subst hjj
      rw [if_pos hc]
      have hcond : o < 4096 ∧ offset0 ≤ offset / 4096 * 4096 + o ∧
          offset / 4096 * 4096 + o < offset + chunk := by omega
      rw [if_pos hcond]
      congr 1
      omega
    · rw [if_neg hc, h1 j2 o hj2]
      by_cases hjj : j2 = offset / 4096
      · subst hjj
        have hc' : ¬ (offset % 4096 ≤ o ∧ o < offset % 4096 + chunk) := fun hx => hc ⟨rfl, hx⟩
        by_cases hl : o < 4096 ∧ offset0 ≤ offset / 4096 * 4096 + o ∧
            offset / 4096 * 4096 + o < offset
        · rw [if_pos hl, if_pos (by omega)]
        · rw [if_neg hl, if_neg (by omega)]
      · by_cases hl : o < 4096 ∧ offset0 ≤ j2 * 4096 + o ∧ j2 * 4096 + o < offset
        · rw [if_pos hl, if_pos (by omega)]
        · rw [if_neg hl, if_neg (by omega)]
  · intro b hb o
    rw [memcpy_in_other_block _ _ _ _ _ _ _ _ (hb _ hj)]
    exact h2 b hb o

theorem inj_of_frame (d d' : Int → Nat → Nat) (node node' : tfs_node) (n m : Int)
    (hf : ∀ x, Live n m x → phys d' node' x = phys d node x) (hinj : Inj d node n m) :
    Inj d' node' n m := by
  intro x y hx hy h
  rw [hf x hx, hf y hy] at h
  exact hinj x y hx hy h

theorem write_loop_spec (node : tfs_node) (buf : Nat → Nat) (d0 : Int → Nat → Nat)
    (offset0 : Nat) (hS : NODE_SIZE node ≤ node.nblocks * BLOCK_SIZE)
    (hcap : (node.nblocks : Int) ≤ CAPACITY) (hinj : Inj d0 node node.nblocks 0) :
    ∀ (fuel : Nat) (st : tfs_info) (c : block_cursor) (block : Int)
      (bufpos to_write offset : Nat),
      to_write ≤ fuel → offset = offset0 + bufpos →
      (∀ x, Live node.nblocks 0 x → phys st.data node x = phys d0 node x) →
      (to_write = 0 ∨ NODE_SIZE node ≤ offset ∨
        (Coh st.data node c ((offset / BLOCK_SIZE : Nat) : Int) ∧
         block = lblk st.data node ((offset / BLOCK_SIZE : Nat) : Int))) →
      BytesInv d0 st.data node buf offset0 offset →
      (write_loop node buf fuel st c block bufpos to_write offset).to_write ≤ to_write ∧
      ((write_loop node buf fuel st c block bufpos to_write offset).to_write = 0 ∨
        NODE_SIZE node ≤ offset +
          (to_write - (write_loop node buf fuel st c block bufpos to_write offset).to_write)) ∧
      BytesInv d0 (write_loop node buf fuel st c block bufpos to_write offset).st.data node buf
        offset0 (offset +
          (to_write - (write_loop node buf fuel st c block bufpos to_write offset).to_write)) ∧
      (∀ x, Live node.nblocks 0 x →
        phys (write_loop node buf fuel st c block bufpos to_write offset).st.data node x =
          phys d0 node x) ∧
      SameButData st (write_loop node buf fuel st c block bufpos to_write offset).st := by
  intro fuel
  induction fuel with
  | zero =>
    intro st c block bufpos to_write offset hfuel hoff hphys hcoh hbytes
    have : to_write = 0 := by omega
    subst this
    unfold write_loop
    exact ⟨le_refl _, Or.inl rfl, hbytes, hphys, rfl⟩
  | succ f ih =>
    intro st c block bufpos to_write offset hfuel hoff hphys hcoh hbytes
    unfold write_loop
    simp only [BLOCK_SIZE] at *
    by_cases hcond : offset < NODE_SIZE node ∧ min to_write (4096 - offset % 4096) ≠ 0
    · rw [if_pos hcond]
      have htw : 0 < to_write := by
        rcases Nat.eq_zero_or_pos to_write with h | h
        · rw [h] at hcond; simp at hcond
        · exact h
      have hj : offset / 4096 < node.nblocks := by omega
      rcases hcoh with h | h | ⟨hc1, hc2⟩
      · omega
      · omega
      have hcapj : ((offset / 4096 : Nat) : Int) < CAPACITY := by omega
      have hb0 : block = lblk d0 node ((offset / 4096 : Nat) : Int) := by
        rw [hc2]
        exact lblk_frame d0 st.data node node.nblocks _ hphys (by omega) (by omega) hcapj
      have hinj' : Inj st.data node node.nblocks 0 := inj_of_frame _ _ _ _ _ _ hphys hinj
      generalize hch : min to_write (4096 - offset % 4096) = chunk at hcond ⊢
      have hchunk : chunk ≤ 4096 - offset % 4096 := by rw [← hch]; exact Nat.min_le_right _ _
      have hchunk2 : chunk ≤ to_write := by rw [← hch]; exact Nat.min_le_left _ _
      have hchunk0 : 0 < chunk := Nat.pos_of_ne_zero hcond.2
      obtain ⟨st1, hst1⟩ : ∃ s : tfs_info, s = tfs_info.mk st.nblocks st.nnodes
          st.free_block_head st.free_node_head st.nodes
          (memcpy_in st.data block (offset % 4096) buf bufpos chunk) st.free_block_buffer
          st.htable st.hsize st.hfilled := ⟨_, rfl⟩
      rw [← hst1]
      have hd1 : st1.data = memcpy_in st.data block (offset % 4096) buf bufpos chunk := by
        rw [hst1]
      have hsame1 : SameButData st st1 := by
        unfold SameButData
        rw [hst1]
      have hframe1 : ∀ x, Live node.nblocks 0 x → phys st1.data node x = phys st.data node x := by
        apply write_block_frame st.data _ node node.nblocks ((offset / 4096 : Nat) : Int)
          hinj' (by omega) (by omega) hcapj
        intro b o hb
        rw [← hc2] at hb
        rw [hd1]
        exact memcpy_in_other_block _ _ _ _ _ _ _ _ hb
      have hphys1 : ∀ x, Live node.nblocks 0 x → phys st1.data node x = phys d0 node x :=
        fun x hx => (hframe1 x hx).trans (hphys x hx)
      have hbytes1 : BytesInv d0 st1.data node buf offset0 (offset + chunk) := by
        rw [hd1, hb0]
        apply bytes_step d0 st.data node buf offset0 offset bufpos chunk hj _ hoff hchunk hbytes
        intro j2 hj2 he
        have := lblk_inj d0 node node.nblocks (j2 : Int) _ hinj (by omega) (by omega) (by omega)
          (by omega) (by omega) hcapj he
        simp only [BLOCK_SIZE] at this ⊢
        omega
      have hcoh1 : (to_write - chunk = 0 ∨ NODE_SIZE node ≤ offset + chunk ∨
          (Coh st1.data node (next_block st1 node c).cursor (((offset + chunk) / 4096 : Nat) : Int) ∧
           (next_block st1 node c).ret =
            lblk st1.data node (((offset + chunk) / 4096 : Nat) : Int))) := by
        by_cases h1 : to_write - chunk = 0
        · exact Or.inl h1
        by_cases h2 : NODE_SIZE node ≤ offset + chunk
        · exact Or.inr (Or.inl h2)
        right; right
        have hfull : chunk = 4096 - offset % 4096 := by
          rw [← hch]
          apply Nat.min_eq_right
          omega
        have hdiv : (offset + chunk) / 4096 = offset / 4096 + 1 := by omega
        have hj1 : offset / 4096 + 1 < node.nblocks := by omega
        rw [hdiv]
        have hcohd : Coh st1.data node c (((offset / 4096 + 1 : Nat) : Int) - 1) := by
          have : (((offset / 4096 + 1 : Nat) : Int) - 1) = ((offset / 4096 : Nat) : Int) := by
            push_cast; ring
          rw [this]
          exact coh_frame st.data _ node c node.nblocks _ hframe1 (by omega) (by omega) hcapj hc1
        have := next_block_spec st1 node c ((offset / 4096 + 1 : Nat) : Int) hcohd (by omega)
          (by omega) (by omega)
        exact ⟨this.2, this.1⟩
      have hi := ih st1 (next_block st1 node c).cursor (next_block st1 node c).ret
        (bufpos + chunk) (to_write - chunk) (offset + chunk) (by omega) (by omega) hphys1 hcoh1
        hbytes1
      generalize write_loop node buf f st1 (next_block st1 node c).cursor
        (next_block st1 node c).ret (bufpos + chunk) (to_write - chunk) (offset + chunk) = w
        at hi ⊢
      obtain ⟨i1, i2, i3, i4, i5⟩ := hi
      have he : offset + chunk + (to_write - chunk - w.to_write) =
          offset + (to_write - w.to_write) := by omega
      rw [he] at i2 i3
      refine ⟨by omega, i2, i3, i4, ?_⟩
      unfold SameButData at i5 hsame1 ⊢
      rw [i5, hsame1]
    · rw [if_neg hcond]
      simp only [Nat.sub_self, Nat.add_zero]
      refine ⟨le_refl _, ?_, hbytes, hphys, rfl⟩
      by_cases h1 : offset < NODE_SIZE node
      · left
        have : min to_write (4096 - offset % 4096) = 0 := by
          by_contra hne
          exact hcond ⟨h1, hne⟩
        omega
      · right; omega

theorem read_loop_spec (st : tfs_info) (node : tfs_node)
    (hS : NODE_SIZE node ≤ node.nblocks * BLOCK_SIZE) (hcap : (node.nblocks : Int) ≤ CAPACITY) :
    ∀ (fuel : Nat) (c : block_cursor) (block : Int) (buf : Nat → Nat)
      (bufpos to_read offset : Nat),
      to_read ≤ fuel → offset + to_read ≤ NODE_SIZE node →
      (to_read = 0 ∨
        (Coh st.data node c ((offset / BLOCK_SIZE : Nat) : Int) ∧
         block = lblk st.data node ((offset / BLOCK_SIZE : Nat) : Int))) →
      (read_loop st node fuel c block buf bufpos to_read offset).to_read = 0 ∧
      ∀ k, (read_loop st node fuel c block buf bufpos to_read offset).buf k =
        if bufpos ≤ k ∧ k < bufpos + to_read then
          st.data (lblk st.data node (((offset + (k - bufpos)) / BLOCK_SIZE : Nat) : Int))
            ((offset + (k - bufpos)) % BLOCK_SIZE)
        else buf k := by
  intro fuel
  induction fuel with
  | zero =>
    intro c block buf bufpos to_read offset hfuel hsz hcoh
    have : to_read = 0 := by omega
    subst this
    unfold read_loop
    refine ⟨rfl, ?_⟩
    intro k
    rw [if_neg (by omega)]
  | succ f ih =>
    intro c block buf bufpos to_read offset hfuel hsz hcoh
    unfold read_loop
    simp only [BLOCK_SIZE] at *
    by_cases hcond : offset < NODE_SIZE node ∧ min to_read (4096 - offset % 4096) ≠ 0
    · rw [if_pos hcond]
      have htw : 0 < to_read := by
        rcases Nat.eq_zero_or_pos to_read with h | h
        · rw [h] at hcond; simp at hcond
        · exact h
      have hj : offset / 4096 < node.nblocks := by omega
      rcases hcoh with h | ⟨hc1, hc2⟩
      · omega
      have hcapj : ((offset / 4096 : Nat) : Int) < CAPACITY := by omega
      generalize hch : min to_read (4096 - offset % 4096) = chunk at hcond ⊢
      have hchunk : chunk ≤ 4096 - offset % 4096 := by rw [← hch]; exact Nat.min_le_right _ _
      have hchunk2 : chunk ≤ to_read := by rw [← hch]; exact Nat.min_le_left _ _
      have hchunk0 : 0 < chunk := Nat.pos_of_ne_zero hcond.2
      have hlen : min chunk (NODE_SIZE node - offset) = chunk := by
        apply Nat.min_eq_left
        omega
      rw [hlen]
      have hcoh1 : (to_read - chunk = 0 ∨
          (Coh st.data node (next_block st node c).cursor (((offset + chunk) / 4096 : Nat) : Int) ∧
           (next_block st node c).ret =
            lblk st.data node (((offset + chunk) / 4096 : Nat) : Int))) := by
        by_cases h1 : to_read - chunk = 0
        · exact Or.inl h1
        right
        have hfull : chunk = 4096 - offset % 4096 := by
          rw [← hch]
          apply Nat.min_eq_right
          omega
        have hdiv : (offset + chunk) / 4096 = offset / 4096 + 1 := by omega
        have hj1 : offset / 4096 + 1 < node.nblocks := by omega
        rw [hdiv]
        have hcohd : Coh st.data node c (((offset / 4096 + 1 : Nat) : Int) - 1) := by
          have : (((offset / 4096 + 1 : Nat) : Int) - 1) = ((offset / 4096 : Nat) : Int) := by
            push_cast; ring
          rw [this]
          exact hc1
        have := next_block_spec st node c ((offset / 4096 + 1 : Nat) : Int) hcohd (by omega)
          (by omega) (by omega)
        exact ⟨this.2, this.1⟩
      have hi := ih (next_block st node c).cursor (next_block st node c).ret
        (memcpy_out buf bufpos st.data block (offset % 4096) chunk)
        (bufpos + chunk) (to_read - chunk) (offset + chunk) (by omega) (by omega) hcoh1
      obtain ⟨i1, i2⟩ := hi
      refine ⟨i1, ?_⟩
      intro k
      rw [i2 k]
      by_cases hk : bufpos + chunk ≤ k ∧ k < bufpos + chunk + (to_read - chunk)
      · rw [if_pos hk, if_pos (by omega)]
        have : offset + chunk + (k - (bufpos + chunk)) = offset + (k - bufpos) := by omega
        rw [this]
      · rw [if_neg hk]
        unfold memcpy_out
        by_cases hk2 : bufpos ≤ k ∧ k < bufpos + chunk
        · rw [if_pos hk2, if_pos (by omega)]
          have e1 : (offset + (k - bufpos)) / 4096 = offset / 4096 := by omega
          have e2 : (offset + (k - bufpos)) % 4096 = offset % 4096 + (k - bufpos) := by omega
          rw [e1, e2, hc2]
        · rw [if_neg hk2, if_neg (by omega)]
    · rw [if_neg hcond]
      have : to_read = 0 := by
        by_contra hne
        apply hcond
        constructor
        · omega
        · omega
      subst this
      refine ⟨rfl, ?_⟩
      intro k
      rw [if_neg (by omega)]

theorem tfs_node_read_spec (st : tfs_info) (node : tfs_node) (buf : Nat → Nat)
    (size offset : Nat) (hS : NODE_SIZE node ≤ node.nblocks * BLOCK_SIZE)
    (hcap : (node.nblocks : Int) ≤ CAPACITY) (hsz : offset + size ≤ NODE_SIZE node) :
    (tfs_node_read st node buf size offset).ret = s32 size ∧
    ∀ k, (tfs_node_read st node buf size offset).buf k =
      if k < size then file_byte st.data node (offset + k) else buf k := by
  unfold tfs_node_read
  have hcoh : size = 0 ∨
      (Coh st.data node
        (block_seek st node DEFINE_BLOCK_CURSOR ((offset / BLOCK_SIZE : Nat) : Int)).cursor
        ((offset / BLOCK_SIZE : Nat) : Int) ∧
       (block_seek st node DEFINE_BLOCK_CURSOR ((offset / BLOCK_SIZE : Nat) : Int)).ret =
        lblk st.data node ((offset / BLOCK_SIZE : Nat) : Int)) := by
    by_cases h0 : size = 0
    · exact Or.inl h0
    right
    have hj : offset / BLOCK_SIZE < node.nblocks := by
      simp only [BLOCK_SIZE] at *
      omega
    have := block_seek_spec st node DEFINE_BLOCK_CURSOR ((offset / BLOCK_SIZE : Nat) : Int)
      (by omega) (by omega) (fun _ => ⟨rfl, rfl, rfl⟩)
    exact ⟨this.2, this.1⟩
  have h := read_loop_spec st node hS hcap size
    (block_seek st node DEFINE_BLOCK_CURSOR ((offset / BLOCK_SIZE : Nat) : Int)).cursor
    (block_seek st node DEFINE_BLOCK_CURSOR ((offset / BLOCK_SIZE : Nat) : Int)).ret
    buf 0 size offset (le_refl _) hsz hcoh
  obtain ⟨h1, h2⟩ := h
  simp only
  refine ⟨by rw [h1]; simp, ?_⟩
  intro k
  rw [h2 k]
  simp only [Nat.zero_le, true_and, Nat.zero_add, Nat.sub_zero]
  rfl

theorem chain_frame (d d' : Int → Nat → Nat) :
    ∀ (fl : List Int) (h : Int), IsFreeList d h fl → (∀ e ∈ fl, ∀ o, d' e o = d e o) →
      IsFreeList d' h fl := by
  intro fl
  induction fl with
  | nil => intro h hc _; exact hc
  | cons b rest ih =>
    intro h hc hf
    obtain ⟨h1, h2, h3, h4⟩ := hc
    refine ⟨h1, h2, h3, ?_⟩
    have : NEXT_FREE_BLOCK d' b = NEXT_FREE_BLOCK d b := by
      unfold NEXT_FREE_BLOCK
      exact rd64_congr d d' b b 0 (hf b (List.mem_cons_self _ _))
    rw [this]
    exact ih _ h4 (fun e he o => hf e (List.mem_cons_of_mem _ he) o)

theorem live_mono (n m n' m' : Int) (x : TNode) (h : Live n m x)
    (hn : n < n' ∨ (n = n' ∧ m ≤ m')) : Live n' m' x := by
  obtain ⟨hv, hf⟩ := h
  refine ⟨hv, ?_⟩
  rcases hf with hf | ⟨hf1, hf2⟩
  · left; omega
  · rcases hn with hn | ⟨hn1, hn2⟩
    · left; omega
    · right; exact ⟨by omega, by omega⟩

theorem live_new (n m : Int) (x : TNode) (h : Live n (m + 1) x) :
    Live n m x ∨ x = pathnode n m := by
  by_cases hx : Live n m x
  · exact Or.inl hx
  right
  obtain ⟨hv, hf⟩ := h
  rcases hf with hf | ⟨hf1, hf2⟩
  · exact absurd ⟨hv, Or.inl hf⟩ hx
  · have hd : depth x = m := by
      by_contra hne
      exact hx ⟨hv, Or.inr ⟨hf1, by omega⟩⟩
    rw [← hd]
    exact (path_uniq x n hv hf1).1

theorem wf_extend (d d' : Int → Nat → Nat) (node node' : tfs_node) (head head' b : Int)
    (fl : List Int) (n m : Int) (hwf : WF d node head (b :: fl) n m)
    (hframe : ∀ x, Live n m x → phys d' node' x = phys d node x)
    (hX : phys d' node' (pathnode n m) = b) (hchain : IsFreeList d' head' fl) :
    WF d' node' head' fl n (m + 1) := by
  obtain ⟨w1, w2, w3, w4⟩ := hwf
  have hb : b ∉ fl := (List.nodup_cons.mp w2).1
  refine ⟨hchain, (List.nodup_cons.mp w2).2, ?_, ?_⟩
  · intro x y hx hy he
    rcases live_new n m x hx with hx' | hx'
    · rcases live_new n m y hy with hy' | hy'
      · rw [hframe x hx', hframe y hy'] at he
        exact w3 x y hx' hy' he
      · rw [hy', hX, hframe x hx'] at he
        exact absurd (he ▸ List.mem_cons_self b fl) (w4 x hx')
    · rcases live_new n m y hy with hy' | hy'
      · rw [hx', hX, hframe y hy'] at he
        exact absurd (he ▸ List.mem_cons_self b fl) (w4 y hy')
      · rw [hx', hy']
  · intro x hx
    rcases live_new n m x hx with hx' | hx'
    · rw [hframe x hx']
      intro hmem
      exact w4 x hx' (List.mem_cons_of_mem _ hmem)
    · rw [hx', hX]
      exact hb

theorem alloc_cb_eq_direct (st : tfs_info) (node : tfs_node) (c : block_cursor) (l : Int)
    (hne : st.free_block_head ≠ END_BLOCKS) (hd : c.i < DIRECT_BLOCKS) :
    _alloc_callback st node c l =
      ⟨st.free_block_head, { node with blocks := aset node.blocks c.i st.free_block_head },
       { st with free_block_head := NEXT_FREE_BLOCK st.data st.free_block_head }⟩ := by
  unfold _alloc_callback
  rw [if_neg hne, if_pos hd]

theorem alloc_cb_eq_root (st : tfs_info) (node : tfs_node) (c : block_cursor)
    (hne : st.free_block_head ≠ END_BLOCKS) (hd : ¬ c.i < DIRECT_BLOCKS) :
    _alloc_callback st node c (-1) =
      ⟨st.free_block_head, { node with iblocks := aset node.iblocks c.level st.free_block_head },
       { st with free_block_head := NEXT_FREE_BLOCK st.data st.free_block_head }⟩ := by
  unfold _alloc_callback
  rw [if_neg hne, if_neg hd, if_pos rfl]

theorem alloc_cb_eq_inner (st : tfs_info) (node : tfs_node) (c : block_cursor) (l : Int)
    (hne : st.free_block_head ≠ END_BLOCKS) (hd : ¬ c.i < DIRECT_BLOCKS) (hl : l ≠ -1) :
    _alloc_callback st node c l =
      ⟨st.free_block_head, node,
       { st with
          free_block_head := NEXT_FREE_BLOCK st.data st.free_block_head,
          data := wr64 st.data (c.block l) (c.pos l) st.free_block_head }⟩ := by
  unfold _alloc_callback
  rw [if_neg hne, if_neg hd, if_neg hl]

theorem alloc_cb_direct (st : tfs_info) (node : tfs_node) (c : block_cursor) (n b : Int)
    (fl : List Int) (hpos : CohPos c n) (hd : n < 12)
    (hwf : WF st.data node st.free_block_head (b :: fl) n 0) :
    AllocPost st node (_alloc_callback st node c (-1)) b fl n (-1) := by
  obtain ⟨w1, w2, w3, w4⟩ := hwf
  obtain ⟨e1, e2, e3, e4⟩ := w1
  have hne : st.free_block_head ≠ END_BLOCKS := by rw [e1]; exact e2
  have hdd : c.i < DIRECT_BLOCKS := by rw [hpos.1]; exact hd
  rw [alloc_cb_eq_direct st node c (-1) hne hdd]
  have hframe : ∀ x, Live n 0 x →
      phys st.data { node with blocks := aset node.blocks c.i st.free_block_head } x =
        phys st.data node x := by
    apply phys_frame st.data st.data node _ n 0
    · intro i hi
      have : i ≠ c.i := by
        rw [hpos.1]
        obtain ⟨_, hf⟩ := hi
        simp only [first, depth] at hf
        omega
      simp only [aset, this, if_false]
    · intro L _; rfl
    · intro L a _; rfl
    · intro L a b _; rfl
    · intro a b c _; rfl
  have hX : phys st.data { node with blocks := aset node.blocks c.i st.free_block_head }
      (pathnode n 0) = b := by
    rw [path_direct n 0 hd, hpos.1, e1]
    simp [phys, aset]
  have hch : IsFreeList st.data (NEXT_FREE_BLOCK st.data st.free_block_head) fl := by
    rw [e1]; exact e4
  have hwf' := wf_extend st.data st.data node
    { node with blocks := aset node.blocks c.i st.free_block_head } st.free_block_head
    (NEXT_FREE_BLOCK st.data st.free_block_head) b fl n 0 ⟨⟨e1, e2, e3, e4⟩, w2, w3, w4⟩
    hframe hX hch
  have k2 : (-1 : Int) + 2 = 0 + 1 := by norm_num
  have k1 : (-1 : Int) + 1 = 0 := by norm_num
  unfold AllocPost
  rw [k2, k1]
  dsimp only
  exact ⟨e1, hwf', hX, hframe, fun _ _ _ => rfl, rfl, rfl⟩

theorem cl_first (n : Int) (h12 : 12 ≤ n) (hcl : cl n = -1) :
    (n = 12 ∧ lvl n = 0) ∨ (n = 524 ∧ lvl n = 1) ∨ (n = 262668 ∧ lvl n = 2) := by
  unfold cl at hcl
  unfold lvl
  split_ifs at hcl ⊢ <;> omega

theorem alloc_cb_root (st : tfs_info) (node : tfs_node) (c : block_cursor) (n b : Int)
    (fl : List Int) (hpos : CohPos c n) (h12 : 12 ≤ n) (hcl : cl n = -1)
    (hwf : WF st.data node st.free_block_head (b :: fl) n 0) :
    AllocPost st node (_alloc_callback st node c (-1)) b fl n (-1) := by
  obtain ⟨w1, w2, w3, w4⟩ := hwf
  obtain ⟨e1, e2, e3, e4⟩ := w1
  have hne : st.free_block_head ≠ END_BLOCKS := by rw [e1]; exact e2
  have hdd : ¬ c.i < DIRECT_BLOCKS := by rw [hpos.1]; simp only [DIRECT_BLOCKS]; omega
  rw [alloc_cb_eq_root st node c hne hdd]
  have hframe : ∀ x, Live n 0 x →
      phys st.data { node with iblocks := aset node.iblocks c.level st.free_block_head } x =
        phys st.data node x := by
    apply phys_frame st.data st.data node _ n 0
    · intro i _; rfl
    · intro L hL
      have : L ≠ c.level := by
        rw [hpos.2.1]
        obtain ⟨hv, hf⟩ := hL
        simp only [Valid] at hv
        simp only [first, depth] at hf
        rcases cl_first n h12 hcl with ⟨k1, k2⟩ | ⟨k1, k2⟩ | ⟨k1, k2⟩ <;> rw [k2] <;>
          split_ifs at hf <;> omega
      simp only [aset, this, if_false]
    · intro L a _; rfl
    · intro L a b _; rfl
    · intro a b c _; rfl
  have hX : phys st.data { node with iblocks := aset node.iblocks c.level st.free_block_head }
      (pathnode n 0) = b := by
    unfold pathnode
    have : ¬ n < 12 := by omega
    simp [this, phys, aset, hpos.2.1, e1]
  have hch : IsFreeList st.data (NEXT_FREE_BLOCK st.data st.free_block_head) fl := by
    rw [e1]; exact e4
  have hwf' := wf_extend st.data st.data node
    { node with iblocks := aset node.iblocks c.level st.free_block_head } st.free_block_head
    (NEXT_FREE_BLOCK st.data st.free_block_head) b fl n 0 ⟨⟨e1, e2, e3, e4⟩, w2, w3, w4⟩
    hframe hX hch
  have k2 : (-1 : Int) + 2 = 0 + 1 := by norm_num
  have k1 : (-1 : Int) + 1 = 0 := by norm_num
  unfold AllocPost
  rw [k2, k1]
  dsimp only
  exact ⟨e1, hwf', hX, hframe, fun _ _ _ => rfl, rfl, rfl⟩

theorem path_child_R (n l L : Int) (h12 : 12 ≤ n) (h0 : 0 ≤ l) (h : pathnode n l = TNode.R L) :
    pathnode n (l + 1) = TNode.N1 L (dig n l) := by
  unfold pathnode at h ⊢
  have hn : ¬ n < 12 := by omega
  simp only [hn, if_false] at h ⊢
  by_cases c1 : l ≤ 0
  · have hl : l = 0 := by omega
    subst hl
    simp at h ⊢
    exact h
  · by_cases c2 : l = 1
    · simp [c1, c2] at h
    · by_cases c3 : l = 2
      · simp [c1, c2, c3] at h
      · simp [c1, c2, c3] at h

theorem path_child_N1 (n l L a : Int) (h12 : 12 ≤ n) (h0 : 0 ≤ l)
    (h : pathnode n l = TNode.N1 L a) : pathnode n (l + 1) = TNode.N2 L a (dig n l) := by
  unfold pathnode at h ⊢
  have hn : ¬ n < 12 := by omega
  simp only [hn, if_false] at h ⊢
  by_cases c1 : l ≤ 0
  · simp [c1] at h
  · by_cases c2 : l = 1
    · subst c2
      simp at h ⊢
      exact h
    · by_cases c3 : l = 2
      · simp [c1, c2, c3] at h
      · simp [c1, c2, c3] at h

theorem path_child_N2 (n l L a b : Int) (h12 : 12 ≤ n) (h0 : 0 ≤ l)
    (h : pathnode n l = TNode.N2 L a b) : pathnode n (l + 1) = TNode.N3 a b (dig n l) := by
  unfold pathnode at h ⊢
  have hn : ¬ n < 12 := by omega
  simp only [hn, if_false] at h ⊢
  by_cases c1 : l ≤ 0
  · simp [c1] at h
  · by_cases c2 : l = 1
    · simp [c1, c2] at h
    · by_cases c3 : l = 2
      · subst c3
        simp at h ⊢
        exact ⟨h.2.1, h.2.2⟩
      · simp [c1, c2, c3] at h

theorem dig_nonneg (n k : Int) (h : 0 ≤ n) : 0 ≤ dig n k := by
  unfold dig
  split_ifs <;> omega

theorem alloc_cb_inner (st : tfs_info) (node : tfs_node) (c : block_cursor) (n l b : Int)
    (fl : List Int) (hpos : CohPos c n) (hblk : CohBlk st.data node c n l) (h12 : 12 ≤ n)
    (hcap : n < CAPACITY) (hl0 : 0 ≤ l) (hl : l ≤ lvl n) (hcl : cl n ≤ l)
    (hwf : WF st.data node st.free_block_head (b :: fl) n (l + 1)) :
    AllocPost st node (_alloc_callback st node c l) b fl n l := by
  obtain ⟨w1, w2, w3, w4⟩ := hwf
  obtain ⟨e1, e2, e3, e4⟩ := w1
  have hne : st.free_block_head ≠ END_BLOCKS := by rw [e1]; exact e2
  have hdd : ¬ c.i < DIRECT_BLOCKS := by rw [hpos.1]; simp only [DIRECT_BLOCKS]; omega
  rw [alloc_cb_eq_inner st node c l hne hdd (by omega)]
  have hl2 := lvl_le_two n
  have hB : c.block l = phys st.data node (pathnode n l) := hblk l hl0 (le_refl _) hl
  have hs : c.pos l = dig n l := cohpos_pos c n l hpos hl0 (by omega)
  have hs0 : 0 ≤ dig n l := dig_nonneg n l (by omega)
  rw [hB, hs, e1]
  -- the index block written into is in use, the place written is not
  have pfY := path_facts n l (by omega) hcap hl0 (by omega)
  have pfX := path_facts n (l + 1) (by omega) hcap (by omega) (by omega)
  have hY : Live n (l + 1) (pathnode n l) := by
    refine ⟨pfY.1, ?_⟩
    rcases lt_or_eq_of_le pfY.2.1 with h | h
    · exact Or.inl h
    · exact Or.inr ⟨h, by rw [pfY.2.2.2.2]; omega⟩
  have hXn : ¬ Live n (l + 1) (pathnode n (l + 1)) := by
    intro h
    obtain ⟨_, h⟩ := h
    have := pfX.2.2.1 (by omega)
    rw [pfX.2.2.2.2] at h
    omega
  have hframe : ∀ x, Live n (l + 1) x →
      phys (wr64 st.data (phys st.data node (pathnode n l)) (dig n l) b) node x =
        phys st.data node x := by
    apply phys_frame st.data _ node node n (l + 1) (fun _ _ => rfl) (fun _ _ => rfl)
    · intro L a h
      apply rd64_wr64_other _ _ _ _ _ _ hs0 (by have := h.1; simp only [Valid] at this; omega)
      by_contra hc
      push_neg at hc
      have h1 := live_prefix1 n (l + 1) L a h
      have hy := w3 (TNode.R L) _ h1 hY (by simpa [phys] using hc.1)
      have := path_child_R n l L h12 hl0 hy.symm
      rw [← hc.2] at this
      exact hXn (this ▸ h)
    · intro L a b' h
      apply rd64_wr64_other _ _ _ _ _ _ hs0 (by have := h.1; simp only [Valid] at this; omega)
      by_contra hc
      push_neg at hc
      have h1 := live_prefix2 n (l + 1) L a b' h
      have hy := w3 (TNode.N1 L a) _ h1 hY hc.1
      have := path_child_N1 n l L a h12 hl0 hy.symm
      rw [← hc.2] at this
      exact hXn (this ▸ h)
    · intro a b' c' h
      apply rd64_wr64_other _ _ _ _ _ _ hs0 (by have := h.1; simp only [Valid] at this; omega)
      by_contra hc
      push_neg at hc
      have h1 := live_prefix3 n (l + 1) a b' c' h
      have hy := w3 (TNode.N2 2 a b') _ h1 hY hc.1
      have := path_child_N2 n l 2 a b' h12 hl0 hy.symm
      rw [← hc.2] at this
      exact hXn (this ▸ h)
  have hX : phys (wr64 st.data (phys st.data node (pathnode n l)) (dig n l) b) node
      (pathnode n (l + 1)) = b := by
    rw [phys_path_succ _ _ _ _ h12 hl0 hl, hframe _ hY]
    exact rd64_wr64_same _ _ _ _ e3
  have hYfl : phys st.data node (pathnode n l) ∉ b :: fl := w4 _ hY
  have hch : IsFreeList (wr64 st.data (phys st.data node (pathnode n l)) (dig n l) b)
      (NEXT_FREE_BLOCK st.data b) fl := by
    apply chain_frame st.data _ fl _ e4
    intro e he o
    apply wr64_other_block
    intro heq
    exact hYfl (heq ▸ List.mem_cons_of_mem _ he)
  have hwf' := wf_extend st.data (wr64 st.data (phys st.data node (pathnode n l)) (dig n l) b)
    node node st.free_block_head (NEXT_FREE_BLOCK st.data b) b fl n (l + 1)
    ⟨⟨e1, e2, e3, e4⟩, w2, w3, w4⟩ hframe hX hch
  have k2 : l + 2 = l + 1 + 1 := by ring
  unfold AllocPost
  rw [k2]
  dsimp only
  refine ⟨rfl, hwf', hX, hframe, ?_, ?_, rfl⟩
  · intro b' o hb
    exact wr64_other_block _ _ _ _ _ _ (hb hl0)
  · rfl

theorem step_refl (st : tfs_info) (node : tfs_node) (n m : Int) : Step st node st node n m :=
  ⟨fun _ _ => rfl, fun _ _ _ _ => rfl, rfl, rfl⟩

theorem step_trans (st : tfs_info) (node : tfs_node) (st1 : tfs_info) (node1 : tfs_node)
    (st2 : tfs_info) (node2 : tfs_node) (n m n' m' : Int)
    (hmono : ∀ x, Live n m x → Live n' m' x)
    (h1 : Step st node st1 node1 n m) (h2 : Step st1 node1 st2 node2 n' m') :
    Step st node st2 node2 n m := by
  obtain ⟨a1, a2, a3, a4⟩ := h1
  obtain ⟨b1, b2, b3, b4⟩ := h2
  refine ⟨?_, ?_, ?_, ?_⟩
  · intro x hx
    rw [b1 x (hmono x hx), a1 x hx]
  · intro x hx hl o
    have := b2 x (hmono x hx) hl o
    rw [a1 x hx] at this
    rw [this, a2 x hx hl o]
  · rw [b3, a3]
  · rw [b4, a4]

theorem path_not_leaf (n l : Int) (h12 : 12 ≤ n) (hl0 : 0 ≤ l) (hl : l ≤ lvl n) :
    ¬ isLeaf (pathnode n l) := by
  unfold pathnode
  have hn : ¬ n < 12 := by omega
  have hl2 := lvl_le_two n
  simp only [hn, if_false]
  split_ifs with c1 c2 c3
  · simp [isLeaf]
  · simp only [isLeaf]; omega
  · simp only [isLeaf]; omega
  · omega

theorem allocPost_step (st : tfs_info) (node : tfs_node) (r : cb_result) (b : Int)
    (fl : List Int) (n l : Int) (h12 : 0 ≤ l → 12 ≤ n) (hl : l ≤ lvl n)
    (hinj : Inj st.data node n (l + 1))
    (hY : 0 ≤ l → Live n (l + 1) (pathnode n l))
    (h : AllocPost st node r b fl n l) : Step st node r.st r.node n (l + 1) := by
  obtain ⟨_, _, _, a4, a5, a6, a7⟩ := h
  refine ⟨a4, ?_, a6, a7⟩
  intro x hx hleaf o
  apply a5
  intro hl0 heq
  have := hinj x _ hx (hY hl0) heq
  rw [this] at hleaf
  exact path_not_leaf n l (h12 hl0) hl0 hl hleaf

theorem cl_ge (n : Int) : -1 ≤ cl n := by
  unfold cl; split_ifs <;> omega

theorem lvl_nonneg_iff (n : Int) (h : 0 ≤ lvl n) : 12 ≤ n := by
  unfold lvl at h; split_ifs at h <;> omega

theorem alloc_cb_cases (st : tfs_info) (node : tfs_node) (c : block_cursor) (n l : Int)
    (fl : List Int) (hpos : CohPos c n) (hblk : CohBlk st.data node c n l) (h0 : 0 ≤ n)
    (hcap : n < CAPACITY) (hl0 : -1 ≤ l) (hl : l ≤ lvl n) (hcl : cl n ≤ l)
    (hwf : WF st.data node st.free_block_head fl n (l + 1)) :
    (st.free_block_head = END_BLOCKS ∧ _alloc_callback st node c l = ⟨-1, node, st⟩) ∨
    (∃ b fl', fl = b :: fl' ∧ AllocPost st node (_alloc_callback st node c l) b fl' n l ∧
      Step st node (_alloc_callback st node c l).st (_alloc_callback st node c l).node n
        (l + 1)) := by
  cases fl with
  | nil =>
    left
    have he : st.free_block_head = END_BLOCKS := hwf.1
    refine ⟨he, ?_⟩
    unfold _alloc_callback
    rw [if_pos he]
  | cons b fl' =>
    right
    refine ⟨b, fl', rfl, ?_⟩
    by_cases hm : l = -1
    · subst hm
      by_cases hd : n < 12
      · have hp := alloc_cb_direct st node c n b fl' hpos hd (by simpa using hwf)
        refine ⟨hp, ?_⟩
        apply allocPost_step st node _ b fl' n (-1) (fun h => by omega) hl hwf.2.2.1
          (fun h => by omega) hp
      · have hc : cl n = -1 := by have := cl_ge n; omega
        have hp := alloc_cb_root st node c n b fl' hpos (by omega) hc (by simpa using hwf)
        refine ⟨hp, ?_⟩
        apply allocPost_step st node _ b fl' n (-1) (fun h => by omega) hl hwf.2.2.1
          (fun h => by omega) hp
    · have h12 : 12 ≤ n := lvl_nonneg_iff n (by omega)
      have hp := alloc_cb_inner st node c n l b fl' hpos hblk h12 hcap (by omega) hl hcl hwf
      refine ⟨hp, ?_⟩
      apply allocPost_step st node _ b fl' n l (fun _ => h12) hl hwf.2.2.1 _ hp
      intro hl0'
      have pfY := path_facts n l (by omega) hcap hl0' (by omega)
      refine ⟨pfY.1, ?_⟩
      rcases lt_or_eq_of_le pfY.2.1 with h | h
      · exact Or.inl h
      · exact Or.inr ⟨h, by rw [pfY.2.2.2.2]; omega⟩

theorem reload_cursor (cb : callback_t) : ∀ (fuel : Nat) (st : tfs_info) (node : tfs_node)
    (c : block_cursor) (l : Int),
    (reload_loop cb fuel st node c l).cursor.i = c.i ∧
    (reload_loop cb fuel st node c l).cursor.level = c.level ∧
    (reload_loop cb fuel st node c l).cursor.pos = c.pos := by
  intro fuel
  induction fuel with
  | zero => intro st node c l; exact ⟨rfl, rfl, rfl⟩
  | succ f ih =>
    intro st node c l
    unfold reload_loop
    split_ifs with h
    · exact ih _ _ _ _
    · exact ⟨rfl, rfl, rfl⟩

theorem cohpos_of_eq (c c' : block_cursor) (n : Int) (h : CohPos c n) (hi : c'.i = c.i)
    (hl : c'.level = c.level) (hp : c'.pos = c.pos) : CohPos c' n := by
  obtain ⟨h1, h2, h3, h4, h5⟩ := h
  exact ⟨hi.trans h1, hl.trans h2, by rw [hp]; exact h3, by rw [hp]; exact h4,
    by rw [hp]; exact h5⟩

theorem alloc_cb_end (st : tfs_info) (node : tfs_node) (c : block_cursor) (l : Int)
    (h : st.free_block_head = END_BLOCKS) : _alloc_callback st node c l = ⟨-1, node, st⟩ := by
  unfold _alloc_callback
  rw [if_pos h]

theorem reload_end : ∀ (fuel : Nat) (st : tfs_info) (node : tfs_node) (c : block_cursor)
    (l : Int), st.free_block_head = END_BLOCKS →
    (reload_loop _alloc_callback fuel st node c l).st = st ∧
    (reload_loop _alloc_callback fuel st node c l).node = node := by
  intro fuel
  induction fuel with
  | zero => intro st node c l _; exact ⟨rfl, rfl⟩
  | succ f ih =>
    intro st node c l h
    unfold reload_loop
    split_ifs with hl
    · rw [alloc_cb_end st node c l h]
      exact ih _ _ _ _ h
    · exact ⟨rfl, rfl⟩

theorem freelist_end (d : Int → Nat → Nat) (fl : List Int) (h : IsFreeList d END_BLOCKS fl) :
    fl = [] := by
  cases fl with
  | nil => rfl
  | cons b rest =>
    obtain ⟨h1, h2, _⟩ := h
    exact absurd h1.symm h2

theorem cl_le_lvl (n : Int) : cl n ≤ lvl n := by
  unfold cl lvl
  split_ifs <;> omega

theorem reload_alloc (n : Int) (h12 : 12 ≤ n) (hcap : n < CAPACITY) :
    ∀ (fuel : Nat) (st : tfs_info) (node : tfs_node) (c : block_cursor) (l : Int)
      (fl : List Int), CohPos c n → CohBlk st.data node c n l → -1 ≤ l → l ≤ lvl n →
      cl n ≤ l → fuel = (lvl n - l).toNat →
      WF st.data node st.free_block_head fl n (l + 1) →
      ((reload_loop _alloc_callback fuel st node c l).st.free_block_head = END_BLOCKS ∧
        fl.length ≤ fuel) ∨
      (∃ bs fl', fl = bs ++ fl' ∧ bs.length = fuel ∧
        CohBlk (reload_loop _alloc_callback fuel st node c l).st.data
          (reload_loop _alloc_callback fuel st node c l).node
          (reload_loop _alloc_callback fuel st node c l).cursor n (lvl n) ∧
        WF (reload_loop _alloc_callback fuel st node c l).st.data
          (reload_loop _alloc_callback fuel st node c l).node
          (reload_loop _alloc_callback fuel st node c l).st.free_block_head fl' n (lvl n + 1) ∧
        Step st node (reload_loop _alloc_callback fuel st node c l).st
          (reload_loop _alloc_callback fuel st node c l).node n (l + 1) ∧
        (∀ x, Live n (lvl n + 1) x → Live n (l + 1) x ∨
          phys (reload_loop _alloc_callback fuel st node c l).st.data
            (reload_loop _alloc_callback fuel st node c l).node x ∈ bs)) := by
  intro fuel
  induction fuel with
  | zero =>
    intro st node c l fl hpos hblk hl0 hl hcl hf hwf
    have : l = lvl n := by omega
    subst this
    right
    exact ⟨[], fl, rfl, rfl, hblk, hwf, step_refl _ _ _ _, fun x hx => Or.inl hx⟩
  | succ f ih =>
    intro st node c l fl hpos hblk hl0 hl hcl hf hwf
    unfold reload_loop
    have hlt : l < c.level := by rw [hpos.2.1]; omega
    rw [if_pos hlt]
    rcases alloc_cb_cases st node c n l fl hpos hblk (by omega) hcap hl0 hl hcl hwf with
      ⟨he, hr⟩ | ⟨b, fl1, hfl, hp, hstep⟩
    · left
      rw [hr]
      dsimp only
      rw [(reload_end f st node _ (l + 1) he).1]
      refine ⟨he, ?_⟩
      have h1 := hwf.1
      rw [he] at h1
      rw [freelist_end _ _ h1]
      exact Nat.zero_le _
    · generalize _alloc_callback st node c l = r at hp hstep ⊢
      obtain ⟨p1, p2, p3, p4, p5, p6, p7⟩ := hp
      have hpos' : CohPos { c with block := aset c.block (l + 1) r.ret } n :=
        cohpos_of_eq c _ n hpos rfl rfl rfl
      have hblk' : CohBlk r.st.data r.node { c with block := aset c.block (l + 1) r.ret } n
          (l + 1) := by
        intro k hk0 hk1 hk2
        by_cases hk : k = l + 1
        · subst hk
          simp only [aset, if_true]
          rw [p1, p3]
        · simp only [aset, hk, if_false]
          rw [hblk k hk0 (by omega) hk2]
          symm
          apply p4
          have pf := path_facts n k (by omega) hcap hk0 (by omega)
          refine ⟨pf.1, ?_⟩
          rcases lt_or_eq_of_le pf.2.1 with h | h
          · exact Or.inl h
          · exact Or.inr ⟨h, by rw [pf.2.2.2.2]; omega⟩
      have hwf' : WF r.st.data r.node r.st.free_block_head fl1 n (l + 1 + 1) := by
        have : l + 1 + 1 = l + 2 := by ring
        rw [this]
        exact p2
      rcases ih r.st r.node { c with block := aset c.block (l + 1) r.ret } (l + 1) fl1 hpos'
        hblk' (by omega) (by omega) (by omega) (by omega) hwf' with
        he | ⟨bs, fl', q1, q2, q3, q4, q5, q6⟩
      · refine Or.inl ⟨he.1, ?_⟩
        rw [hfl, List.length_cons]
        exact Nat.succ_le_succ he.2
      · right
        refine ⟨b :: bs, fl', ?_, ?_, q3, q4, ?_, ?_⟩
        · rw [hfl, q1]; rfl
        · simp [q2]
        · exact step_trans st node r.st r.node _ _ n (l + 1) n (l + 1 + 1)
            (fun x hx => live_mono n (l + 1) n (l + 1 + 1) x hx (Or.inr ⟨rfl, by omega⟩))
            hstep q5
        · intro x hx
          rcases q6 x hx with h | h
          · rcases live_new n (l + 1) x h with h2 | h2
            · exact Or.inl h2
            · right
              rw [q5.1 x h, h2, p3]
              exact List.mem_cons_self _ _
          · exact Or.inr (List.mem_cons_of_mem _ h)

theorem depth_le (x : TNode) (n : Int) (hv : Valid x) (hf : first x = n) :
    depth x ≤ lvl n + 1 := by
  rcases x with i | L | ⟨L, a⟩ | ⟨L, a, b⟩ | ⟨a, b, e⟩
  · simp only [Valid, first, depth] at *
    have := lvl_le_two n
    omega
  · simp only [Valid, first, depth] at *
    have := lvl_le_two n
    have hL : L = 0 ∨ L = 1 ∨ L = 2 := by omega
    rcases hL with rfl | rfl | rfl <;> simp at hf <;> subst hf <;> decide
  · simp only [Valid, first, depth] at *
    have hL : L = 0 ∨ L = 1 ∨ L = 2 := by omega
    rcases hL with rfl | rfl | rfl <;> simp at hf <;> unfold lvl <;> split_ifs <;> omega
  · simp only [Valid, first, depth] at *
    have hL : L = 1 ∨ L = 2 := by omega
    rcases hL with rfl | rfl <;> simp at hf <;> unfold lvl <;> split_ifs <;> omega
  · simp only [Valid, first, depth] at *
    unfold lvl
    split_ifs <;> omega

theorem live_succ (n : Int) (x : TNode) : Live (n + 1) 0 x ↔ Live n (lvl n + 2) x := by
  constructor
  · intro h
    obtain ⟨hv, hf⟩ := h
    refine ⟨hv, ?_⟩
    rcases hf with hf | ⟨_, hf⟩
    · rcases lt_or_eq_of_le (show first x ≤ n by omega) with h | h
      · exact Or.inl h
      · exact Or.inr ⟨h, by have := depth_le x n hv h; omega⟩
    · have : 0 ≤ depth x := by cases x <;> simp [depth]
      omega
  · intro h
    obtain ⟨hv, hf⟩ := h
    refine ⟨hv, Or.inl ?_⟩
    rcases hf with hf | ⟨hf, _⟩ <;> omega

theorem wf_succ (d : Int → Nat → Nat) (node : tfs_node) (head : Int) (fl : List Int) (n : Int)
    (h : WF d node head fl n (lvl n + 2)) : WF d node head fl (n + 1) 0 := by
  obtain ⟨h1, h2, h3, h4⟩ := h
  refine ⟨h1, h2, ?_, ?_⟩
  · intro x y hx hy he
    exact h3 x y ((live_succ n x).1 hx) ((live_succ n y).1 hy) he
  · intro x hx
    exact h4 x ((live_succ n x).1 hx)

theorem step_weaken (st : tfs_info) (node : tfs_node) (st' : tfs_info) (node' : tfs_node)
    (n m n' m' : Int) (hmono : ∀ x, Live n' m' x → Live n m x)
    (h : Step st node st' node' n m) : Step st node st' node' n' m' :=
  ⟨fun x hx => h.1 x (hmono x hx), fun x hx => h.2.1 x (hmono x hx), h.2.2.1, h.2.2.2⟩

theorem iter_alloc_end (st : tfs_info) (node : tfs_node) (c : block_cursor)
    (h : st.free_block_head = END_BLOCKS) :
    iter_through _alloc_callback st node c =
      ⟨END_BLOCKS, st, node, (iter_through _alloc_callback st node c).cursor⟩ := by
  unfold iter_through
  by_cases hd : c.i + 1 < DIRECT_BLOCKS
  · simp only [hd, if_true]
    rw [alloc_cb_end st node _ (-1) h]
  · simp only [hd, if_false]
    have hr := reload_end
      ((if (carry_loop (c.level + 1).toNat { c with i := c.i + 1 } c.level).level = -1 then
        { (carry_loop (c.level + 1).toNat { c with i := c.i + 1 } c.level).cursor with
          level := (carry_loop (c.level + 1).toNat { c with i := c.i + 1 } c.level).cursor.level
            + 1 }
        else (carry_loop (c.level + 1).toNat { c with i := c.i + 1 } c.level).cursor).level -
        (carry_loop (c.level + 1).toNat { c with i := c.i + 1 } c.level).level).toNat
      st node
      (if (carry_loop (c.level + 1).toNat { c with i := c.i + 1 } c.level).level = -1 then
        { (carry_loop (c.level + 1).toNat { c with i := c.i + 1 } c.level).cursor with
          level := (carry_loop (c.level + 1).toNat { c with i := c.i + 1 } c.level).cursor.level
            + 1 }
        else (carry_loop (c.level + 1).toNat { c with i := c.i + 1 } c.level).cursor)
      (carry_loop (c.level + 1).toNat { c with i := c.i + 1 } c.level).level h
    rw [hr.1, hr.2, alloc_cb_end st node _ _ h]

theorem iter_alloc_direct (st : tfs_info) (node : tfs_node) (c : block_cursor) (n : Int)
    (fl : List Int) (hcoh : Coh st.data node c (n - 1)) (h0 : 0 ≤ n) (hd : n < 12)
    (hwf : WF st.data node st.free_block_head fl n 0) :
    ((iter_through _alloc_callback st node c).ret = END_BLOCKS ∧
      (fl.length : Int) < lvl n + 1 - cl n ∧
      (n < 12 → st.free_block_head = END_BLOCKS ∧
        (iter_through _alloc_callback st node c).st = st ∧
        (iter_through _alloc_callback st node c).node = node)) ∨
    IterPost st node (iter_through _alloc_callback st node c) fl n := by
  obtain ⟨hpos, hblk⟩ := hcoh
  have hi : c.i + 1 = n := by rw [hpos.1]; ring
  have hd' : c.i + 1 < DIRECT_BLOCKS := by rw [hi]; exact hd
  have e1 := lvl_direct (n - 1) (by omega)
  have e2 := lvl_direct n hd
  have e3 : cl n = -1 := by unfold cl; simp [hd]
  have hpos0 : CohPos { c with i := c.i + 1 } n := by
    refine ⟨hi, ?_, ?_, ?_, ?_⟩
    · show c.level = lvl n
      rw [hpos.2.1, e1, e2]
    · show c.pos 0 = dig n 0
      rw [hpos.2.2.1, dig_direct _ _ (by omega), dig_direct _ _ hd]
    · show c.pos 1 = dig n 1
      rw [hpos.2.2.2.1, dig_direct _ _ (by omega), dig_direct _ _ hd]
    · show c.pos 2 = dig n 2
      rw [hpos.2.2.2.2, dig_direct _ _ (by omega), dig_direct _ _ hd]
  have hblk0 : ∀ (d : Int → Nat → Nat) (nd : tfs_node) (m : Int),
      CohBlk d nd { c with i := c.i + 1 } n m := by
    intro d nd m k hk0 _ hk2
    rw [e2] at hk2
    omega
  unfold iter_through
  simp only [hd', if_true]
  rcases alloc_cb_cases st node { c with i := c.i + 1 } n (-1) fl hpos0 (hblk0 _ _ _) h0
    (by simp only [CAPACITY]; omega) (le_refl _) (by omega) (by omega)
    (by simpa using hwf) with ⟨he, hr⟩ | ⟨b, fl1, hfl, hp, hstep⟩
  · left
    rw [hr]
    refine ⟨rfl, ?_, fun _ => ⟨he, rfl, rfl⟩⟩
    have h1 := hwf.1
    rw [he] at h1
    rw [freelist_end _ _ h1, e2, e3]
    decide
  · right
    generalize _alloc_callback st node { c with i := c.i + 1 } (-1) = r at hp hstep ⊢
    obtain ⟨p1, p2, p3, p4, p5, p6, p7⟩ := hp
    have hb : b ≠ END_BLOCKS := by
      have := hwf.1
      rw [hfl] at this
      exact this.2.1
    refine ⟨by rw [p1]; exact hb, [b], fl1, hfl, ?_, ⟨hpos0, hblk0 _ _ _⟩, ?_, ?_, ?_⟩
    · rw [e2, e3]; rfl
    · apply wf_succ
      rw [e2]
      exact p2
    · have : (-1 : Int) + 1 = 0 := by norm_num
      rw [this] at hstep
      exact hstep
    · intro x hx
      have hx1 : Live n (0 + 1) x := by
        have := (live_succ n x).mp hx
        rw [e2] at this
        exact this
      rcases live_new n 0 x hx1 with h2 | h2
      · exact Or.inl h2
      · right
        have p3' : phys r.st.data r.node (pathnode n 0) = b := p3
        rw [h2, p3']
        exact List.mem_singleton_self _

theorem live_cl (n : Int) (x : TNode) (h : Live n (cl n + 1) x) : Live n 0 x := by
  obtain ⟨hv, hf⟩ := h
  refine ⟨hv, ?_⟩
  rcases hf with hf | ⟨hf, hd⟩
  · exact Or.inl hf
  · have := (path_uniq x n hv hf).2
    omega

theorem wf_cl (d : Int → Nat → Nat) (node : tfs_node) (head : Int) (fl : List Int) (n : Int)
    (h : WF d node head fl n 0) : WF d node head fl n (cl n + 1) := by
  obtain ⟨h1, h2, h3, h4⟩ := h
  refine ⟨h1, h2, ?_, ?_⟩
  · intro x y hx hy
    exact h3 x y (live_cl n x hx) (live_cl n y hy)
  · intro x hx
    exact h4 x (live_cl n x hx)

theorem iter_alloc_indirect (st : tfs_info) (node : tfs_node) (c : block_cursor) (n : Int)
    (fl : List Int) (hcoh : Coh st.data node c (n - 1)) (h12 : 12 ≤ n) (hcap : n < CAPACITY)
    (hwf : WF st.data node st.free_block_head fl n 0) :
    ((iter_through _alloc_callback st node c).ret = END_BLOCKS ∧
      (fl.length : Int) < lvl n + 1 - cl n ∧
      (n < 12 → st.free_block_head = END_BLOCKS ∧
        (iter_through _alloc_callback st node c).st = st ∧
        (iter_through _alloc_callback st node c).node = node)) ∨
    IterPost st node (iter_through _alloc_callback st node c) fl n := by
  obtain ⟨hpos, hblk⟩ := hcoh
  have hi : c.i + 1 = n := by rw [hpos.1]; ring
  have hd' : ¬ (c.i + 1 < DIRECT_BLOCKS) := by rw [hi]; simp only [DIRECT_BLOCKS]; omega
  unfold iter_through
  simp only [hd', if_false]
  have hc := carry_spec c n hpos h12 hcap
  generalize carry_loop (c.level + 1).toNat { c with i := c.i + 1 } c.level = cs at hc ⊢
  obtain ⟨q1, q2, q3, q4, q5, q6, q7⟩ := hc
  have hpos2 : CohPos (if cs.level = -1 then { cs.cursor with level := cs.cursor.level + 1 }
      else cs.cursor) n := by
    by_cases hm : cs.level = -1
    · simp only [hm, if_true] at q4 ⊢
      exact ⟨q2, q4, q5, q6, q7⟩
    · simp only [hm, if_false] at q4 ⊢
      exact ⟨q2, q4, q5, q6, q7⟩
  have hblk2 : CohBlk st.data node (if cs.level = -1 then
      { cs.cursor with level := cs.cursor.level + 1 } else cs.cursor) n cs.level := by
    intro k hk0 hk1 hk2
    have hb : (if cs.level = -1 then { cs.cursor with level := cs.cursor.level + 1 }
      else cs.cursor).block = c.block := by
      split_ifs <;> exact q3
    rw [hb]
    obtain ⟨p1, p2, p3⟩ := path_same n k h12 hcap hk0 (by omega)
    rw [← p1]
    exact hblk k hk0 (by omega) (by omega)
  generalize (if cs.level = -1 then { cs.cursor with level := cs.cursor.level + 1 }
      else cs.cursor) = c2 at hpos2 hblk2 ⊢
  have hcl : -1 ≤ cs.level ∧ cs.level ≤ lvl n := by
    rw [q1]
    have := lvl_nonneg n h12
    unfold cl lvl
    split_ifs <;> omega
  have hr := reload_alloc n h12 hcap (c2.level - cs.level).toNat st node c2 cs.level fl
    hpos2 hblk2 hcl.1 hcl.2 (by rw [q1]) (by rw [hpos2.2.1])
    (by rw [q1]; exact wf_cl _ _ _ _ _ hwf)
  have hrc := reload_cursor _alloc_callback (c2.level - cs.level).toNat st node c2 cs.level
  generalize reload_loop _alloc_callback (c2.level - cs.level).toNat st node c2 cs.level
    = s3 at hr hrc ⊢
  have hpos3 : CohPos s3.cursor n := cohpos_of_eq c2 s3.cursor n hpos2 hrc.1 hrc.2.1 hrc.2.2
  have hfuel : ((c2.level - cs.level).toNat : Int) = lvl n - cl n := by
    rw [hpos2.2.1, q1]
    have := hcl.2
    rw [q1] at this
    rw [Int.toNat_of_nonneg (by omega)]
  rcases hr with ⟨he, hshort⟩ | ⟨bs, fl1, hfl, hlen, hblk3, hwf3, hstep3, hprov3⟩
  · left
    refine ⟨?_, by omega, fun h => absurd h (by omega)⟩
    rw [alloc_cb_end _ _ _ _ he]
  · rw [hpos3.2.1]
    rcases alloc_cb_cases s3.st s3.node s3.cursor n (lvl n) fl1 hpos3 hblk3 (by omega) hcap
      (by omega) (le_refl _) (by rw [← q1]; exact hcl.2) hwf3 with
      ⟨he, hr⟩ | ⟨b, fl2, hfl2, hp, hstep⟩
    · left
      refine ⟨?_, ?_, fun h => absurd h (by omega)⟩
      · rw [hr]
      · have h1 := hwf3.1
        rw [he] at h1
        rw [hfl, freelist_end _ _ h1, List.append_nil, hlen]
        omega
    · right
      generalize _alloc_callback s3.st s3.node s3.cursor (lvl n) = r at hp hstep ⊢
      obtain ⟨p1, p2, p3, p4, p5, p6, p7⟩ := hp
      have hb : b ≠ END_BLOCKS := by
        have := hwf3.1
        rw [hfl2] at this
        exact this.2.1
      refine ⟨by show r.ret ≠ END_BLOCKS; rw [p1]; exact hb, bs ++ [b], fl2, ?_, ?_,
        ⟨hpos3, ?_⟩, wf_succ _ _ _ _ _ p2, ?_, ?_⟩
      · rw [hfl, hfl2]; simp
      · rw [List.length_append, List.length_singleton, Nat.cast_add, hlen, hpos2.2.1, q1]
        have := hcl.2
        rw [q1] at this
        rw [Int.toNat_of_nonneg (by omega)]
        push_cast
        ring
      · intro k hk0 hk1 hk2
        show s3.cursor.block k = phys r.st.data r.node (pathnode n k)
        obtain ⟨f1, f2, f3, f4, f5⟩ := path_facts n k (by omega) hcap hk0 (by omega)
        rw [p4 (pathnode n k) ⟨f1, by
          rcases lt_or_eq_of_le f2 with h | h
          · exact Or.inl h
          · exact Or.inr ⟨h, by omega⟩⟩]
        exact hblk3 k hk0 hk1 hk2
      · show Step st node r.st r.node n 0
        apply step_weaken st node r.st r.node n (cs.level + 1) n 0
        · intro x hx
          exact live_mono n 0 n (cs.level + 1) x hx (Or.inr ⟨rfl, by omega⟩)
        · exact step_trans st node s3.st s3.node r.st r.node n (cs.level + 1) n (lvl n + 1)
            (fun x hx => live_mono n (cs.level + 1) n (lvl n + 1) x hx
              (Or.inr ⟨rfl, by omega⟩)) hstep3 hstep
      · intro x hx
        show Live n 0 x ∨ phys r.st.data r.node x ∈ bs ++ [b]
        have hx1 : Live n (lvl n + 1 + 1) x := by
          have := (live_succ n x).mp hx
          rw [show lvl n + 2 = lvl n + 1 + 1 by ring] at this
          exact this
        rcases live_new n (lvl n + 1) x hx1 with h2 | h2
        · rcases hprov3 x h2 with h3 | h3
          · left
            rw [q1] at h3
            exact live_cl n x h3
          · right
            rw [p4 x h2]
            exact List.mem_append_left _ h3
        · right
          rw [h2, p3]
          exact List.mem_append_right _ (List.mem_singleton_self _)

theorem iter_alloc (st : tfs_info) (node : tfs_node) (c : block_cursor) (n : Int)
    (fl : List Int) (hcoh : Coh st.data node c (n - 1)) (h0 : 0 ≤ n) (hcap : n < CAPACITY)
    (hwf : WF st.data node st.free_block_head fl n 0) :
    ((iter_through _alloc_callback st node c).ret = END_BLOCKS ∧
      (fl.length : Int) < lvl n + 1 - cl n ∧
      ((n < 12 ∨ st.free_block_head = END_BLOCKS) → st.free_block_head = END_BLOCKS ∧
        (iter_through _alloc_callback st node c).st = st ∧
        (iter_through _alloc_callback st node c).node = node)) ∨
    IterPost st node (iter_through _alloc_callback st node c) fl n := by
  by_cases he : st.free_block_head = END_BLOCKS
  · left
    rw [iter_alloc_end st node c he]
    refine ⟨rfl, ?_, fun _ => ⟨he, rfl, rfl⟩⟩
    have h1 := hwf.1
    rw [he] at h1
    rw [freelist_end _ _ h1]
    have := cl_le_lvl n
    simp only [List.length_nil, Nat.cast_zero]
    omega
  · by_cases hd : n < 12
    · rcases iter_alloc_direct st node c n fl hcoh h0 hd hwf with ⟨h1, h3, h2⟩ | h
      · exact Or.inl ⟨h1, h3, fun _ => h2 hd⟩
      · exact Or.inr h
    · rcases iter_alloc_indirect st node c n fl hcoh (by omega) hcap hwf with ⟨h1, h3, h2⟩ | h
      · refine Or.inl ⟨h1, h3, fun hp => ?_⟩
        rcases hp with hp | hp
        · exact absurd hp hd
        · exact absurd hp he
      · exact Or.inr h

theorem need_nonneg (n : Int) (k : Nat) : 0 ≤ need n k := by
  induction k generalizing n with
  | zero => exact le_refl _
  | succ k ih =>
    have h1 := cl_le_lvl n
    have h2 := ih (n + 1)
    show 0 ≤ (lvl n + 1 - cl n) + need (n + 1) k
    omega

theorem grow_alloc : ∀ (fuel : Nat) (st : tfs_info) (node : tfs_node) (c : block_cursor)
    (n : Int) (fl : List Int) (dblocks : Int), Coh st.data node c (n - 1) → 0 ≤ n →
    (n + dblocks ≤ CAPACITY ∨ n + (fl.length : Int) < CAPACITY) → 0 ≤ dblocks →
    dblocks ≤ fuel →
    WF st.data node st.free_block_head fl n 0 →
    GrowPost st node (grow_loop fuel st node c dblocks) fl n dblocks := by
  intro fuel
  induction fuel with
  | zero =>
    intro st node c n fl dblocks hcoh h0 hcap hd0 hdf hwf
    have hz : dblocks = 0 := by
      have : ((0 : Nat) : Int) = 0 := rfl
      omega
    subst hz
    unfold grow_loop
    refine ⟨le_refl _, le_refl _, fun h => absurd rfl h,
      fun _ => ⟨[], fl, rfl, rfl, ?_, step_refl _ _ _ _, fun h => absurd rfl h, ?_⟩⟩
    · simpa using hwf
    · intro x hx
      left
      simpa using hx
  | succ fuel ih =>
    intro st node c n fl dblocks hcoh h0 hcap hd0 hdf hwf
    unfold grow_loop
    by_cases hz : dblocks = 0
    · subst hz
      simp only [ne_eq, not_true_eq_false, if_false]
      refine ⟨le_refl _, le_refl _, fun h => absurd rfl h,
        fun _ => ⟨[], fl, rfl, rfl, ?_, step_refl _ _ _ _, fun h => absurd rfl h, ?_⟩⟩
      · simpa using hwf
      · intro x hx
        left
        simpa using hx
    · simp only [ne_eq, hz, not_false_eq_true, if_true]
      have e0 : dblocks.toNat = (dblocks - 1).toNat + 1 := by omega
      have e0' : need n ((dblocks - 1).toNat + 1) =
          (lvl n + 1 - cl n) + need (n + 1) (dblocks - 1).toNat := rfl
      have hncap : n < CAPACITY := by
        rcases hcap with h | h
        · omega
        · omega
      rcases iter_alloc st node c n fl hcoh h0 hncap hwf with ⟨he, hshort, hs⟩ | hp
      · simp only [he, not_true_eq_false, if_false]
        refine ⟨hd0, le_refl _, ?_, ?_⟩
        · intro _
          rw [e0, e0']
          have := need_nonneg (n + 1) (dblocks - 1).toNat
          omega
        intro hpre
        have hn : n < 12 ∨ st.free_block_head = END_BLOCKS := by
          rcases hpre with h | h | h
          · exact absurd h hz
          · exact Or.inl (by simpa using h)
          · right
            have hl : fl = [] := by
              simp [need] at h
              exact h
            have := hwf.1
            rw [hl] at this
            exact this
        obtain ⟨s1, s2, s3⟩ := hs hn
        dsimp only
        rw [s2, s3]
        refine ⟨[], fl, rfl, ?_, ?_, step_refl _ _ _ _, fun _ => s1, ?_⟩
        · simp [need]
        · simpa using hwf
        · intro x hx
          left
          simpa using hx
      · generalize iter_through _alloc_callback st node c = r at hp ⊢
        obtain ⟨hret, bs1, fl1, hfl, hlen, hcoh1, hwf1, hstep1, hprov1⟩ := hp
        simp only [hret, not_false_eq_true, if_true]
        have hcap1 : n + 1 + (dblocks - 1) ≤ CAPACITY ∨ n + 1 + (fl1.length : Int) < CAPACITY := by
          have hlenfl : (fl.length : Int) = (bs1.length : Int) + (fl1.length : Int) := by
            rw [hfl, List.length_append, Nat.cast_add]
          have := cl_le_lvl n
          rcases hcap with h | h
          · left; omega
          · right; omega
        have hrec := ih r.st r.node r.cursor (n + 1) fl1 (dblocks - 1)
          (by simpa using hcoh1) (by omega) hcap1 (by omega)
          (by push_cast at hdf; omega) hwf1
        generalize grow_loop fuel r.st r.node r.cursor (dblocks - 1) = s at hrec ⊢
        obtain ⟨g1, g2, gs, g3⟩ := hrec
        refine ⟨g1, by omega, ?_, ?_⟩
        · intro hne
          have := gs hne
          rw [e0, e0', hfl, List.length_append, Nat.cast_add, hlen]
          omega
        intro hpre
        have e1 : n + 1 + (dblocks - 1 - s.dblocks) = n + (dblocks - s.dblocks) := by ring
        have e2 : (dblocks - s.dblocks).toNat = (dblocks - 1 - s.dblocks).toNat + 1 := by
          omega
        have e3 : need n ((dblocks - 1 - s.dblocks).toNat + 1) =
            (lvl n + 1 - cl n) + need (n + 1) (dblocks - 1 - s.dblocks).toNat := rfl
        obtain ⟨bs2, fl2, hfl2, hlen2, hwf2, hstep2, hend, hprov2⟩ := g3 (by
          rw [e1]
          rcases hpre with h | h | h
          · exact Or.inl h
          · exact Or.inr (Or.inl h)
          · right; right
            rw [e2, e3, hfl, List.length_append, Nat.cast_add, hlen] at h
            omega)
        refine ⟨bs1 ++ bs2, fl2, ?_, ?_, ?_, ?_, hend, ?_⟩
        · rw [hfl, hfl2, List.append_assoc]
        · rw [e2, List.length_append, Nat.cast_add, hlen, hlen2]
          rfl
        · rw [← e1]
          exact hwf2
        · exact step_trans st node r.st r.node s.st s.node n 0 (n + 1) 0
            (fun x hx => live_mono n 0 (n + 1) 0 x hx (Or.inl (by omega))) hstep1 hstep2
        · intro x hx
          rw [← e1] at hx
          rcases hprov2 x hx with h | h
          · rcases hprov1 x h with h2 | h2
            · exact Or.inl h2
            · right
              rw [hstep2.1 x h]
              exact List.mem_append_left _ h2
          · exact Or.inr (List.mem_append_right _ h)

theorem phys_node (d : Int → Nat → Nat) (node node' : tfs_node)
    (hb : node'.blocks = node.blocks) (hi : node'.iblocks = node.iblocks) (x : TNode) :
    phys d node' x = phys d node x := by
  cases x <;> simp only [phys, hb, hi]

theorem wf_node (d : Int → Nat → Nat) (node node' : tfs_node) (head : Int) (fl : List Int)
    (n m : Int) (hb : node'.blocks = node.blocks) (hi : node'.iblocks = node.iblocks)
    (h : WF d node head fl n m) : WF d node' head fl n m := by
  obtain ⟨h1, h2, h3, h4⟩ := h
  refine ⟨h1, h2, ?_, ?_⟩
  · intro x y hx hy hxy
    rw [phys_node d node node' hb hi x, phys_node d node node' hb hi y] at hxy
    exact h3 x y hx hy hxy
  · intro x hx
    rw [phys_node d node node' hb hi x]
    exact h4 x hx

theorem clamp_size_blocks (n : tfs_node) :
    (clamp_size n).blocks = n.blocks ∧ (clamp_size n).iblocks = n.iblocks ∧
    (clamp_size n).nblocks = n.nblocks ∧
    clamp_size n = { n with size := (clamp_size n).size } := by
  unfold clamp_size
  split_ifs <;> exact ⟨rfl, rfl, rfl, rfl⟩

theorem trim_grow (st : tfs_info) (node : tfs_node) (fl : List Int)
    (hle : node.nblocks ≤ NODE_NRBLOCKS node)
    (hcap : (NODE_NRBLOCKS node : Int) ≤ CAPACITY ∨
      (node.nblocks : Int) + (fl.length : Int) < CAPACITY)
    (hwf : WF st.data node st.free_block_head fl node.nblocks 0)
    (hpre : (tfs_node_trim st node).ret = 0 ∨ (tfs_node_trim st node).node.nblocks < 12 ∨
      (fl.length : Int) ≤ need node.nblocks
        ((tfs_node_trim st node).node.nblocks - node.nblocks)) :
    node.nblocks ≤ (tfs_node_trim st node).node.nblocks ∧
    ∃ bs fl', fl = bs ++ fl' ∧
      (bs.length : Int) = need node.nblocks
        ((tfs_node_trim st node).node.nblocks - node.nblocks) ∧
      WF (tfs_node_trim st node).st.data (tfs_node_trim st node).node
        (tfs_node_trim st node).st.free_block_head fl' (tfs_node_trim st node).node.nblocks 0 ∧
      Grown st node (tfs_node_trim st node).st (tfs_node_trim st node).node node.nblocks ∧
      (∀ x, Live (tfs_node_trim st node).node.nblocks 0 x → Live node.nblocks 0 x ∨
        phys (tfs_node_trim st node).st.data (tfs_node_trim st node).node x ∈ bs) := by
  have hneg : ¬ ((NODE_NRBLOCKS node : Int) - (node.nblocks : Int) < 0) := by omega
  have hncap : (node.nblocks : Int) - 1 < CAPACITY := by
    rcases hcap with h | h
    · omega
    · omega
  have hcap1 : (node.nblocks : Int) + ((NODE_NRBLOCKS node : Int) - (node.nblocks : Int))
      ≤ CAPACITY ∨ (node.nblocks : Int) + (fl.length : Int) < CAPACITY := by
    rcases hcap with h | h
    · left; omega
    · right; exact h
  have hseek := block_seek_spec st node DEFINE_BLOCK_CURSOR ((node.nblocks : Int) - 1)
    (by omega) hncap (fun _ => ⟨rfl, rfl, rfl⟩)
  have hg := grow_alloc ((NODE_NRBLOCKS node : Int) - (node.nblocks : Int)).natAbs st node
    (block_seek st node DEFINE_BLOCK_CURSOR ((node.nblocks : Int) - 1)).cursor
    (node.nblocks : Int) fl ((NODE_NRBLOCKS node : Int) - (node.nblocks : Int))
    hseek.2 (by omega) hcap1 (by omega) (by omega) hwf
  revert hpre
  unfold tfs_node_trim
  simp only [hneg, if_false]
  generalize grow_loop ((NODE_NRBLOCKS node : Int) - (node.nblocks : Int)).natAbs st node
    (block_seek st node DEFINE_BLOCK_CURSOR ((node.nblocks : Int) - 1)).cursor
    ((NODE_NRBLOCKS node : Int) - (node.nblocks : Int)) = s at hg ⊢
  obtain ⟨g1, g2, _, g3⟩ := hg
  obtain ⟨c1, c2, c3, c4⟩ := clamp_size_blocks
    { s.node with nblocks := ((NODE_NRBLOCKS node : Int) - s.dblocks).toNat }
  generalize clamp_size
    { s.node with nblocks := ((NODE_NRBLOCKS node : Int) - s.dblocks).toNat } = nd at c1 c2 c3 c4 ⊢
  have c3' : nd.nblocks = ((NODE_NRBLOCKS node : Int) - s.dblocks).toNat := c3
  have e1 : (nd.nblocks : Int) = (node.nblocks : Int) +
      ((NODE_NRBLOCKS node : Int) - (node.nblocks : Int) - s.dblocks) := by
    rw [c3']; omega
  have e2 : nd.nblocks - node.nblocks =
      ((NODE_NRBLOCKS node : Int) - (node.nblocks : Int) - s.dblocks).toNat := by
    rw [c3']; omega
  intro hpre
  refine ⟨by omega, ?_⟩
  obtain ⟨bs, fl1, hfl, hlen, hwf1, hstep, _, hprov⟩ := g3 (by
    rcases hpre with h | h | h
    · left
      by_contra hne
      have : s.dblocks > 0 := by omega
      simp [this, ENOSPC] at h
    · right; left
      omega
    · right; right
      rw [← e2]
      exact h)
  refine ⟨bs, fl1, hfl, by rw [e2]; exact hlen, ?_, ?_, ?_⟩
  · show WF s.st.data nd s.st.free_block_head fl1 nd.nblocks 0
    rw [e1]
    exact wf_node _ s.node nd _ _ _ _ c1 c2 hwf1
  · obtain ⟨t1, t2, t3, t4⟩ := hstep
    refine ⟨?_, t2, t3, ?_⟩
    · intro x hx
      show phys s.st.data nd x = phys st.data node x
      rw [phys_node _ s.node nd c1 c2 x]
      exact t1 x hx
    · show nd = { node with blocks := nd.blocks, iblocks := nd.iblocks,
                            nblocks := nd.nblocks, size := nd.size }
      rw [c4, t4]
  · intro x hx
    have hx' : Live (nd.nblocks : Int) 0 x := hx
    rw [e1] at hx'
    rcases hprov x hx' with h | h
    · exact Or.inl h
    · right
      show phys s.st.data nd x ∈ bs
      rw [phys_node _ s.node nd c1 c2 x]
      exact h

theorem bytes_init (d0 : Int → Nat → Nat) (node : tfs_node) (buf : Nat → Nat) (o : Nat) :
    BytesInv d0 d0 node buf o o := by
  refine ⟨?_, fun _ _ _ => rfl⟩
  intro j k _
  have : ¬ (k < BLOCK_SIZE ∧ o ≤ j * BLOCK_SIZE + k ∧ j * BLOCK_SIZE + k < o) := by omega
  rw [if_neg this]

theorem bytes_file (d0 d : Int → Nat → Nat) (node : tfs_node) (buf : Nat → Nat) (o e : Nat)
    (hcap : (node.nblocks : Int) ≤ CAPACITY)
    (hb : BytesInv d0 d node buf o e)
    (hf : ∀ x, Live node.nblocks 0 x → phys d node x = phys d0 node x)
    (p : Nat) (hp : p < node.nblocks * BLOCK_SIZE) :
    file_byte d node p = if o ≤ p ∧ p < e then buf (p - o) else file_byte d0 node p := by
  have hj : p / BLOCK_SIZE < node.nblocks := by
    simp only [BLOCK_SIZE] at *
    omega
  unfold file_byte
  have hj' : ((p / BLOCK_SIZE : Nat) : Int) < (node.nblocks : Int) := by exact_mod_cast hj
  rw [lblk_frame d0 d node node.nblocks _ hf (Int.natCast_nonneg _) hj'
    (lt_of_lt_of_le hj' hcap)]
  rw [hb.1 (p / BLOCK_SIZE) (p % BLOCK_SIZE) hj]
  have e1 : p / BLOCK_SIZE * BLOCK_SIZE + p % BLOCK_SIZE = p := Nat.div_add_mod' p BLOCK_SIZE
  have e2 : p % BLOCK_SIZE < BLOCK_SIZE := Nat.mod_lt _ (by decide)
  rw [e1]
  simp only [e2, true_and]

theorem write_after (st : tfs_info) (node : tfs_node) (buf : Nat → Nat) (size offset : Nat)
    (hS : NODE_SIZE node ≤ node.nblocks * BLOCK_SIZE)
    (hcap : (node.nblocks : Int) ≤ CAPACITY) (hinj : Inj st.data node node.nblocks 0) :
    (write_loop node buf size st
      (block_seek st node DEFINE_BLOCK_CURSOR ((offset / BLOCK_SIZE : Nat) : Int)).cursor
      (block_seek st node DEFINE_BLOCK_CURSOR ((offset / BLOCK_SIZE : Nat) : Int)).ret
      0 size offset).to_write ≤ size ∧
    ∃ e, e = offset + (size - (write_loop node buf size st
      (block_seek st node DEFINE_BLOCK_CURSOR ((offset / BLOCK_SIZE : Nat) : Int)).cursor
      (block_seek st node DEFINE_BLOCK_CURSOR ((offset / BLOCK_SIZE : Nat) : Int)).ret
      0 size offset).to_write) ∧
    (e = offset + size ∨ NODE_SIZE node ≤ e) ∧
    (∀ p, p < node.nblocks * BLOCK_SIZE →
      file_byte (write_loop node buf size st
        (block_seek st node DEFINE_BLOCK_CURSOR ((offset / BLOCK_SIZE : Nat) : Int)).cursor
        (block_seek st node DEFINE_BLOCK_CURSOR ((offset / BLOCK_SIZE : Nat) : Int)).ret
        0 size offset).st.data node p =
      if offset ≤ p ∧ p < e then buf (p - offset) else file_byte st.data node p) ∧
    (∀ x, Live node.nblocks 0 x →
      phys (write_loop node buf size st
        (block_seek st node DEFINE_BLOCK_CURSOR ((offset / BLOCK_SIZE : Nat) : Int)).cursor
        (block_seek st node DEFINE_BLOCK_CURSOR ((offset / BLOCK_SIZE : Nat) : Int)).ret
        0 size offset).st.data node x = phys st.data node x) ∧
    SameButData st (write_loop node buf size st
      (block_seek st node DEFINE_BLOCK_CURSOR ((offset / BLOCK_SIZE : Nat) : Int)).cursor
      (block_seek st node DEFINE_BLOCK_CURSOR ((offset / BLOCK_SIZE : Nat) : Int)).ret
      0 size offset).st := by
  have hcoh : size = 0 ∨ NODE_SIZE node ≤ offset ∨
      (Coh st.data node
        (block_seek st node DEFINE_BLOCK_CURSOR ((offset / BLOCK_SIZE : Nat) : Int)).cursor
        ((offset / BLOCK_SIZE : Nat) : Int) ∧
       (block_seek st node DEFINE_BLOCK_CURSOR ((offset / BLOCK_SIZE : Nat) : Int)).ret =
        lblk st.data node ((offset / BLOCK_SIZE : Nat) : Int)) := by
    by_cases h1 : NODE_SIZE node ≤ offset
    · exact Or.inr (Or.inl h1)
    right; right
    have hj : offset / BLOCK_SIZE < node.nblocks := by
      simp only [BLOCK_SIZE] at *
      omega
    have := block_seek_spec st node DEFINE_BLOCK_CURSOR ((offset / BLOCK_SIZE : Nat) : Int)
      (by omega) (by omega) (fun _ => ⟨rfl, rfl, rfl⟩)
    exact ⟨this.2, this.1⟩
  have h := write_loop_spec node buf st.data offset hS hcap hinj size st
    (block_seek st node DEFINE_BLOCK_CURSOR ((offset / BLOCK_SIZE : Nat) : Int)).cursor
    (block_seek st node DEFINE_BLOCK_CURSOR ((offset / BLOCK_SIZE : Nat) : Int)).ret
    0 size offset (le_refl _) rfl (fun _ _ => rfl) hcoh (bytes_init _ _ _ _)
  generalize write_loop node buf size st
    (block_seek st node DEFINE_BLOCK_CURSOR ((offset / BLOCK_SIZE : Nat) : Int)).cursor
    (block_seek st node DEFINE_BLOCK_CURSOR ((offset / BLOCK_SIZE : Nat) : Int)).ret
    0 size offset = w at h ⊢
  obtain ⟨h1, h2, h3, h4, h5⟩ := h
  refine ⟨h1, _, rfl, ?_, ?_, h4, h5⟩
  · rcases h2 with h2 | h2
    · left; rw [h2]; rfl
    · exact Or.inr h2
  · intro p hp
    exact bytes_file st.data w.st.data node buf offset _ hcap h3 h4 p hp

theorem isDir_of_mode (a b : tfs_node) (h : a.mode = b.mode) : a.isDir = b.isDir := by
  unfold tfs_node.isDir
  rw [h]

theorem node_size_file (n : tfs_node) (h : n.isDir = false) : NODE_SIZE n = n.size := by
  unfold NODE_SIZE
  simp [h]

theorem nowrap_file (n : tfs_node) (h : n.isDir = false) : NoWrap n := by
  intro hd
  rw [h] at hd
  exact absurd hd (by decide)

theorem nowrap_of_mode_size (a b : tfs_node) (hm : a.mode = b.mode) (hs : a.size = b.size)
    (h : NoWrap b) : NoWrap a := by
  intro hd
  unfold tfs_node.nlink
  rw [hs]
  exact h ((isDir_of_mode b a hm.symm).trans hd)

theorem node_size_nowrap (n : tfs_node) (hw : NoWrap n) (hd : n.isDir = true) :
    NODE_SIZE n = n.nlink * 8 := by
  have := hw hd
  unfold NODE_SIZE
  simp only [hd, if_true, BLOCK_SIZE] at this ⊢
  omega

theorem nrblocks_nowrap (n : tfs_node) (hw : NoWrap n) :
    NODE_NRBLOCKS n = (BLOCK_SIZE + NODE_SIZE n - 1) / BLOCK_SIZE := by
  unfold NODE_NRBLOCKS
  by_cases hd : n.isDir = true
  · have h1 := hw hd
    rw [if_pos hd, node_size_nowrap n hw hd]
    rw [Nat.mod_eq_of_lt h1]
  · rw [if_neg hd]

theorem nrblocks_cover (n : tfs_node) (hw : NoWrap n) :
    NODE_SIZE n ≤ NODE_NRBLOCKS n * BLOCK_SIZE := by
  rw [nrblocks_nowrap n hw]
  generalize NODE_SIZE n = s
  simp only [BLOCK_SIZE]
  omega

theorem nrblocks_mono (a b : tfs_node) (ha : NoWrap a) (hb : NoWrap b)
    (h : NODE_SIZE a ≤ NODE_SIZE b) : NODE_NRBLOCKS a ≤ NODE_NRBLOCKS b := by
  rw [nrblocks_nowrap a ha, nrblocks_nowrap b hb]
  apply Nat.div_le_div_right
  omega

theorem trim_enough (st : tfs_info) (node : tfs_node) (fl : List Int)
    (hle : node.nblocks ≤ NODE_NRBLOCKS node) (hcap : (NODE_NRBLOCKS node : Int) ≤ CAPACITY)
    (hwf : WF st.data node st.free_block_head fl node.nblocks 0)
    (henough : need node.nblocks (NODE_NRBLOCKS node - node.nblocks) ≤ (fl.length : Int)) :
    (tfs_node_trim st node).ret = 0 := by
  have hneg : ¬ ((NODE_NRBLOCKS node : Int) - (node.nblocks : Int) < 0) := by omega
  have hseek := block_seek_spec st node DEFINE_BLOCK_CURSOR ((node.nblocks : Int) - 1)
    (by omega) (by omega) (fun _ => ⟨rfl, rfl, rfl⟩)
  have hg := grow_alloc ((NODE_NRBLOCKS node : Int) - (node.nblocks : Int)).natAbs st node
    (block_seek st node DEFINE_BLOCK_CURSOR ((node.nblocks : Int) - 1)).cursor
    (node.nblocks : Int) fl ((NODE_NRBLOCKS node : Int) - (node.nblocks : Int))
    hseek.2 (by omega) (Or.inl (by omega)) (by omega) (by omega) hwf
  unfold tfs_node_trim
  simp only [hneg, if_false]
  generalize grow_loop ((NODE_NRBLOCKS node : Int) - (node.nblocks : Int)).natAbs st node
    (block_seek st node DEFINE_BLOCK_CURSOR ((node.nblocks : Int) - 1)).cursor
    ((NODE_NRBLOCKS node : Int) - (node.nblocks : Int)) = s at hg ⊢
  obtain ⟨g1, g2, g3, _⟩ := hg
  have e : ((NODE_NRBLOCKS node : Int) - (node.nblocks : Int)).toNat =
      NODE_NRBLOCKS node - node.nblocks := by omega
  rw [e] at g3
  have hz : s.dblocks = 0 := by
    by_contra hne
    have := g3 hne
    omega
  simp [hz]

theorem first_nonneg (x : TNode) (hv : Valid x) : 0 ≤ first x := by
  rcases x with i | L | ⟨L, a⟩ | ⟨L, a, b⟩ | ⟨a, b, e⟩ <;>
    simp only [Valid, first] at * <;> (try split_ifs) <;> omega

theorem live_zero (x : TNode) : ¬ Live 0 0 x := by
  rintro ⟨hv, hf⟩
  have := first_nonneg x hv
  have hd : 0 ≤ depth x := by cases x <;> simp [depth]
  omega

theorem wf_fresh (d : Int → Nat → Nat) (node : tfs_node) (head : Int) (fl : List Int)
    (h1 : IsFreeList d head fl) (h2 : fl.Nodup) : WF d node head fl 0 0 :=
  ⟨h1, h2, fun x _ hx => absurd hx (live_zero x), fun x hx => absurd hx (live_zero x)⟩

theorem exImage_freelist : IsFreeList (exImage 4).data (exImage 4).free_block_head [0, 1, 2, 3] := by
  refine ⟨by decide, by decide, ⟨by decide, by decide⟩, ?_⟩
  rw [show NEXT_FREE_BLOCK (exImage 4).data 0 = 1 by decide]
  refine ⟨rfl, by decide, ⟨by decide, by decide⟩, ?_⟩
  rw [show NEXT_FREE_BLOCK (exImage 4).data 1 = 2 by decide]
  refine ⟨rfl, by decide, ⟨by decide, by decide⟩, ?_⟩
  rw [show NEXT_FREE_BLOCK (exImage 4).data 2 = 3 by decide]
  refine ⟨rfl, by decide, ⟨by decide, by decide⟩, ?_⟩
  show NEXT_FREE_BLOCK (exImage 4).data 3 = END_BLOCKS
  decide

theorem thread_nodes_spec (hi : Int) : ∀ (fuel : Nat) (i : Int) (nodes : Int → tfs_node),
    hi - i ≤ fuel → ∀ k, thread_nodes hi fuel i nodes k =
      if i ≤ k ∧ k < hi then { nodes k with next := k + 1 } else nodes k := by
  intro fuel
  induction fuel with
  | zero =>
    intro i nodes hf k
    have : ((0 : Nat) : Int) = 0 := rfl
    unfold thread_nodes
    rw [if_neg (by omega)]
  | succ fuel ih =>
    intro i nodes hf k
    unfold thread_nodes
    by_cases h : i < hi
    · rw [if_pos h, ih (i + 1) _ (by push_cast at hf; omega) k]
      unfold set_inode
      by_cases hk : k = i
      · subst hk
        rw [if_neg (by omega)]
        simp [h]
      · simp only [hk, if_false]
        by_cases h2 : i + 1 ≤ k ∧ k < hi
        · rw [if_pos h2, if_pos ⟨by omega, h2.2⟩]
        · rw [if_neg h2, if_neg (by omega)]
    · rw [if_neg h, if_neg (by omega)]

theorem thread_blocks_spec (hi : Int) (hhi : hi < 9223372036854775807) :
    ∀ (fuel : Nat) (i : Int) (d : Int → Nat → Nat), 0 ≤ i → hi - i ≤ fuel →
      (∀ b, i ≤ b → b < hi → rd64 (thread_blocks hi fuel i d) b 0 = b + 1) ∧
      (∀ b, (b < i ∨ hi ≤ b) → ∀ o, thread_blocks hi fuel i d b o = d b o) := by
  intro fuel
  induction fuel with
  | zero =>
    intro i d h0 hf
    have : ((0 : Nat) : Int) = 0 := rfl
    unfold thread_blocks
    exact ⟨fun b h1 h2 => by omega, fun _ _ _ => rfl⟩
  | succ fuel ih =>
    intro i d h0 hf
    unfold thread_blocks
    by_cases h : i < hi
    · rw [if_pos h]
      obtain ⟨r1, r2⟩ := ih (i + 1) (wr64 d i 0 (i + 1)) (by omega) (by push_cast at hf; omega)
      refine ⟨?_, ?_⟩
      · intro b hb1 hb2
        by_cases hb : b = i
        · subst hb
          rw [rd64_congr _ _ b b 0 (r2 b (Or.inl (by omega)))]
          exact rd64_wr64_same d b 0 (b + 1) ⟨by omega, by omega⟩
        · exact r1 b (by omega) hb2
      · intro b hb o
        rw [r2 b (by omega) o]
        exact wr64_other_block d i 0 (i + 1) b o (by omega)
    · rw [if_neg h]
      exact ⟨fun b h1 h2 => by omega, fun _ _ _ => rfl⟩

theorem format_image_spec (filesize : Nat) (st : tfs_info)
    (hb : 1 ≤ format_nblocks filesize) (hn : 2 ≤ format_nnodes filesize)
    (hint : (format_nblocks filesize : Int) - 1 ≤ INT_MAX) :
    (format_image filesize st).nblocks = format_nblocks filesize ∧
    (format_image filesize st).nnodes = format_nnodes filesize ∧
    (format_image filesize st).free_block_head = 0 ∧
    (format_image filesize st).free_node_head = 1 ∧
    (∀ i : Int, 0 ≤ i → i < (format_nblocks filesize : Int) - 1 →
      NEXT_FREE_BLOCK (format_image filesize st).data i = i + 1) ∧
    NEXT_FREE_BLOCK (format_image filesize st).data ((format_nblocks filesize : Int) - 1)
      = END_BLOCKS ∧
    (∀ i : Int, 1 ≤ i → i < (format_nnodes filesize : Int) - 1 →
      ((format_image filesize st).nodes i).next = i + 1) ∧
    ((format_image filesize st).nodes ((format_nnodes filesize : Int) - 1)).next = END_NODES ∧
    ((format_image filesize st).nodes 0).mode = Nat.lor S_IFDIR 644 ∧
    ((format_image filesize st).nodes 0).name = [] ∧
    ((format_image filesize st).nodes 0).size = 0 ∧
    ((format_image filesize st).nodes 0).nblocks = 0 := by
  simp only [INT_MAX] at hint
  obtain ⟨b1, b2⟩ := thread_blocks_spec ((format_nblocks filesize : Int) - 1) (by omega)
    ((format_nblocks filesize : Int) - 1).toNat 0 st.data (le_refl _) (by omega)
  have hnodes := thread_nodes_spec ((format_nnodes filesize : Int) - 1)
    ((format_nnodes filesize : Int) - 1).toNat 1
    (set_inode st.nodes 0
      { st.nodes 0 with mode := Nat.lor S_IFDIR 644, name := [], nblocks := 0, size := 0 })
    (by omega)
  unfold format_image
  dsimp only
  generalize thread_blocks ((format_nblocks filesize : Int) - 1)
    ((format_nblocks filesize : Int) - 1).toNat 0 st.data = d1 at b1 b2 ⊢
  generalize thread_nodes ((format_nnodes filesize : Int) - 1)
    ((format_nnodes filesize : Int) - 1).toNat 1
    (set_inode st.nodes 0
      { st.nodes 0 with mode := Nat.lor S_IFDIR 644, name := [], nblocks := 0, size := 0 })
    = nodes2 at hnodes ⊢
  have hroot : nodes2 0 =
      { st.nodes 0 with mode := Nat.lor S_IFDIR 644, name := [], nblocks := 0, size := 0 } := by
    rw [hnodes 0, if_neg (by omega)]
    simp [set_inode]
  have h0 : set_inode nodes2 ((format_nnodes filesize : Int) - 1)
      { nodes2 ((format_nnodes filesize : Int) - 1) with next := END_NODES } 0 = nodes2 0 := by
    unfold set_inode
    rw [if_neg (by omega)]
  refine ⟨rfl, rfl, rfl, rfl, ?_, ?_, ?_, ?_, ?_, ?_, ?_, ?_⟩
  · intro i hi0 hi1
    unfold NEXT_FREE_BLOCK
    rw [rd64_wr64_other d1 _ 0 END_BLOCKS i 0 (le_refl _) (le_refl _) (Or.inl (by omega))]
    exact b1 i hi0 hi1
  · unfold NEXT_FREE_BLOCK
    exact rd64_wr64_same d1 _ 0 END_BLOCKS ⟨by decide, by decide⟩
  · intro i hi0 hi1
    unfold set_inode
    rw [if_neg (by omega), hnodes i, if_pos ⟨hi0, hi1⟩]
  · simp [set_inode]
  · rw [h0, hroot]
  · rw [h0, hroot]
  · rw [h0, hroot]
  · rw [h0, hroot]

theorem tfs_format_some (filesize : Nat) (st : tfs_info)
    (hint : (format_nblocks filesize : Int) - 1 ≤ INT_MAX) :
    tfs_format filesize st = some (format_image filesize st) := by
  unfold tfs_format
  rw [if_neg (by omega)]

/-- C14 (the stored root mode): for an image whose geometry gives `nnodes ≥ 2`,
`tfs_format` leaves the root with mode `S_IFDIR | 644`, the literal 644 being
decimal: the mode is 17028 (octal 041204), not `S_IFDIR | 0o644` (octal 0644 is
420, giving 16804). -/
theorem tfs_format_root_mode_decimal (filesize : Nat) (st : tfs_info)
    (hn : 2 ≤ format_nnodes filesize)
    (hint : (format_nblocks filesize : Int) - 1 ≤ INT_MAX) :
    ∃ st', tfs_format filesize st = some st' ∧ (st'.nodes 0).mode = 17028 ∧
      (st'.nodes 0).mode ≠ Nat.lor S_IFDIR 420 := by
  refine ⟨format_image filesize st, tfs_format_some filesize st hint, ?_⟩
  have hb : 1 ≤ format_nblocks filesize := by
    unfold format_nnodes at hn
    simp only [BLOCKS_PER_NODE] at hn
    omega
  obtain ⟨_, _, _, _, _, _, _, _, f9, _⟩ := format_image_spec filesize st hb hn hint
  rw [f9]
  decide

theorem tfs_format_root_mode_decimal_witness :
    ∃ st', tfs_format 33248 (exImage 0) = some st' ∧ (st'.nodes 0).mode = 17028 ∧
      (st'.nodes 0).mode ≠ Nat.lor S_IFDIR 420 :=
  tfs_format_root_mode_decimal 33248 (exImage 0) (by decide) (by decide)

/-- C20 (evaluation at the failing input): for an image of 33248 bytes
(`8 * (BLOCK_SIZE + 60)`) the geometry of `tfs_format` is 8 blocks and 2 inodes,
and with header, inode table and data blocks laid out in order the last data
block ends at byte 33280, past the end of the image. -/
theorem tfs_format_layout_exceeds_image :
    format_nblocks 33248 = 8 ∧ format_nnodes 33248 = 2 ∧ layout_end 33248 = 33280 ∧
    ¬ (layout_end 33248 ≤ 33248) := by
  decide

theorem layout_end_bound (L : Nat) : layout_end L ≤ L + SIZEOF_HEADER := by
  unfold layout_end format_nnodes format_nblocks
  simp only [SIZEOF_HEADER, SIZEOF_NODE, BLOCKS_PER_NODE, BLOCK_SIZE]
  omega

/-- C17: seek and sequential advance agree.  For `-1 ≤ i` and `i + 1 < nblocks`
(within the capacity of a node), a fresh cursor seeked to `i` and advanced once by
`next_block` returns the same block and ends with the same `i`, `level`,
`pos[0..level]` and `block[0..level]` as a fresh cursor seeked to `i + 1`; both
return the block of logical index `i + 1`, which for `i = 11` is entry 0 of the
index block `iblocks[0]`. -/
theorem block_seek_next_block_agree (st : tfs_info) (node : tfs_node) (i : Int)
    (hi : -1 ≤ i) (hn : i + 1 < node.nblocks) (hcap : i + 1 < CAPACITY) :
    (next_block st node (block_seek st node DEFINE_BLOCK_CURSOR i).cursor).ret =
      (block_seek st node DEFINE_BLOCK_CURSOR (i + 1)).ret ∧
    (next_block st node (block_seek st node DEFINE_BLOCK_CURSOR i).cursor).cursor.i =
      (block_seek st node DEFINE_BLOCK_CURSOR (i + 1)).cursor.i ∧
    (next_block st node (block_seek st node DEFINE_BLOCK_CURSOR i).cursor).cursor.level =
      (block_seek st node DEFINE_BLOCK_CURSOR (i + 1)).cursor.level ∧
    (∀ k, 0 ≤ k → k ≤ (block_seek st node DEFINE_BLOCK_CURSOR (i + 1)).cursor.level →
      (next_block st node (block_seek st node DEFINE_BLOCK_CURSOR i).cursor).cursor.pos k =
        (block_seek st node DEFINE_BLOCK_CURSOR (i + 1)).cursor.pos k ∧
      (next_block st node (block_seek st node DEFINE_BLOCK_CURSOR i).cursor).cursor.block k =
        (block_seek st node DEFINE_BLOCK_CURSOR (i + 1)).cursor.block k) ∧
    (i = 11 →
      (next_block st node (block_seek st node DEFINE_BLOCK_CURSOR i).cursor).ret =
        rd64 st.data (node.iblocks 0) 0) := by
  obtain ⟨_, hc1⟩ := block_seek_spec st node DEFINE_BLOCK_CURSOR i (by omega) (by omega)
    (fun _ => ⟨rfl, rfl, rfl⟩)
  obtain ⟨a1, a2, a3⟩ := next_block_spec st node
    (block_seek st node DEFINE_BLOCK_CURSOR i).cursor (i + 1)
    (by rw [show i + 1 - 1 = i by ring]; exact hc1) (by omega) hcap hn
  obtain ⟨b1, b2, b3⟩ := block_seek_spec st node DEFINE_BLOCK_CURSOR (i + 1) (by omega) hcap
    (fun _ => ⟨rfl, rfl, rfl⟩)
  generalize next_block st node (block_seek st node DEFINE_BLOCK_CURSOR i).cursor = a
    at a1 a2 a3 ⊢
  generalize block_seek st node DEFINE_BLOCK_CURSOR (i + 1) = b at b1 b2 b3 ⊢
  have hl2 := (lvl_le_two (i + 1)).1
  refine ⟨by rw [a1, b1], by rw [a2.1, b2.1], by rw [a2.2.1, b2.2.1], ?_, ?_⟩
  · intro k hk0 hk1
    rw [b2.2.1] at hk1
    refine ⟨?_, ?_⟩
    · rw [cohpos_pos a.cursor (i + 1) k a2 hk0 (by omega),
        cohpos_pos b.cursor (i + 1) k b2 hk0 (by omega)]
    · rw [a3 k hk0 hk1 hk1, b3 k hk0 hk1 hk1]
  · intro h11
    subst h11
    rw [a1]
    show phys st.data node (pathnode (11 + 1) (lvl (11 + 1) + 1)) = _
    rw [show pathnode (11 + 1) (lvl (11 + 1) + 1) = TNode.N1 0 0 by decide]
    rfl

theorem block_seek_next_block_agree_witness :
    (next_block exBig exBigFile (block_seek exBig exBigFile DEFINE_BLOCK_CURSOR 11).cursor).ret =
      (block_seek exBig exBigFile DEFINE_BLOCK_CURSOR (11 + 1)).ret ∧
    (next_block exBig exBigFile (block_seek exBig exBigFile DEFINE_BLOCK_CURSOR 11).cursor).ret =
      rd64 exBig.data (exBigFile.iblocks 0) 0 :=
  ⟨(block_seek_next_block_agree exBig exBigFile 11 (by decide) (by decide) (by decide)).1,
   (block_seek_next_block_agree exBig exBigFile 11 (by decide) (by decide)
      (by decide)).2.2.2.2 rfl⟩

/-- C18 (evaluation at the failing input): in `exBig`, with `free_block_buffer` at
its initial value (all zero), shrinking the 14-block file to 13 blocks returns 0
and leaves `nblocks = 13`, but besides block 14 (logical index 13) it pushes
block 0 onto the free list, the block of logical index 0 that the file still
references, and overwrites the first word of that block with the list link. -/
theorem tfs_node_trim_pushes_block_in_use :
    (tfs_node_trim exBig { exBigFile with size := 53248 }).ret = 0 ∧
    (tfs_node_trim exBig { exBigFile with size := 53248 }).node.nblocks = 13 ∧
    (tfs_node_trim exBig { exBigFile with size := 53248 }).node.blocks 0 = 0 ∧
    (tfs_node_trim exBig { exBigFile with size := 53248 }).st.free_block_head = 14 ∧
    NEXT_FREE_BLOCK (tfs_node_trim exBig { exBigFile with size := 53248 }).st.data 14 = 0 ∧
    NEXT_FREE_BLOCK (tfs_node_trim exBig { exBigFile with size := 53248 }).st.data 0 = 15 ∧
    exBig.data 0 0 = 0 ∧
    (tfs_node_trim exBig { exBigFile with size := 53248 }).st.data 0 0 = 15 := by
  decide

/-- C19 (evaluation at the failing input): on a fresh image of 14 blocks,
`mknod("/f")` succeeds and `truncate("/f", 12 * BLOCK_SIZE + 1)` returns
`-ENOSPC`; afterwards the free-block list is empty, the root (inode 0) references
block 0 only, the file (inode 1, the only child of the root) has `nblocks = 12`
and references blocks 1 to 12, and block 13, stored in `iblocks[0]` when the
allocation of the 13th data block failed, is neither free nor referenced. -/
theorem tfs_node_trim_leaks_index_block :
    (fuse_tfs_mknod (exImage 14) ['/', 'f'] 33188).map (fun r => r.ret) = some 0 ∧
    exLeak.map (fun r => r.ret) = some (-ENOSPC) ∧
    exLeak.map (fun r => r.st.free_block_head) = some END_BLOCKS ∧
    exLeak.map (fun r => r.st.nblocks) = some 14 ∧
    exLeak.map (fun r => tfs_node_children r.st (r.st.nodes 0)) = some [1] ∧
    exLeak.map (fun r => node_blocks r.st.data (r.st.nodes 0)) = some [0] ∧
    exLeak.map (fun r => (r.st.nodes 1).nblocks) = some 12 ∧
    exLeak.map (fun r => node_blocks r.st.data (r.st.nodes 1)) =
      some [1, 2, 3, 4, 5, 6, 7, 8, 9, 10, 11, 12] ∧
    exLeak.map (fun r => (r.st.nodes 1).iblocks 0) = some 13 := by
  decide

theorem sameTables_refl (a : tfs_info) : SameTables a a := ⟨rfl, rfl, rfl, rfl, rfl, rfl, rfl⟩

theorem sameTables_trans (a b c : tfs_info) (h1 : SameTables a b) (h2 : SameTables b c) :
    SameTables a c :=
  ⟨h2.1.trans h1.1, h2.2.1.trans h1.2.1, h2.2.2.1.trans h1.2.2.1, h2.2.2.2.1.trans h1.2.2.2.1,
    h2.2.2.2.2.1.trans h1.2.2.2.2.1, h2.2.2.2.2.2.1.trans h1.2.2.2.2.2.1,
    h2.2.2.2.2.2.2.trans h1.2.2.2.2.2.2⟩

theorem alloc_callback_keepsTables : KeepsTables _alloc_callback := by
  intro st node c l
  unfold _alloc_callback
  split_ifs <;> exact ⟨rfl, rfl, rfl, rfl, rfl, rfl, rfl⟩

theorem free_callback_keepsTables : KeepsTables _free_callback := by
  intro st node c l
  exact ⟨rfl, rfl, rfl, rfl, rfl, rfl, rfl⟩

theorem next_block_callback_keepsTables : KeepsTables _next_block_callback := by
  intro st node c l
  unfold _next_block_callback
  split_ifs <;> exact ⟨rfl, rfl, rfl, rfl, rfl, rfl, rfl⟩

theorem reload_loop_keepsTables (cb : callback_t) (h : KeepsTables cb) :
    ∀ fuel st node c level, SameTables st (reload_loop cb fuel st node c level).st := by
  intro fuel
  induction fuel with
  | zero => intro st node c level; exact sameTables_refl _
  | succ n ih =>
    intro st node c level
    unfold reload_loop
    split_ifs with hl
    · exact sameTables_trans _ _ _ (h st node c level) (ih _ _ _ _)
    · exact sameTables_refl _

theorem iter_through_keepsTables (cb : callback_t) (h : KeepsTables cb) (st : tfs_info)
    (node : tfs_node) (c : block_cursor) : SameTables st (iter_through cb st node c).st := by
  unfold iter_through
  by_cases h1 : c.i + 1 < DIRECT_BLOCKS
  · simp only [h1, if_true]
    exact h _ _ _ _
  · simp only [h1, if_false]
    exact sameTables_trans _ _ _ (reload_loop_keepsTables cb h _ _ _ _ _) (h _ _ _ _)

theorem clear_buffer_keepsTables (level : Int) : ∀ fuel st i,
    SameTables st (clear_buffer level fuel st i) := by
  intro fuel
  induction fuel with
  | zero => intro st i; exact sameTables_refl _
  | succ n ih =>
    intro st i
    unfold clear_buffer
    split_ifs
    · exact ih _ _
    · exact sameTables_trans _ _ _ ⟨rfl, rfl, rfl, rfl, rfl, rfl, rfl⟩ (ih (push_free st i) _)
    · exact sameTables_refl _

theorem shrink_loop_keepsTables : ∀ fuel st node c d,
    SameTables st (shrink_loop fuel st node c d).st := by
  intro fuel
  induction fuel with
  | zero => intro st node c d; exact sameTables_refl _
  | succ n ih =>
    intro st node c d
    unfold shrink_loop
    dsimp only
    have h1 := iter_through_keepsTables _ free_callback_keepsTables st node c
    by_cases hd : d ≠ 0
    · rw [if_pos hd]
      by_cases hr : (iter_through _free_callback st node c).ret ≠ END_BLOCKS
      · rw [if_pos hr]
        exact sameTables_trans _ _ _
          (sameTables_trans _ _ _ h1 (clear_buffer_keepsTables _ _ _ _)) (ih _ _ _ _)
      · rw [if_neg hr]
        exact h1
    · rw [if_neg hd]
      exact sameTables_refl _

theorem grow_loop_keepsTables : ∀ fuel st node c d,
    SameTables st (grow_loop fuel st node c d).st := by
  intro fuel
  induction fuel with
  | zero => intro st node c d; exact sameTables_refl _
  | succ n ih =>
    intro st node c d
    unfold grow_loop
    dsimp only
    have h1 := iter_through_keepsTables _ alloc_callback_keepsTables st node c
    by_cases hd : d ≠ 0
    · rw [if_pos hd]
      by_cases hr : (iter_through _alloc_callback st node c).ret ≠ END_BLOCKS
      · rw [if_pos hr]
        exact sameTables_trans _ _ _ h1 (ih _ _ _ _)
      · rw [if_neg hr]
        exact h1
    · rw [if_neg hd]
      exact sameTables_refl _

theorem tfs_node_trim_keepsTables (st : tfs_info) (node : tfs_node) :
    SameTables st (tfs_node_trim st node).st := by
  unfold tfs_node_trim
  dsimp only
  by_cases h : (NODE_NRBLOCKS node : Int) - (node.nblocks : Int) < 0
  · rw [if_pos h]
    exact shrink_loop_keepsTables _ _ _ _ _
  · rw [if_neg h]
    exact grow_loop_keepsTables _ _ _ _ _

theorem write_loop_keepsTables (node : tfs_node) (buf : Nat → Nat) :
    ∀ fuel st c block bufpos to_write offset,
      SameTables st (write_loop node buf fuel st c block bufpos to_write offset).st := by
  intro fuel
  induction fuel with
  | zero => intro st c block bufpos to_write offset; exact sameTables_refl _
  | succ n ih =>
    intro st c block bufpos to_write offset
    unfold write_loop
    dsimp only
    by_cases h : offset < NODE_SIZE node ∧ min to_write (BLOCK_SIZE - offset % BLOCK_SIZE) ≠ 0
    · rw [if_pos h]
      exact sameTables_trans _ _ _ ⟨rfl, rfl, rfl, rfl, rfl, rfl, rfl⟩ (ih _ _ _ _ _ _)
    · rw [if_neg h]
      exact sameTables_refl _

theorem tfs_node_write_keepsTables (st : tfs_info) (node : tfs_node) (buf : Nat → Nat)
    (size offset : Nat) : SameTables st (tfs_node_write st node buf size offset).st := by
  unfold tfs_node_write
  dsimp only
  exact sameTables_trans _ _ _ (tfs_node_trim_keepsTables _ _) (write_loop_keepsTables _ _ _ _ _ _ _ _ _)

theorem set_node_frame (st : tfs_info) (path : List Char) (node : Option Int) :
    (set_node st path node).nodes = st.nodes ∧ (set_node st path node).data = st.data ∧
    (set_node st path node).free_node_head = st.free_node_head ∧
    (set_node st path node).free_block_head = st.free_block_head ∧
    (set_node st path node).free_block_buffer = st.free_block_buffer ∧
    (set_node st path node).nblocks = st.nblocks ∧ (set_node st path node).nnodes = st.nnodes ∧
    (set_node st path node).hsize = st.hsize := by
  unfold set_node hsearch_enter
  cases st.htable path with
  | none =>
    dsimp only
    split_ifs <;> exact ⟨rfl, rfl, rfl, rfl, rfl, rfl, rfl, rfl⟩
  | some d => exact ⟨rfl, rfl, rfl, rfl, rfl, rfl, rfl, rfl⟩

theorem set_node_other (st : tfs_info) (path : List Char) (node : Option Int) (q : List Char)
    (hq : q ≠ path) : (set_node st path node).htable q = st.htable q := by
  unfold set_node hsearch_enter
  cases st.htable path with
  | none =>
    dsimp only
    split_ifs
    · rfl
    · show (if q = path then some node else st.htable q) = st.htable q
      rw [if_neg hq]
  | some d =>
    show (if q = path then some node else st.htable q) = st.htable q
    rw [if_neg hq]

theorem set_node_get (st : tfs_info) (path : List Char) (node : Option Int)
    (h : HasRoom st path) : get_node (set_node st path node) path = node := by
  unfold get_node set_node hsearch_enter
  cases hp : st.htable path with
  | none =>
    rcases h with h | h
    · exact absurd hp h
    · dsimp only
      rw [if_neg h]
      dsimp only
      rw [if_pos rfl]
  | some d =>
    dsimp only
    rw [if_pos rfl]

theorem set_node_present (st : tfs_info) (path : List Char) (node : Option Int)
    (h : st.htable path ≠ none) : (set_node st path node).htable path = some node := by
  unfold set_node
  cases hx : st.htable path with
  | none => exact absurd hx h
  | some d =>
    dsimp only
    rw [if_pos rfl]

theorem set_node_full (st : tfs_info) (path : List Char) (node : Option Int)
    (h1 : st.htable path = none) (h2 : st.hfilled = st.hsize) : set_node st path node = st := by
  unfold set_node hsearch_enter
  rw [h1]
  dsimp only
  rw [if_pos h2]

theorem hasRoom_of_eq (a b : tfs_info) (p : List Char) (h1 : b.htable = a.htable)
    (h2 : b.hsize = a.hsize) (h3 : b.hfilled = a.hfilled) (h : HasRoom a p) : HasRoom b p := by
  unfold HasRoom at h ⊢
  rw [h1, h2, h3]
  exact h

theorem add_result_facts (st ts : tfs_info) (tn : tfs_node) (path : List Char)
    (par nodei blk slot nx : Int) (X : tfs_node)
    (k1 : ts.nodes = set_inode st.nodes nodei X) (k2 : ts.htable = st.htable)
    (k3 : ts.free_node_head = nx) (k4 : ts.hsize = st.hsize) (k5 : ts.hfilled = st.hfilled)
    (hroom : HasRoom st path) :
    get_node (set_node { ts with nodes := set_inode ts.nodes par tn,
                                 data := wr64 ts.data blk slot nodei } path (some nodei)) path
      = some nodei ∧
    (set_node { ts with nodes := set_inode ts.nodes par tn,
                        data := wr64 ts.data blk slot nodei } path (some nodei)).free_node_head
      = nx ∧
    (∀ q, q ≠ path →
      (set_node { ts with nodes := set_inode ts.nodes par tn,
                          data := wr64 ts.data blk slot nodei } path (some nodei)).htable q
        = st.htable q) ∧
    (par ≠ nodei →
      (set_node { ts with nodes := set_inode ts.nodes par tn,
                          data := wr64 ts.data blk slot nodei } path (some nodei)).nodes nodei
        = X) ∧
    (∀ k, k ≠ par → k ≠ nodei →
      (set_node { ts with nodes := set_inode ts.nodes par tn,
                          data := wr64 ts.data blk slot nodei } path (some nodei)).nodes k
        = st.nodes k) := by
  refine ⟨set_node_get _ _ _ (hasRoom_of_eq st _ path k2 k4 k5 hroom), ?_, ?_, ?_, ?_⟩
  · rw [(set_node_frame _ _ _).2.2.1]
    exact k3
  · intro q hq
    rw [set_node_other _ _ _ _ hq]
    show ts.htable q = st.htable q
    rw [k2]
  · intro hp
    rw [(set_node_frame _ _ _).1]
    show set_inode ts.nodes par tn nodei = _
    unfold set_inode
    rw [if_neg (fun h => hp h.symm), k1]
    simp [set_inode]
  · intro k hk1 hk2
    rw [(set_node_frame _ _ _).1]
    show set_inode ts.nodes par tn k = _
    unfold set_inode
    rw [if_neg hk1, k1]
    unfold set_inode
    rw [if_neg hk2]

theorem tfs_add_node_ok (st : tfs_info) (path : List Char) (mode : Nat) (par : Int)
    (h1 : get_node st path = none) (h2 : st.free_node_head ≠ END_NODES)
    (h3 : (basename path).length + 1 ≤ NAME_LIMIT) (h4 : get_directory st path = some par)
    (h5 : HasRoom st path) :
    ∃ s', tfs_add_node st path mode = some ⟨0, s'⟩ ∧
      get_node s' path = some st.free_node_head ∧
      s'.free_node_head = (st.nodes st.free_node_head).next ∧
      (∀ q, q ≠ path → s'.htable q = st.htable q) ∧
      (par ≠ st.free_node_head →
        s'.nodes st.free_node_head =
          init_node (st.nodes st.free_node_head) (basename path) mode) ∧
      (∀ k, k ≠ par → k ≠ st.free_node_head → s'.nodes k = st.nodes k) := by
  have hdir : get_directory { st with
      free_node_head := (st.nodes st.free_node_head).next,
      nodes := set_inode st.nodes st.free_node_head
        (init_node (st.nodes st.free_node_head) (basename path) mode) } path = some par := h4
  unfold tfs_add_node
  rw [h1]
  simp only [Option.isSome_none, Bool.false_eq_true, if_false, h2]
  rw [if_neg (by omega), hdir]
  refine ⟨_, rfl, ?_⟩
  exact add_result_facts st _ _ path par st.free_node_head _ _ _ _
    (tfs_node_trim_keepsTables _ _).1 (tfs_node_trim_keepsTables _ _).2.1
    (tfs_node_trim_keepsTables _ _).2.2.1 (tfs_node_trim_keepsTables _ _).2.2.2.2.2.1
    (tfs_node_trim_keepsTables _ _).2.2.2.2.2.2 h5

theorem scan_loop_keepsTables (node : tfs_node) (target last_child : Int) :
    ∀ fuel st c block, SameTables st (scan_loop node target last_child fuel st c block) := by
  intro fuel
  induction fuel with
  | zero => intro st c block; exact sameTables_refl _
  | succ n ih =>
    intro st c block
    unfold scan_loop
    by_cases hb : block ≠ END_BLOCKS
    · rw [if_pos hb]
      cases find_slot st.data block target BLOCK_MAX_CHILDREN 0 with
      | none => exact ih _ _ _
      | some i => exact ⟨rfl, rfl, rfl, rfl, rfl, rfl, rfl⟩
    · rw [if_neg hb]
      exact sameTables_refl _

theorem fuse_tfs_write_tables (st : tfs_info) (path : List Char) (buf : Nat → Nat)
    (size offset : Nat) :
    (fuse_tfs_write st path buf size offset).st.htable = st.htable ∧
    (fuse_tfs_write st path buf size offset).st.free_node_head = st.free_node_head := by
  unfold fuse_tfs_write
  cases get_node st path with
  | none => exact ⟨rfl, rfl⟩
  | some n =>
    dsimp only
    by_cases hd : (st.nodes n).isDir = true
    · rw [if_pos hd]
      exact ⟨rfl, rfl⟩
    · rw [if_neg hd]
      have h := tfs_node_write_keepsTables st (st.nodes n) buf size offset
      exact ⟨h.2.1, h.2.2.1⟩

theorem tfs_remove_node_ok (st : tfs_info) (path : List Char) (par n : Int)
    (hd : get_directory st path = some par) (hn : get_node st path = some n) :
    ∃ s', tfs_remove_node st path = some ⟨0, s'⟩ ∧ s'.free_node_head = n ∧
      get_node s' path = none ∧ (∀ q, q ≠ path → s'.htable q = st.htable q) ∧
      s'.htable path = some none := by
  have hpres : st.htable path ≠ none := by
    intro h
    unfold get_node at hn
    rw [h] at hn
    exact absurd hn (by simp)
  unfold tfs_remove_node
  rw [hd, hn]
  dsimp only
  refine ⟨_, rfl, (set_node_frame _ _ _).2.2.1, ?_, ?_, ?_⟩
  rotate_left 2
  · apply set_node_present
    dsimp only
    rw [(tfs_node_trim_keepsTables _ _).2.1]
    dsimp only
    rw [(tfs_node_trim_keepsTables _ _).2.1, (scan_loop_keepsTables _ _ _ _ _ _ _).2.1]
    exact hpres
  · apply set_node_get
    left
    dsimp only
    rw [(tfs_node_trim_keepsTables _ _).2.1]
    dsimp only
    rw [(tfs_node_trim_keepsTables _ _).2.1, (scan_loop_keepsTables _ _ _ _ _ _ _).2.1]
    exact hpres
  · intro q hq
    rw [set_node_other _ _ _ _ hq]
    dsimp only
    rw [(tfs_node_trim_keepsTables _ _).2.1]
    dsimp only
    rw [(tfs_node_trim_keepsTables _ _).2.1]
    exact congrFun (scan_loop_keepsTables _ _ _ _ _ _ _).2.1 q

/-- C9 (the code at the failing input): whenever the cache maps `"/"` to inode 0,
`tfs_remove_node("/")` returns 0, pushes inode 0 onto the free-inode list and
clears the cache entry of the root. -/
theorem tfs_remove_node_root_succeeds (st : tfs_info) (h : get_node st ['/'] = some 0) :
    ∃ st', tfs_remove_node st ['/'] = some ⟨0, st'⟩ ∧ st'.free_node_head = 0 ∧
      get_node st' ['/'] = none := by
  have hd : get_directory st ['/'] = some 0 := by
    unfold get_directory
    rw [dirname_root]
    exact h
  obtain ⟨s', h1, h2, h3, _⟩ := tfs_remove_node_ok st ['/'] 0 0 hd h
  exact ⟨s', h1, h2, h3⟩

theorem tfs_remove_node_root_witness :
    get_node (exImage 4) ['/'] = some 0 ∧
    ∃ st', tfs_remove_node (exImage 4) ['/'] = some ⟨0, st'⟩ ∧ st'.free_node_head = 0 ∧
      get_node st' ['/'] = none :=
  ⟨by decide, tfs_remove_node_root_succeeds (exImage 4) (by decide)⟩

theorem init_node_facts (x : tfs_node) (nm : List Char) (m : Nat) :
    (init_node x nm m).size = 0 ∧ (init_node x nm m).nblocks = 0 ∧
    (init_node x nm m).mode = m ∧ (init_node x nm m).name = nm := by
  unfold init_node
  dsimp only
  split_ifs <;> exact ⟨rfl, rfl, rfl, rfl⟩

theorem tfs_node_read_empty (st : tfs_info) (node : tfs_node) (out : Nat → Nat)
    (len offset : Nat) (h : NODE_SIZE node ≤ offset) :
    (tfs_node_read st node out len offset).ret = 0 ∧
    (tfs_node_read st node out len offset).buf = out := by
  unfold tfs_node_read
  dsimp only
  cases len with
  | zero => exact ⟨by simp [read_loop]; decide, rfl⟩
  | succ k =>
    unfold read_loop
    rw [if_neg (by omega)]
    exact ⟨by simp; decide, rfl⟩

/-- Remove-then-add while the cache can take the path.  For a path `p` that is
not cached and for which the table has room (`HasRoom`), whose parent
directory is cached, whose basename fits, with a free inode other than the parent,
a regular-file mode and any buffer `buf` of `n` bytes: `tfs_add_node(p)` returns 0,
the write of `buf` at offset 0 runs (whatever it returns), `tfs_remove_node(p)`
returns 0, and the second `tfs_add_node(p)` returns 0 and leaves at `p` a node
with `size = 0` and `nblocks = 0`; a read of any length at offset 0 then returns 0
and copies nothing. -/
theorem tfs_remove_then_add_is_empty (st : tfs_info) (p : List Char) (mode : Nat) (par : Int)
    (buf : Nat → Nat) (n : Nat)
    (hnew : get_node st p = none) (hfree : st.free_node_head ≠ END_NODES)
    (hname : (basename p).length + 1 ≤ NAME_LIMIT) (hpar : get_directory st p = some par)
    (hwf : par ≠ st.free_node_head) (hfile : Nat.land mode S_IFDIR = 0)
    (hroom : HasRoom st p) :
    ∃ s1 s3 s4, tfs_add_node st p mode = some ⟨0, s1⟩ ∧
      tfs_remove_node (fuse_tfs_write s1 p buf n 0).st p = some ⟨0, s3⟩ ∧
      tfs_add_node s3 p mode = some ⟨0, s4⟩ ∧
      ∃ i, get_node s4 p = some i ∧ (s4.nodes i).size = 0 ∧ (s4.nodes i).nblocks = 0 ∧
        ∀ out len, (fuse_tfs_read s4 p out len 0).ret = 0 ∧
          (fuse_tfs_read s4 p out len 0).buf = out := by
  have hne : dirname p ≠ p := by
    intro h
    unfold get_directory at hpar
    rw [h, hnew] at hpar
    exact absurd hpar (by simp)
  obtain ⟨s1, a1, a2, a3, a4, a5, a6⟩ := tfs_add_node_ok st p mode par hnew hfree hname hpar
    hroom
  obtain ⟨w1, w2⟩ := fuse_tfs_write_tables s1 p buf n 0
  have hd2 : get_directory (fuse_tfs_write s1 p buf n 0).st p = some par := by
    unfold get_directory get_node at hpar ⊢
    rw [w1, a4 _ hne]
    exact hpar
  have hn2 : get_node (fuse_tfs_write s1 p buf n 0).st p = some st.free_node_head := by
    unfold get_node at a2 ⊢
    rw [w1]
    exact a2
  obtain ⟨s3, r1, r2, r3, r4, r5⟩ := tfs_remove_node_ok _ p par st.free_node_head hd2 hn2
  have hd3 : get_directory s3 p = some par := by
    unfold get_directory get_node at hd2 ⊢
    rw [r4 _ hne]
    exact hd2
  have hpres3 : s3.htable p ≠ none := by
    rw [r5]
    simp
  obtain ⟨s4, b1, b2, b3, b4, b5, b6⟩ := tfs_add_node_ok s3 p mode par r3 (by rw [r2]; exact hfree)
    hname hd3 (Or.inl hpres3)
  rw [r2] at b2 b5
  refine ⟨s1, s3, s4, a1, r1, b1, st.free_node_head, b2, ?_, ?_, ?_⟩
  · rw [b5 hwf]; exact (init_node_facts _ _ _).1
  · rw [b5 hwf]; exact (init_node_facts _ _ _).2.1
  · intro out len
    have hdir : (s4.nodes st.free_node_head).isDir = false := by
      unfold tfs_node.isDir
      rw [b5 hwf, (init_node_facts _ _ _).2.2.1, hfile]
      rfl
    have hsz : NODE_SIZE (s4.nodes st.free_node_head) ≤ 0 := by
      rw [node_size_file _ hdir, b5 hwf, (init_node_facts _ _ _).1]
    unfold fuse_tfs_read
    rw [b2]
    dsimp only
    rw [hdir]
    simp only [Bool.false_eq_true, if_false]
    exact tfs_node_read_empty s4 _ out len 0 hsz

theorem tfs_remove_then_add_is_empty_witness :
    ∃ s1 s3 s4, tfs_add_node (exImage 4) ['/', 'a'] 33188 = some ⟨0, s1⟩ ∧
      tfs_remove_node (fuse_tfs_write s1 ['/', 'a'] exHello 5 0).st ['/', 'a'] = some ⟨0, s3⟩ ∧
      tfs_add_node s3 ['/', 'a'] 33188 = some ⟨0, s4⟩ ∧
      ∃ i, get_node s4 ['/', 'a'] = some i ∧ (s4.nodes i).size = 0 ∧
        (s4.nodes i).nblocks = 0 ∧
        ∀ out len, (fuse_tfs_read s4 ['/', 'a'] out len 0).ret = 0 ∧
          (fuse_tfs_read s4 ['/', 'a'] out len 0).buf = out :=
  tfs_remove_then_add_is_empty (exImage 4) ['/', 'a'] 33188 0 exHello 5
    (by decide) (by decide) (by decide) (by decide) (by decide) (by decide)
    (Or.inr (by decide))

theorem children_length (st : tfs_info) (node : tfs_node) :
    (tfs_node_children st node).length = node.nlink := by
  simp [tfs_node_children]

theorem children_getElem (st : tfs_info) (node : tfs_node) (i : Nat) (h : i < node.nlink) :
    (tfs_node_children st node)[i]? =
      some (bufWord (tfs_node_read st node (fun _ => 0) (NODE_SIZE node) 0).buf i) := by
  simp [tfs_node_children, List.getElem?_map, List.getElem?_range h]

set_option maxRecDepth 100000 in
/-- C11 (evaluation at the failing input): in `exDir` the root has the 6657
children `1, ..., 6657` on 14 blocks and `"/c"` is the first child, inode 1.
`tfs_remove_node("/c")` returns 0 and leaves `nlink = 6656`, but the first entry
of `tfs_node_children` is then 15, not the former last child 6657: the shrink of
the directory from 14 to 13 blocks pushes block 0, the first directory block,
onto the free list and overwrites its first entry with the list link. -/
theorem tfs_remove_node_corrupts_first_child :
    (tfs_node_children exDir (exDir.nodes 0)).length = 6657 ∧
    (tfs_node_children exDir (exDir.nodes 0))[0]? = some 1 ∧
    (tfs_node_children exDir (exDir.nodes 0))[6656]? = some 6657 ∧
    get_node exDir ['/', 'c'] = some 1 ∧
    ∃ s', tfs_remove_node exDir ['/', 'c'] = some ⟨0, s'⟩ ∧
      (tfs_node_children s' (s'.nodes 0)).length = 6656 ∧
      (tfs_node_children s' (s'.nodes 0))[0]? = some 15 ∧
      s'.free_block_head = 14 ∧ NEXT_FREE_BLOCK s'.data 14 = 0 ∧
      (s'.nodes 0).blocks 0 = 0 := by
  have e1 : (tfs_remove_node exDir ['/', 'c']).map (fun r => r.ret) = some 0 := by decide
  have e2 : (tfs_remove_node exDir ['/', 'c']).map (fun r => (r.st.nodes 0).nlink)
    = some 6656 := by decide
  have e3 : (tfs_remove_node exDir ['/', 'c']).map (fun r =>
    bufWord (tfs_node_read r.st (r.st.nodes 0) (fun _ => 0) (NODE_SIZE (r.st.nodes 0)) 0).buf 0)
    = some 15 := by decide
  have e4 : (tfs_remove_node exDir ['/', 'c']).map (fun r => r.st.free_block_head)
    = some 14 := by decide
  have e5 : (tfs_remove_node exDir ['/', 'c']).map (fun r => NEXT_FREE_BLOCK r.st.data 14)
    = some 0 := by decide
  have e6 : (tfs_remove_node exDir ['/', 'c']).map (fun r => (r.st.nodes 0).blocks 0)
    = some 0 := by decide
  refine ⟨?_, ?_, ?_, by decide, ?_⟩
  · rw [children_length]; rfl
  · rw [children_getElem _ _ 0 (by decide)]
    exact congrArg some (by decide)
  · rw [children_getElem _ _ 6656 (by decide)]
    exact congrArg some (by decide)
  · cases h : tfs_remove_node exDir ['/', 'c'] with
    | none => rw [h] at e1; exact absurd e1 (by simp)
    | some r =>
      rw [h] at e1 e2 e3 e4 e5 e6
      simp only [Option.map_some', Option.some.injEq] at e1 e2 e3 e4 e5 e6
      obtain ⟨ret, s⟩ := r
      simp only at e1 e2 e3 e4 e5 e6
      subst e1
      refine ⟨s, rfl, ?_, ?_, e4, e5, e6⟩
      · rw [children_length, e2]
      · rw [children_getElem _ _ 0 (by rw [e2]; decide), e3]

theorem node_size_dir (n : tfs_node) (h : n.isDir = true) :
    NODE_SIZE n = (n.nlink * 8) % 18446744073709551616 := by
  unfold NODE_SIZE
  simp [h]

theorem node_size_dir_small (n : tfs_node) (h : n.isDir = true)
    (hs : n.nlink * 8 < 18446744073709551616) : NODE_SIZE n = n.nlink * 8 := by
  rw [node_size_dir n h, Nat.mod_eq_of_lt hs]

theorem nowrap_small (n : tfs_node) (hw : NoWrap n) (h : n.isDir = true) :
    n.nlink * 8 < 18446744073709551616 := by
  have := hw h
  simp only [BLOCK_SIZE] at this
  omega

theorem leValue_congr (f g : Nat → Nat) (o o' : Nat) (h : ∀ j, j < 8 → f (o + j) = g (o' + j)) :
    leValue f o = leValue g o' := by
  unfold leValue
  have h0 := h 0 (by omega)
  rw [Nat.add_zero, Nat.add_zero] at h0
  rw [h0, h 1 (by omega), h 2 (by omega), h 3 (by omega), h 4 (by omega), h 5 (by omega),
    h 6 (by omega), h 7 (by omega)]

theorem children_word (st : tfs_info) (node : tfs_node) (i : Nat) (hdir : node.isDir = true)
    (hw : NoWrap node)
    (hS : NODE_SIZE node ≤ node.nblocks * BLOCK_SIZE) (hcap : (node.nblocks : Int) ≤ CAPACITY)
    (hi : i < node.nlink) :
    bufWord (tfs_node_read st node (fun _ => 0) (NODE_SIZE node) 0).buf i =
      rd64 st.data (lblk st.data node ((i / 512 : Nat) : Int)) ((i % 512 : Nat) : Int) := by
  obtain ⟨_, r2⟩ := tfs_node_read_spec st node (fun _ => 0) (NODE_SIZE node) 0 hS hcap
    (by omega)
  have hsz := node_size_nowrap node hw hdir
  have key : leValue (tfs_node_read st node (fun _ => 0) (NODE_SIZE node) 0).buf (8 * i) =
      leValue (st.data (lblk st.data node ((i / 512 : Nat) : Int)))
        (8 * ((i % 512 : Nat) : Int).toNat) := by
    apply leValue_congr
    intro j hj
    rw [r2 (8 * i + j), if_pos (by omega)]
    unfold file_byte
    have e1 : (0 + (8 * i + j)) / BLOCK_SIZE = i / 512 := by
      simp only [BLOCK_SIZE]; omega
    have e2 : (0 + (8 * i + j)) % BLOCK_SIZE = 8 * ((i % 512 : Nat) : Int).toNat + j := by
      simp only [BLOCK_SIZE]; omega
    rw [e1, e2]
  unfold bufWord rd64
  rw [key]

theorem tfs_add_node_unfold (st : tfs_info) (path : List Char) (mode : Nat) (par : Int)
    (h1 : get_node st path = none) (h2 : st.free_node_head ≠ END_NODES)
    (h3 : (basename path).length + 1 ≤ NAME_LIMIT) (h4 : get_directory st path = some par) :
    ∃ st2 t, st2 = { st with
        free_node_head := (st.nodes st.free_node_head).next,
        nodes := set_inode st.nodes st.free_node_head
          (init_node (st.nodes st.free_node_head) (basename path) mode) } ∧
      t = tfs_node_trim st2
        { st2.nodes par with size := ((st2.nodes par).nlink + 1) % 18446744073709551616 } ∧
      tfs_add_node st path mode = some ⟨0, set_node { t.st with
        nodes := set_inode t.st.nodes par t.node,
        data := wr64 t.st.data
          (block_seek t.st t.node DEFINE_BLOCK_CURSOR ((t.node.nblocks : Int) - 1)).ret
          (((t.node.nlink : Int) - 1) % BLOCK_MAX_CHILDREN) st.free_node_head }
        path (some st.free_node_head)⟩ := by
  have hdir : get_directory { st with
      free_node_head := (st.nodes st.free_node_head).next,
      nodes := set_inode st.nodes st.free_node_head
        (init_node (st.nodes st.free_node_head) (basename path) mode) } path = some par := h4
  refine ⟨_, _, rfl, rfl, ?_⟩
  unfold tfs_add_node
  rw [h1]
  simp only [Option.isSome_none, Bool.false_eq_true, if_false, h2]
  rw [if_neg (by omega), hdir]

theorem dir_slot_append (st2 : tfs_info) (N0 : tfs_node) (t : node_result) (P : tfs_node)
    (d0 : Int → Nat → Nat) (head : Int) (hin : InI64 head)
    (hd2 : st2.data = d0) (hb : N0.blocks = P.blocks) (hib : N0.iblocks = P.iblocks)
    (hn0 : N0.nblocks = P.nblocks) (hnbP : P.nblocks = NODE_NRBLOCKS P)
    (hdirP : P.isDir = true) (hwP : NoWrap P)
    (hg : Grown st2 N0 t.st t.node N0.nblocks)
    (hinj : Inj t.st.data t.node t.node.nblocks 0)
    (tnb : t.node.nblocks = P.nlink / 512 + 1)
    (hcapt : (t.node.nblocks : Int) ≤ CAPACITY) :
    (∀ j : Nat, j < t.node.nblocks →
      lblk (wr64 t.st.data (lblk t.st.data t.node ((t.node.nblocks : Int) - 1))
        ((P.nlink % 512 : Nat) : Int) head) t.node j = lblk t.st.data t.node j) ∧
    (∀ i : Nat, i < P.nlink →
      rd64 (wr64 t.st.data (lblk t.st.data t.node ((t.node.nblocks : Int) - 1))
        ((P.nlink % 512 : Nat) : Int) head) (lblk t.st.data t.node ((i / 512 : Nat) : Int))
        ((i % 512 : Nat) : Int) =
      rd64 d0 (lblk d0 P ((i / 512 : Nat) : Int)) ((i % 512 : Nat) : Int)) ∧
    rd64 (wr64 t.st.data (lblk t.st.data t.node ((t.node.nblocks : Int) - 1))
        ((P.nlink % 512 : Nat) : Int) head) (lblk t.st.data t.node ((t.node.nblocks : Int) - 1))
        ((P.nlink % 512 : Nat) : Int) = head := by
  have hlast0 : (0 : Int) ≤ (t.node.nblocks : Int) - 1 := by omega
  have hlastn : (t.node.nblocks : Int) - 1 < (t.node.nblocks : Int) := by omega
  refine ⟨?_, ?_, rd64_wr64_same _ _ _ _ hin⟩
  · intro j hj
    have hj' : (j : Int) < (t.node.nblocks : Int) := by exact_mod_cast hj
    apply lblk_frame t.st.data _ t.node t.node.nblocks j _ (Int.natCast_nonneg _) hj'
      (by omega)
    exact write_block_frame t.st.data _ t.node t.node.nblocks ((t.node.nblocks : Int) - 1)
      hinj hlast0 hlastn (by omega) (fun b o hbne => wr64_other_block _ _ _ _ b o hbne)
  · intro i hi
    have hnsP := node_size_nowrap P hwP hdirP
    have hjP : i / 512 < P.nblocks := by
      rw [hnbP, nrblocks_nowrap P hwP, hnsP]
      simp only [BLOCK_SIZE]
      omega
    have hjt : i / 512 < t.node.nblocks := by omega
    have hjt' : ((i / 512 : Nat) : Int) < (t.node.nblocks : Int) := by exact_mod_cast hjt
    rw [rd64_wr64_other _ _ _ _ _ _ (Int.natCast_nonneg _) (Int.natCast_nonneg _) (by
      by_cases hq : i / 512 = P.nlink / 512
      · right
        intro h
        have : i % 512 = P.nlink % 512 := by exact_mod_cast h
        omega
      · left
        intro h
        have := lblk_inj t.st.data t.node t.node.nblocks _ _ hinj (Int.natCast_nonneg _) hjt'
          (by omega) hlast0 hlastn (by omega) h
        omega)]
    have hjn0 : ((i / 512 : Nat) : Int) < (N0.nblocks : Int) := by
      rw [hn0]; exact_mod_cast hjP
    obtain ⟨l1, l2, _⟩ := leaf_facts ((i / 512 : Nat) : Int) N0.nblocks 0
      (Int.natCast_nonneg _) hjn0 (by omega)
    have e1 : lblk t.st.data t.node ((i / 512 : Nat) : Int) =
        lblk d0 P ((i / 512 : Nat) : Int) := by
      unfold lblk
      rw [hg.1 _ l1, hd2]
      exact phys_node d0 P N0 hb hib _
    rw [e1]
    apply rd64_congr
    intro o
    have := hg.2.1 _ l1 l2 o
    rw [hd2, phys_node d0 P N0 hb hib _] at this
    exact this

/-- Success of `tfs_add_node` while the cache can take the path.  When `path` is
not cached and the table has room for it (`HasRoom`), a free inode
exists (other than the parent), the basename fits, the parent is a cached
directory whose block count matches its link count, whose blocks are pairwise
distinct and apart from the free-block list, and which has room to grow (within
capacity, the new link count below the wrap of the size arithmetic, with the
free blocks a new directory block needs): `tfs_add_node`
returns 0 and afterwards (a) the new inode is the former head of the free-inode
list and the head is its `next`; (b) the parent's `nlink` is one larger and
`tfs_node_children(parent)` is the old list with the new inode appended, for every
previous child count; (c) the new inode has the basename as name, the given mode,
`nblocks = 0` and `size = 0`; (d) `get_node(path)` is the new inode. -/
theorem tfs_add_node_appends (st : tfs_info) (path : List Char) (mode : Nat) (par : Int)
    (fl : List Int)
    (hnew : get_node st path = none) (hfree : st.free_node_head ≠ END_NODES)
    (hin : InI64 st.free_node_head) (hname : (basename path).length + 1 ≤ NAME_LIMIT)
    (hpar : get_directory st path = some par) (hne : par ≠ st.free_node_head)
    (hdir : (st.nodes par).isDir = true)
    (hnb : (st.nodes par).nblocks = NODE_NRBLOCKS (st.nodes par))
    (hcap : (NODE_NRBLOCKS { st.nodes par with size := (st.nodes par).nlink + 1 } : Int)
      ≤ CAPACITY)
    (hwf : WF st.data (st.nodes par) st.free_block_head fl (st.nodes par).nblocks 0)
    (hroom : need (st.nodes par).nblocks
      (NODE_NRBLOCKS { st.nodes par with size := (st.nodes par).nlink + 1 } -
        (st.nodes par).nblocks) ≤ (fl.length : Int))
    (hnw : NoWrap { st.nodes par with size := (st.nodes par).nlink + 1 })
    (hroomc : HasRoom st path) :
    ∃ s', tfs_add_node st path mode = some ⟨0, s'⟩ ∧
      get_node s' path = some st.free_node_head ∧
      s'.free_node_head = (st.nodes st.free_node_head).next ∧
      (s'.nodes par).nlink = (st.nodes par).nlink + 1 ∧
      tfs_node_children s' (s'.nodes par) =
        tfs_node_children st (st.nodes par) ++ [st.free_node_head] ∧
      (s'.nodes st.free_node_head).name = basename path ∧
      (s'.nodes st.free_node_head).mode = mode ∧
      (s'.nodes st.free_node_head).nblocks = 0 ∧
      (s'.nodes st.free_node_head).size = 0 := by
  obtain ⟨st2, t, hst2, ht, hadd⟩ := tfs_add_node_unfold st path mode par hnew hfree hname hpar
  have hd2 : st2.data = st.data := by rw [hst2]
  have hh2 : st2.free_block_head = st.free_block_head := by rw [hst2]
  have hp2 : st2.nodes par = st.nodes par := by
    rw [hst2]
    simp [set_inode, hne]
  have hhead2 : st2.nodes st.free_node_head =
      init_node (st.nodes st.free_node_head) (basename path) mode := by
    rw [hst2]
    simp [set_inode]
  have hf2 : st2.free_node_head = (st.nodes st.free_node_head).next := by rw [hst2]
  have hroom2 : HasRoom st2 path :=
    hasRoom_of_eq st st2 path (by rw [hst2]) (by rw [hst2]) (by rw [hst2]) hroomc
  rw [hp2] at ht
  clear hst2
  obtain ⟨P, hP⟩ : ∃ P, P = st.nodes par := ⟨_, rfl⟩
  rw [← hP] at hdir hnb hcap hwf hroom ht hnw ⊢
  have hlt : P.nlink + 1 < 18446744073709551616 := by
    have h := hnw ((isDir_of_mode _ P rfl).trans hdir)
    simp only [BLOCK_SIZE, tfs_node.nlink] at h ⊢
    omega
  rw [Nat.mod_eq_of_lt hlt] at ht
  obtain ⟨N0, hN0⟩ : ∃ N, N = ({ P with size := P.nlink + 1 } : tfs_node) := ⟨_, rfl⟩
  rw [← hN0] at hcap hroom ht hnw
  have hN0b : N0.blocks = P.blocks := by rw [hN0]
  have hN0i : N0.iblocks = P.iblocks := by rw [hN0]
  have hN0n : N0.nblocks = P.nblocks := by rw [hN0]
  have hN0s : N0.size = P.nlink + 1 := by rw [hN0]
  have hN0d : N0.isDir = true := by rw [isDir_of_mode N0 P (by rw [hN0])]; exact hdir
  have hwP : NoWrap P := by
    intro _
    have h := hnw hN0d
    simp only [BLOCK_SIZE, tfs_node.nlink, hN0s] at h ⊢
    omega
  have hnsP := node_size_nowrap P hwP hdir
  have hns0 : NODE_SIZE N0 = (P.nlink + 1) * 8 := by
    rw [node_size_nowrap N0 hnw hN0d]
    show N0.size * 8 = _
    rw [hN0s]
  have hle : N0.nblocks ≤ NODE_NRBLOCKS N0 := by
    have := nrblocks_mono P N0 hwP hnw (by rw [hnsP, hns0]; omega)
    omega
  have hwf0 : WF st2.data N0 st2.free_block_head fl N0.nblocks 0 := by
    rw [hd2, hh2, hN0n]
    exact wf_node _ P N0 _ _ _ _ hN0b hN0i hwf
  rw [← hN0n] at hroom
  have htrim := trim_enough st2 N0 fl hle hcap hwf0 hroom
  obtain ⟨t1, t2, _, t4, _⟩ := tfs_node_trim_spec st2 N0
  have hgrow := trim_grow st2 N0 fl hle (Or.inl hcap) hwf0 (Or.inl htrim)
  obtain ⟨k1, k2, k3, _, _, k6, k7⟩ := tfs_node_trim_keepsTables st2 N0
  rw [← ht] at htrim t1 t2 t4 hgrow k1 k2 k3 k6 k7
  obtain ⟨hge, bs, fl1, _, _, hwf1, hg, _⟩ := hgrow
  have tsz : t.node.size = P.nlink + 1 := by rw [(t4 hnw).mp htrim, hN0s]
  have tdir : t.node.isDir = true := by rw [isDir_of_mode t.node N0 t2]; exact hN0d
  have hwt : NoWrap t.node := nowrap_of_mode_size t.node N0 t2 (tsz.trans hN0s.symm) hnw
  have tns : NODE_SIZE t.node = (P.nlink + 1) * 8 := by
    rw [node_size_nowrap t.node hwt tdir]
    show t.node.size * 8 = _
    rw [tsz]
  have tnb : t.node.nblocks = P.nlink / 512 + 1 := by
    rw [t1, nrblocks_nowrap _ hwt, tns]
    simp only [BLOCK_SIZE]
    omega
  have hS : NODE_SIZE t.node ≤ t.node.nblocks * BLOCK_SIZE := by
    rw [t1]; exact nrblocks_cover _ hwt
  have hcapt : (t.node.nblocks : Int) ≤ CAPACITY := by
    have : NODE_NRBLOCKS t.node = NODE_NRBLOCKS N0 := by
      rw [nrblocks_nowrap _ hwt, nrblocks_nowrap _ hnw, tns, hns0]
    rw [t1, this]
    exact hcap
  obtain ⟨hseek, _⟩ := block_seek_spec t.st t.node DEFINE_BLOCK_CURSOR
    ((t.node.nblocks : Int) - 1) (by omega) (by omega) (fun _ => ⟨rfl, rfl, rfl⟩)
  have hslot : ((t.node.nlink : Int) - 1) % (BLOCK_MAX_CHILDREN : Int) =
      ((P.nlink % 512 : Nat) : Int) := by
    show ((t.node.size : Int) - 1) % _ = _
    rw [tsz]
    simp only [BLOCK_MAX_CHILDREN]
    omega
  rw [hseek, hslot] at hadd
  obtain ⟨A, B, C⟩ := dir_slot_append st2 N0 t P st.data st.free_node_head hin hd2 hN0b hN0i
    hN0n hnb hdir hwP hg hwf1.2.2.1 tnb hcapt
  obtain ⟨s', hs'⟩ : ∃ s, s = set_node { t.st with
      nodes := set_inode t.st.nodes par t.node,
      data := wr64 t.st.data (lblk t.st.data t.node ((t.node.nblocks : Int) - 1))
        ((P.nlink % 512 : Nat) : Int) st.free_node_head } path (some st.free_node_head) :=
    ⟨_, rfl⟩
  rw [← hs'] at hadd
  have hsd : s'.data = wr64 t.st.data (lblk t.st.data t.node ((t.node.nblocks : Int) - 1))
      ((P.nlink % 512 : Nat) : Int) st.free_node_head := by
    rw [hs', (set_node_frame _ _ _).2.1]
  have hsp : s'.nodes par = t.node := by
    rw [hs', (set_node_frame _ _ _).1]
    show set_inode t.st.nodes par t.node par = _
    simp [set_inode]
  have hsh : s'.nodes st.free_node_head =
      init_node (st.nodes st.free_node_head) (basename path) mode := by
    rw [hs', (set_node_frame _ _ _).1]
    show set_inode t.st.nodes par t.node st.free_node_head = _
    unfold set_inode
    rw [if_neg (fun h => hne h.symm), k1, hhead2]
  have hsf : s'.free_node_head = (st.nodes st.free_node_head).next := by
    rw [hs', (set_node_frame _ _ _).2.2.1]
    show t.st.free_node_head = _
    rw [k3, hf2]
  have hsg : get_node s' path = some st.free_node_head := by
    rw [hs']
    exact set_node_get _ _ _ (hasRoom_of_eq st2 _ path k2 k6 k7 hroom2)
  clear hs'
  have tnl : t.node.nlink = P.nlink + 1 := tsz
  have hSP : NODE_SIZE P ≤ P.nblocks * BLOCK_SIZE := by
    rw [hnb]; exact nrblocks_cover _ hwP
  have hcapP : (P.nblocks : Int) ≤ CAPACITY := by omega
  refine ⟨s', hadd, hsg, hsf, by rw [hsp]; exact tnl, ?_, ?_, ?_, ?_, ?_⟩
  · rw [hsp]
    apply List.ext_getElem?
    intro i
    rcases Nat.lt_trichotomy i P.nlink with hi | hi | hi
    · rw [children_getElem s' t.node i (by omega),
        children_word s' t.node i tdir hwt hS hcapt (by omega), hsd,
        A (i / 512) (by omega), B i hi,
        List.getElem?_append_left (by rw [children_length]; exact hi),
        children_getElem st P i hi, children_word st P i hdir hwP hSP hcapP hi]
    · subst hi
      have e : P.nlink / 512 = t.node.nblocks - 1 := by omega
      have e' : ((P.nlink / 512 : Nat) : Int) = (t.node.nblocks : Int) - 1 := by omega
      rw [children_getElem s' t.node _ (by omega),
        children_word s' t.node _ tdir hwt hS hcapt (by omega), hsd,
        A (P.nlink / 512) (by omega), e', C,
        List.getElem?_append_right (by rw [children_length]), children_length]
      simp
    · rw [List.getElem?_eq_none (by rw [children_length]; omega),
        List.getElem?_eq_none (by
          rw [List.length_append, children_length, List.length_singleton]; omega)]
  · rw [hsh]; exact (init_node_facts _ _ _).2.2.2
  · rw [hsh]; exact (init_node_facts _ _ _).2.2.1
  · rw [hsh]; exact (init_node_facts _ _ _).2.1
  · rw [hsh]; exact (init_node_facts _ _ _).1

theorem tfs_add_node_appends_witness :
    ∃ s', tfs_add_node (exImage 4) ['/', 'a'] 33188 = some ⟨0, s'⟩ ∧
      get_node s' ['/', 'a'] = some (exImage 4).free_node_head ∧
      s'.free_node_head = ((exImage 4).nodes (exImage 4).free_node_head).next ∧
      (s'.nodes 0).nlink = ((exImage 4).nodes 0).nlink + 1 ∧
      tfs_node_children s' (s'.nodes 0) =
        tfs_node_children (exImage 4) ((exImage 4).nodes 0) ++ [(exImage 4).free_node_head] ∧
      (s'.nodes (exImage 4).free_node_head).name = basename ['/', 'a'] ∧
      (s'.nodes (exImage 4).free_node_head).mode = 33188 ∧
      (s'.nodes (exImage 4).free_node_head).nblocks = 0 ∧
      (s'.nodes (exImage 4).free_node_head).size = 0 :=
  tfs_add_node_appends (exImage 4) ['/', 'a'] 33188 0 [0, 1, 2, 3]
    (by decide) (by decide) ⟨by decide, by decide⟩ (by decide) (by decide) (by decide)
    (by decide) (by decide) (by decide)
    (wf_fresh _ _ _ _ exImage_freelist (by decide)) (by decide)
    (fun _ => by decide) (Or.inr (by decide))

theorem need_ge (n : Int) (k : Nat) : (k : Int) ≤ need n k := by
  induction k generalizing n with
  | zero => exact le_refl _
  | succ k ih =>
    have h1 := cl_le_lvl n
    have h2 := ih (n + 1)
    show ((k + 1 : Nat) : Int) ≤ (lvl n + 1 - cl n) + need (n + 1) k
    push_cast
    omega

theorem need_direct (n : Int) (k : Nat) (h0 : 0 ≤ n) (h : n + k ≤ 12) : need n k = k := by
  induction k generalizing n with
  | zero => rfl
  | succ k ih =>
    have h2 := ih (n + 1) (by omega) (by push_cast at h; omega)
    show (lvl n + 1 - cl n) + need (n + 1) k = ((k + 1 : Nat) : Int)
    have e1 : lvl n = -1 := lvl_direct n (by push_cast at h; omega)
    have e2 : cl n = -1 := by
      unfold cl
      rw [if_pos (by push_cast at h; omega)]
    rw [h2, e1, e2]
    push_cast
    omega

/-- C6: out-of-space partial write.  For an empty regular file on an image whose
free-block list `fl` is a proper chain without repetition of `f` blocks,
`0 < f ≤ DIRECT_BLOCKS`, and every buffer of `n` bytes needing more than `f`
blocks: `tfs_node_write(node, buf, n, 0)` returns `-ENOSPC` and leaves
`size = f * BLOCK_SIZE`, `nblocks = f`, an empty free-block list, and the first
`f * BLOCK_SIZE` bytes of the file equal to those of `buf`. -/
theorem tfs_node_write_out_of_space (st : tfs_info) (node : tfs_node) (buf : Nat → Nat)
    (n : Nat) (fl : List Int) (hfile : node.isDir = false) (hnb0 : node.nblocks = 0)
    (hsz0 : node.size = 0) (hlist : IsFreeList st.data st.free_block_head fl)
    (hnd : fl.Nodup) (hf0 : 0 < fl.length) (hf12 : (fl.length : Int) ≤ DIRECT_BLOCKS)
    (hn : fl.length < NODE_NRBLOCKS { node with size := n }) :
    (tfs_node_write st node buf n 0).ret = -ENOSPC ∧
    (tfs_node_write st node buf n 0).node.size = fl.length * BLOCK_SIZE ∧
    (tfs_node_write st node buf n 0).node.nblocks = fl.length ∧
    (tfs_node_write st node buf n 0).st.free_block_head = END_BLOCKS ∧
    ∀ p, p < fl.length * BLOCK_SIZE →
      file_byte (tfs_node_write st node buf n 0).st.data (tfs_node_write st node buf n 0).node p
        = buf p := by
  simp only [DIRECT_BLOCKS] at hf12
  have hmax : max node.size (0 + n) = n := by rw [hsz0]; simp
  obtain ⟨N0, hN0⟩ : ∃ N, N = ({ node with size := n } : tfs_node) := ⟨_, rfl⟩
  rw [← hN0] at hn
  have hN0n : N0.nblocks = 0 := by rw [hN0]; exact hnb0
  have hN0d : N0.isDir = false := by rw [isDir_of_mode N0 node (by rw [hN0])]; exact hfile
  have hN0s : NODE_SIZE N0 = n := by rw [node_size_file N0 hN0d, hN0]
  have hwf0 : WF st.data N0 st.free_block_head fl N0.nblocks 0 := by
    rw [hN0n]
    exact wf_fresh _ _ _ _ hlist hnd
  have hnbig : fl.length * BLOCK_SIZE < n := by
    have hn' := hn
    rw [nrblocks_nowrap N0 (nowrap_file N0 hN0d), hN0s] at hn'
    clear hwf0 hlist hnd hN0 hN0n hN0d hN0s hn hmax hfile hnb0 hsz0
    simp only [BLOCK_SIZE] at hn' ⊢
    omega
  obtain ⟨t1, t2, t3, t4, t5, _, t7⟩ := tfs_node_trim_spec st N0
  have hgrow := trim_grow st N0 fl (by omega)
    (Or.inr (by rw [hN0n]; simp only [CAPACITY]; push_cast; omega)) hwf0
  unfold tfs_node_write
  dsimp only
  rw [hmax, ← hN0]
  generalize tfs_node_trim st N0 = t at t1 t2 t3 t4 t5 t7 hgrow ⊢
  rw [hN0n] at hgrow t5
  obtain ⟨_, bs, fl1, hfl, hlen, hwf1, hg, _⟩ := hgrow (by
    by_cases h12 : t.node.nblocks < 12
    · exact Or.inr (Or.inl h12)
    · right; right
      have := need_ge ((0 : Nat) : Int) (t.node.nblocks - 0)
      omega)
  have hk : t.node.nblocks ≤ fl.length := by
    have h1 := need_ge ((0 : Nat) : Int) (t.node.nblocks - 0)
    have h2 : bs.length ≤ fl.length := by rw [hfl, List.length_append]; omega
    omega
  have hret : t.ret = -ENOSPC := t5.mpr ⟨by omega, by omega⟩
  obtain ⟨hend, hsize⟩ := t7 hret
  have hfl1 : fl1 = [] := by
    have := hwf1.1
    rw [hend] at this
    exact freelist_end _ _ this
  have hkf : t.node.nblocks = fl.length := by
    have h1 := need_direct ((0 : Nat) : Int) (t.node.nblocks - 0) (le_refl _)
      (by push_cast; omega)
    have h2 : bs.length = fl.length := by rw [hfl, hfl1, List.append_nil]
    omega
  rw [hN0d] at hsize
  simp only [Bool.false_eq_true, if_false] at hsize
  have tdir : t.node.isDir = false := by rw [isDir_of_mode t.node N0 t2]; exact hN0d
  have tns : NODE_SIZE t.node = t.node.nblocks * BLOCK_SIZE := by
    rw [node_size_file _ tdir, hsize]
  obtain ⟨w1, e, he, w2, w3, _, w5⟩ := write_after t.st t.node buf n 0 (by rw [tns])
    (by simp only [CAPACITY]; omega) hwf1.2.2.1
  generalize write_loop t.node buf n t.st
    (block_seek t.st t.node DEFINE_BLOCK_CURSOR ((0 / BLOCK_SIZE : Nat) : Int)).cursor
    (block_seek t.st t.node DEFINE_BLOCK_CURSOR ((0 / BLOCK_SIZE : Nat) : Int)).ret
    0 n 0 = w at w1 he w2 w3 w5 ⊢
  have hneg : t.ret < 0 := by rw [hret]; decide
  rw [if_pos hneg]
  have hebig : fl.length * BLOCK_SIZE ≤ e := by
    rcases w2 with h | h
    · rw [h, Nat.zero_add]
      exact le_of_lt hnbig
    · rw [tns, hkf] at h
      exact h
  refine ⟨by rw [hret]; decide, by rw [hsize, hkf], hkf, ?_, ?_⟩
  · show w.st.free_block_head = END_BLOCKS
    rw [w5]
    exact hend
  · intro p hp
    show file_byte w.st.data t.node p = buf p
    rw [w3 p (by rw [hkf]; exact hp), if_pos ⟨Nat.zero_le _, lt_of_lt_of_le hp hebig⟩,
      Nat.sub_zero]

theorem exImage5_freelist :
    IsFreeList (exImage 5).data (exImage 5).free_block_head [0, 1, 2, 3, 4] := by
  refine ⟨by decide, by decide, ⟨by decide, by decide⟩, ?_⟩
  rw [show NEXT_FREE_BLOCK (exImage 5).data 0 = 1 by decide]
  refine ⟨rfl, by decide, ⟨by decide, by decide⟩, ?_⟩
  rw [show NEXT_FREE_BLOCK (exImage 5).data 1 = 2 by decide]
  refine ⟨rfl, by decide, ⟨by decide, by decide⟩, ?_⟩
  rw [show NEXT_FREE_BLOCK (exImage 5).data 2 = 3 by decide]
  refine ⟨rfl, by decide, ⟨by decide, by decide⟩, ?_⟩
  rw [show NEXT_FREE_BLOCK (exImage 5).data 3 = 4 by decide]
  refine ⟨rfl, by decide, ⟨by decide, by decide⟩, ?_⟩
  show NEXT_FREE_BLOCK (exImage 5).data 4 = END_BLOCKS
  decide

theorem tfs_node_write_out_of_space_witness :
    (tfs_node_write (exImage 5) exFile exHello 40960 0).ret = -ENOSPC ∧
    (tfs_node_write (exImage 5) exFile exHello 40960 0).node.size = 5 * BLOCK_SIZE ∧
    (tfs_node_write (exImage 5) exFile exHello 40960 0).node.nblocks = 5 ∧
    (tfs_node_write (exImage 5) exFile exHello 40960 0).st.free_block_head = END_BLOCKS ∧
    ∀ p, p < 5 * BLOCK_SIZE →
      file_byte (tfs_node_write (exImage 5) exFile exHello 40960 0).st.data
        (tfs_node_write (exImage 5) exFile exHello 40960 0).node p = exHello p :=
  tfs_node_write_out_of_space (exImage 5) exFile exHello 40960 [0, 1, 2, 3, 4]
    (by decide) (by decide) (by decide) exImage5_freelist (by decide) (by decide) (by decide)
    (by decide)

theorem need_thirteen : need 0 13 = 14 := by decide

set_option maxRecDepth 100000 in
theorem exDirMid_nlink : (exDirMid.nodes 0).nlink = 6657 := by
  decide!

set_option maxRecDepth 100000 in
theorem exDirMid_remove_head :
    (tfs_remove_node exDirMid ['/', 'c']).map (fun r => r.st.free_node_head) = some 6145 := by
  decide!

set_option maxRecDepth 100000 in
theorem exDirMid_slot_6144 :
    bufWord (tfs_node_read exDirMid (exDirMid.nodes 0) (fun _ => 0)
      (NODE_SIZE (exDirMid.nodes 0)) 0).buf 6144 = 6145 := by
  decide!

set_option maxRecDepth 100000 in
theorem exDirMid_slot_6656 :
    bufWord (tfs_node_read exDirMid (exDirMid.nodes 0) (fun _ => 0)
      (NODE_SIZE (exDirMid.nodes 0)) 0).buf 6656 = 6657 := by
  decide!

set_option maxRecDepth 100000 in
theorem exDirMid_remove_nlink :
    (tfs_remove_node exDirMid ['/', 'c']).map (fun r => (r.st.nodes 0).nlink) = some 6656 := by
  decide!

set_option maxRecDepth 100000 in
theorem exDirMid_remove_slot :
    (tfs_remove_node exDirMid ['/', 'c']).map (fun r =>
      bufWord (tfs_node_read r.st (r.st.nodes 0) (fun _ => 0) (NODE_SIZE (r.st.nodes 0)) 0).buf
        6144) = some 6145 := by
  decide!

set_option maxRecDepth 100000 in
/-- C22 (evaluation at the failing input): `block_seek` to a direct position
leaves the slots `pos[]` of an earlier seek in place.  On `exBigFile` (14 blocks:
logical blocks 12 and 13 are blocks 13 and 14) a fresh cursor seeked to 0 and a
cursor seeked to 13 and then to 0 both return block 0 and sit on index 0, but the
following calls of `next_block` return the blocks `1..11, 13, 14, END` for the
first and `1..11, 14, 0, END` for the second: it skips logical block 12 and reads
slot 2 of the index block.  This is the cursor of the scan in `tfs_remove_node`:
in `exDirMid` the child `"/c"` (inode 6145) sits in logical block 12 of the root;
the scan never sees that block, so after `tfs_remove_node("/c")` returns 0 with
`nlink = 6656`, slot 6144 of the directory still holds the freed inode 6145
instead of the former last child 6657. -/
theorem block_seek_direct_keeps_stale_slots :
    (block_seek exBig exBigFile DEFINE_BLOCK_CURSOR 0).ret = 0 ∧
    (block_seek exBig exBigFile
      (block_seek exBig exBigFile DEFINE_BLOCK_CURSOR 13).cursor 0).ret = 0 ∧
    (block_seek exBig exBigFile DEFINE_BLOCK_CURSOR 0).cursor.i = 0 ∧
    (block_seek exBig exBigFile
      (block_seek exBig exBigFile DEFINE_BLOCK_CURSOR 13).cursor 0).cursor.i = 0 ∧
    next_blocks exBig exBigFile 14 (block_seek exBig exBigFile DEFINE_BLOCK_CURSOR 0).cursor =
      [1, 2, 3, 4, 5, 6, 7, 8, 9, 10, 11, 13, 14, END_BLOCKS] ∧
    next_blocks exBig exBigFile 14 (block_seek exBig exBigFile
      (block_seek exBig exBigFile DEFINE_BLOCK_CURSOR 13).cursor 0).cursor =
      [1, 2, 3, 4, 5, 6, 7, 8, 9, 10, 11, 14, 0, END_BLOCKS] ∧
    get_node exDirMid ['/', 'c'] = some 6145 ∧
    (tfs_node_children exDirMid (exDirMid.nodes 0))[6144]? = some 6145 ∧
    (tfs_node_children exDirMid (exDirMid.nodes 0))[6656]? = some 6657 ∧
    ∃ s', tfs_remove_node exDirMid ['/', 'c'] = some ⟨0, s'⟩ ∧
      s'.free_node_head = 6145 ∧
      (tfs_node_children s' (s'.nodes 0)).length = 6656 ∧
      (tfs_node_children s' (s'.nodes 0))[6144]? = some 6145 := by
  have e1 : (tfs_remove_node exDirMid ['/', 'c']).map (fun r => r.ret) = some 0 := by decide
  have e2 := exDirMid_remove_nlink
  have e3 := exDirMid_remove_slot
  have e4 := exDirMid_remove_head
  refine ⟨by decide, by decide, by decide, by decide, by decide, by decide, by decide,
    ?_, ?_, ?_⟩
  · rw [children_getElem exDirMid (exDirMid.nodes 0) 6144 (by rw [exDirMid_nlink]; decide),
      exDirMid_slot_6144]
  · rw [children_getElem exDirMid (exDirMid.nodes 0) 6656 (by rw [exDirMid_nlink]; decide),
      exDirMid_slot_6656]
  · cases h : tfs_remove_node exDirMid ['/', 'c'] with
    | none => rw [h] at e1; exact absurd e1 (by simp)
    | some r =>
      rw [h] at e1 e2 e3 e4
      simp only [Option.map_some', Option.some.injEq] at e1 e2 e3 e4
      obtain ⟨ret, s⟩ := r
      simp only at e1 e2 e3 e4
      subst e1
      refine ⟨s, rfl, e4, ?_, ?_⟩
      · rw [children_length, e2]
      · rw [children_getElem _ _ 6144 (by rw [e2]; decide), e3]

theorem block_seek_reads_twelve (st : tfs_info) (node : tfs_node) (c : block_cursor)
    (hnb : node.nblocks = 12) :
    block_seek_reads st node c 12 = [node.iblocks 0] := by
  unfold block_seek_reads
  rw [hnb]
  have hF : FLOG ((12 : Int) - DIRECT_BLOCKS + 1 - ((12 : Int) - DIRECT_BLOCKS + 1) /
      (BLOCK_MAX_POINTERS : Int)) = 0 := by decide
  dsimp only
  rw [if_neg (by decide), if_neg (by decide), hF]
  simp [seek_loop_reads, seek_loop, seek_clear, CURRENT_BLOCK_reads, aset, ILEVELS, DIRECT_BLOCKS]
/-- C23 (the code at the failing input): for a regular file of exactly 12 blocks
(`size = 12 * BLOCK_SIZE`) a read at `offset = size` loads one block of the data
region, the index block `iblocks[0]`: `block_seek(12)` passes the test
`pos > nblocks`, leaves the direct range and evaluates `CURRENT_BLOCK`.  The place
`iblocks[0]` lies outside the valid prefix of the node, and when its value differs
from the 12 direct block numbers the block loaded is none that the node references
within its first `nblocks` logical blocks. -/
theorem tfs_node_read_loads_stale_index (st : tfs_info) (node : tfs_node) (size : Nat)
    (hfile : node.isDir = false) (hnb : node.nblocks = 12)
    (hsz : node.size = 12 * BLOCK_SIZE)
    (hstale : ∀ i, 0 ≤ i → i < 12 → node.blocks i ≠ node.iblocks 0) :
    tfs_node_read_reads st node size node.size = [node.iblocks 0] ∧
    ¬ Live node.nblocks 0 (TNode.R 0) ∧
    ¬ ∃ x, Live node.nblocks 0 x ∧ phys st.data node x = node.iblocks 0 := by
  refine ⟨?_, ?_, ?_⟩
  · unfold tfs_node_read_reads
    dsimp only
    rw [hsz, show (12 * BLOCK_SIZE / BLOCK_SIZE : Nat) = 12 from rfl]
    have hseek := block_seek_reads_twelve st node DEFINE_BLOCK_CURSOR hnb
    have e : (((12 : Nat) : Int)) = 12 := rfl
    rw [e, hseek]
    have hN : NODE_SIZE node = 12 * BLOCK_SIZE := by rw [node_size_file node hfile, hsz]
    cases size with
    | zero => rfl
    | succ k =>
      unfold read_loop_reads
      rw [if_neg (by rw [hN]; omega)]
      rfl
  · rw [hnb]
    intro h
    obtain ⟨_, h2⟩ := h
    simp only [first, depth] at h2
    norm_num at h2
  · rw [hnb]
    rintro ⟨x, ⟨hv, hl⟩, hp⟩
    rcases x with i | L | ⟨L, a⟩ | ⟨L, a, b⟩ | ⟨a, b, e⟩
    · simp only [Valid] at hv
      simp only [phys] at hp
      exact hstale i hv.1 hv.2 hp
    all_goals
      simp only [Valid, first, depth] at hv hl
      (try split_ifs at hl) <;>
        (rcases hl with h | ⟨_, h⟩ <;> omega)

theorem tfs_node_read_loads_stale_index_witness :
    (tfs_node_trim exBig { exBigFile with size := 49152 }).ret = 0 ∧
    (tfs_node_trim exBig { exBigFile with size := 49152 }).node.nblocks = 12 ∧
    (tfs_node_trim exBig { exBigFile with size := 49152 }).node.size = 49152 ∧
    (tfs_node_trim exBig { exBigFile with size := 49152 }).node.iblocks 0 = 12 ∧
    (tfs_node_trim exBig { exBigFile with size := 49152 }).st.free_block_head = 14 ∧
    NEXT_FREE_BLOCK (tfs_node_trim exBig { exBigFile with size := 49152 }).st.data 14 = 13 ∧
    NEXT_FREE_BLOCK (tfs_node_trim exBig { exBigFile with size := 49152 }).st.data 13 = 12 ∧
    (tfs_node_read_reads (tfs_node_trim exBig { exBigFile with size := 49152 }).st
        (tfs_node_trim exBig { exBigFile with size := 49152 }).node 1
        (tfs_node_trim exBig { exBigFile with size := 49152 }).node.size =
      [(tfs_node_trim exBig { exBigFile with size := 49152 }).node.iblocks 0] ∧
     ¬ Live (tfs_node_trim exBig { exBigFile with size := 49152 }).node.nblocks 0 (TNode.R 0) ∧
     ¬ ∃ x, Live (tfs_node_trim exBig { exBigFile with size := 49152 }).node.nblocks 0 x ∧
       phys (tfs_node_trim exBig { exBigFile with size := 49152 }).st.data
         (tfs_node_trim exBig { exBigFile with size := 49152 }).node x =
       (tfs_node_trim exBig { exBigFile with size := 49152 }).node.iblocks 0) :=
  ⟨by decide, by decide, by decide, by decide, by decide, by decide, by decide,
    tfs_node_read_loads_stale_index (tfs_node_trim exBig { exBigFile with size := 49152 }).st
      (tfs_node_trim exBig { exBigFile with size := 49152 }).node 1 (by decide) (by decide)
      (by decide) (by
        intro i h0 h1
        have hc : i = 0 ∨ i = 1 ∨ i = 2 ∨ i = 3 ∨ i = 4 ∨ i = 5 ∨ i = 6 ∨ i = 7 ∨ i = 8 ∨
            i = 9 ∨ i = 10 ∨ i = 11 := by omega
        rcases hc with h | h | h | h | h | h | h | h | h | h | h | h <;> (subst h; decide))⟩

theorem foldl_invariant {α β : Type} (P : α → Prop) (f : α → β → α) :
    ∀ (l : List β) (s : α), P s → (∀ s c, P s → P (f s c)) → P (l.foldl f s) := by
  intro l
  induction l with
  | nil => intro s hs _; exact hs
  | cons c r ih => intro s hs hf; exact ih (f s c) (hf s c hs) hf

theorem hsearch_enter_keeps (st : tfs_info) (key k : List Char)
    (data d : Option Int) (hk : st.htable k = some d) :
    (hsearch_enter st key data).htable k = some d := by
  unfold hsearch_enter
  cases hkey : st.htable key with
  | some x => exact hk
  | none =>
    dsimp only
    split_ifs with h1
    · exact hk
    · show (if k = key then some data else st.htable k) = some d
      have hne : k ≠ key := by
        intro e
        rw [e, hkey] at hk
        exact absurd hk (by simp)
      rw [if_neg hne]
      exact hk

theorem hcreate_loop_ge : ∀ (fuel nel : Nat), nel ≤ hcreate_loop fuel nel := by
  intro fuel
  induction fuel with
  | zero => intro nel; exact Nat.le_refl _
  | succ fuel ih =>
    intro nel
    unfold hcreate_loop
    split_ifs
    · exact Nat.le_refl _
    · have h := ih (nel + 2)
      omega

theorem hcreate_size_ge (nel : Nat) : 3 ≤ hcreate_size nel := by
  unfold hcreate_size
  have h3 : 3 ≤ max nel 3 := Nat.le_max_right _ _
  have h : ∀ x, 3 ≤ x → 3 ≤ hcreate_loop (max nel 3) x := fun x hx =>
    Nat.le_trans hx (hcreate_loop_ge _ x)
  apply h
  split_ifs <;> omega

theorem hsearch_enter_fresh (st : tfs_info) (key : List Char) (data : Option Int)
    (h1 : st.htable key = none) (h2 : st.hfilled ≠ st.hsize) :
    (hsearch_enter st key data).htable key = some data := by
  unfold hsearch_enter
  rw [h1]
  dsimp only
  rw [if_neg h2]
  dsimp only
  rw [if_pos rfl]

theorem hcreate_enter_root (st : tfs_info) (nel : Nat) (n : Int) :
    (hsearch_enter (hcreate st nel) ['/'] (some n)).htable ['/'] = some (some n) := by
  apply hsearch_enter_fresh
  · rfl
  · show 0 ≠ hcreate_size nel
    have h := hcreate_size_ge nel
    omega

theorem init_htable_keeps : ∀ (fuel : Nat) (st : tfs_info) (path : Option (List Char)) (n : Int)
    (k : List Char) (d : Option Int), st.htable k = some d →
    (init_htable fuel st path n).htable k = some d := by
  intro fuel
  induction fuel with
  | zero => intro st path n k d h; exact h
  | succ fuel ih =>
    intro st path n k d h
    unfold init_htable
    dsimp only
    by_cases hdir : ¬ (st.nodes n).isDir = true
    · rw [if_pos hdir]
      exact hsearch_enter_keeps _ _ _ _ _ h
    · rw [if_neg hdir]
      apply foldl_invariant (fun s : tfs_info => s.htable k = some d)
      · exact hsearch_enter_keeps _ _ _ _ _ h
      · intro s c hs
        exact ih s _ c k d hs

theorem tfs_load_root (fuel : Nat) (st : tfs_info) :
    get_node (tfs_load (fuel + 1) st) ['/'] = some 0 := by
  have h : (tfs_load (fuel + 1) st).htable ['/'] = some (some 0) := by
    unfold tfs_load init_htable
    dsimp only
    by_cases hdir : ¬ ((hcreate st (u64 st.nnodes).toNat).nodes 0).isDir = true
    · rw [if_pos hdir]
      exact hcreate_enter_root _ _ _
    · rw [if_neg hdir]
      apply foldl_invariant (fun s : tfs_info => s.htable ['/'] = some (some 0))
      · exact hcreate_enter_root _ _ _
      · intro s c hs
        exact init_htable_keeps fuel s _ c _ _ hs
  unfold get_node
  rw [h]

/-- C21 (the code at the failing input): on every mounted image the call
`tfs_remove_node("/")` returns 0 and nulls the cache entry of the root, so the live
cache reports `"/"` as not found; the cache that the next mount rebuilds maps `"/"`
to inode 0 again.  The two caches answer `get_node("/")` differently. -/
theorem tfs_load_differs_after_root_removal (st : tfs_info) (fuel fuel' : Nat) :
    get_node (tfs_load (fuel + 1) st) ['/'] = some 0 ∧
    ∃ s', tfs_remove_node (tfs_load (fuel + 1) st) ['/'] = some ⟨0, s'⟩ ∧
      get_node s' ['/'] = none ∧
      get_node (tfs_load (fuel' + 1) s') ['/'] = some 0 := by
  refine ⟨tfs_load_root fuel st, ?_⟩
  have hd : get_directory (tfs_load (fuel + 1) st) ['/'] = some 0 := by
    unfold get_directory
    rw [dirname_root]
    exact tfs_load_root fuel st
  obtain ⟨s', h1, _, h3, _⟩ := tfs_remove_node_ok (tfs_load (fuel + 1) st) ['/'] 0 0 hd
    (tfs_load_root fuel st)
  exact ⟨s', h1, h3, tfs_load_root fuel' s'⟩

/-- Removal of a directory that still has a child: after `"/d"` (a directory) and
`"/d/f"` are added to a fresh image and `"/d"` is removed, the live cache still
maps `"/d/f"` to inode 2, and the cache rebuilt by a mount has no such entry. -/
theorem tfs_remove_node_leaves_entries_of_children :
    ((((tfs_add_node (exImage 4) ['/', 'd'] S_IFDIR).bind
        (fun r => tfs_add_node r.st ['/', 'd', '/', 'f'] S_IFREG)).bind
        (fun r => tfs_remove_node r.st ['/', 'd'])).map
        (fun r => (r.ret, get_node r.st ['/', 'd', '/', 'f'],
          get_node (tfs_load 4 r.st) ['/', 'd', '/', 'f'],
          get_node (tfs_load 4 r.st) ['/']))) =
      some (0, some 2, none, some 0) := by
  decide

/-- The mount walk on a small tree: after `"/d"` (a directory) and `"/d/f"` are
added to a fresh image, the rebuilt cache maps `"/"`, `"/d"` and `"/d/f"` to the
inodes 0, 1 and 2, as the live cache does, and has no entry for `"/f"`. -/
theorem tfs_load_small_tree :
    (((tfs_add_node (exImage 4) ['/', 'd'] S_IFDIR).bind
        (fun r => tfs_add_node r.st ['/', 'd', '/', 'f'] S_IFREG)).map
        (fun r => (r.ret,
          [get_node r.st ['/'], get_node r.st ['/', 'd'], get_node r.st ['/', 'd', '/', 'f'],
            get_node r.st ['/', 'f']],
          [get_node (tfs_load 4 r.st) ['/'], get_node (tfs_load 4 r.st) ['/', 'd'],
            get_node (tfs_load 4 r.st) ['/', 'd', '/', 'f'],
            get_node (tfs_load 4 r.st) ['/', 'f']]))) =
      some (0, [some 0, some 1, some 2, none], [some 0, some 1, some 2, none]) := by
  decide

set_option maxRecDepth 100000 in
/-- C10 (evaluation at the failing input): the table of the cache that a mount of
`exImage 4` makes has 5 entries (`hcreate(4)`), one of them taken by `"/"`.  After
four files were created and deleted (`exFull`) all 5 are taken; `"/e"` is not
cached, its parent `"/"` is, inode 1 is free and so is block 0.  Then
`tfs_add_node("/e")` returns 0 and appends inode 1 to the root (`nlink = 1`,
children `[1]`), but `get_node("/e")` still finds nothing: `hsearch(ENTER)` fails
on the full table and `set_node` does not look at its result. -/
theorem tfs_add_node_drops_path_when_cache_full :
    ((tfs_load 2 (exImage 4)).hsize, (tfs_load 2 (exImage 4)).hfilled) =
      ((exImage 4).hsize, (exImage 4).hfilled) ∧
    exFull.map (fun s => (s.hsize, s.hfilled)) = some (5, 5) ∧
    exFull.map (fun s => (get_node s ['/', 'e'], get_directory s ['/', 'e'],
      s.free_node_head, s.free_block_head)) = some (none, some 0, 1, 0) ∧
    (exFull.bind (fun s => tfs_add_node s ['/', 'e'] 33188)).map
      (fun r => (r.ret, get_node r.st ['/', 'e'], (r.st.nodes 0).nlink,
        tfs_node_children r.st (r.st.nodes 0))) = some (0, none, 1, [1]) := by
  decide!

set_option maxRecDepth 100000 in
/-- C12 (evaluation at the failing input): on `exFull` (the cache table is full,
`"/e"` is not cached, its parent `"/"` is, inode 1 is free) the sequence of the
claim breaks at its third step: `tfs_add_node("/e")` returns 0 without entering
the path, the write through `fuse_tfs_write` finds no node and returns `-ENOENT`,
and `tfs_remove_node("/e")` then works on the NULL that `get_node` returns (the
model has no result for the call). -/
theorem tfs_remove_node_after_dropped_add :
    exFull.map (fun s => (get_node s ['/', 'e'], get_directory s ['/', 'e'],
      s.free_node_head)) = some (none, some 0, 1) ∧
    (exFull.bind (fun s => tfs_add_node s ['/', 'e'] 33188)).map
      (fun r => (r.ret, get_node r.st ['/', 'e'],
        (fuse_tfs_write r.st ['/', 'e'] exHello 5 0).ret,
        (tfs_remove_node (fuse_tfs_write r.st ['/', 'e'] exHello 5 0).st ['/', 'e']).isNone)) =
      some (0, none, -ENOENT, true) := by
  decide!

end TFS
